import Mathlib

deriving instance DecidableEq for Except

/-!
# Verification of the `better_kt_sqep` knowledge-graph store and codec

Shallow embedding of `src/graph/mod.rs`, `src/graph/node.rs` and
`src/graph/codec.rs` (a teaching knowledge-graph store with bounded
undo/redo history and an XML codec), together with proofs of the
specification's testable properties.

Modelling conventions:
* Rust `u64` values (entity ids, the id counter) are modelled as `Nat`;
  no operation of the library brings the counter anywhere near `2^64`,
  and no verified property depends on wrap-around.
* `im::HashMap` is modelled as an association list without duplicate
  keys (`SMap`).  Rust hash maps iterate in an unspecified order; the
  model fixes insertion order as the iteration order, which is one of
  the orders the code may exhibit and is unobservable in the verified
  properties (the decoder rebuilds its maps from scratch).
* `std::collections::HashSet<AddonEntityType>` is modelled as
  `Finset AddonEntityType` (the code only uses membership, insertion
  and iteration, and compares sets extensionally).
* `(f64, f64)` coordinates are modelled by `F64`: a double given by
  its canonical shortest decimal form (what `Display` prints, by Ryu
  distinct doubles print differently), plus the two infinities and
  `NaN`.  The library performs no arithmetic on coordinates, it only
  stores them, prints them with `Display` and parses them back with
  `f64::from_str`; `F64.peq` models the `PartialEq` the program
  compares them with (`NaN` unequal to itself, the two zeroes equal).
* `quick_xml` (serialisation to a string, the indenting re-writer and
  deserialisation) is modelled concretely at the string level for the
  fixed document schema of the codec: a character-level lexer for tags
  and text, the indenting writer, and a recursive-descent reader that
  ignores whitespace-only text between elements, as the library does.
-/

namespace KtSqep

/-! ## Entity and relation model (`src/graph/node.rs`) -/

/-- Addon entity types (附加实体类型). -/
inductive AddonEntityType
  | Knowledge
  | Thinking
  | Example
  | Question
  | Practice
  | Political
deriving DecidableEq, Repr, Fintype

/-- Distinct entity types (实体类型). -/
inductive DistinctEntityType
  | KnowledgeArena
  | KnowledgeUnit
  | KnowledgePoint
  | KnowledgeDetail
deriving DecidableEq, Repr, Fintype

/-- Relation types (关系类型).  `node.rs` additionally declares a
`KeyOrder` variant, but no match arm of the codec and no caller of the
store ever produces or consumes it (the specification flags this enum
drift as an open question); the embedding models the fragment the
program actually handles. -/
inductive Relation
  | Contain
  | Order
deriving DecidableEq, Repr, Fintype

/-- Errors of the graph store (`src/error.rs`). -/
inductive GraphError
  | EntityNotFound (id : Nat)
  | EdgeNotFound (from_ to_ : Nat)
  | NothingToUndo
  | NothingToRedo
deriving DecidableEq, Repr

/-- Codec errors (`src/error.rs`, the variants exercised by the codec). -/
inductive SerdeError
  | Serialize (msg : String)
  | Deserialize (msg : String)
  | Unexpected (field value : String)
deriving DecidableEq, Repr

/-! ## Association-list maps

The persistent hash maps of the `im` crate are modelled as association
lists without duplicate keys.  `setEntry` replaces the binding in place
or appends a fresh binding at the end, `findEntry` returns the first
binding, mirroring the extensional behaviour of `HashMap::insert` /
`HashMap::get`. -/

/-- Insert-or-replace on a raw association list. -/
def setEntry {α β : Type} [DecidableEq α] (k : α) (v : β) :
    List (α × β) → List (α × β)
  | [] => [(k, v)]
  | (k', v') :: rest =>
      if k = k' then (k, v) :: rest else (k', v') :: setEntry k v rest

/-- Lookup on a raw association list. -/
def findEntry {α β : Type} [DecidableEq α] (k : α) :
    List (α × β) → Option β
  | [] => none
  | (k', v') :: rest => if k = k' then some v' else findEntry k rest

/-- Pairwise key-distinctness of an association list. -/
def KeysNodup {α β : Type} (l : List (α × β)) : Prop :=
  l.Pairwise (fun p q => p.1 ≠ q.1)

instance {α β : Type} [DecidableEq α] (l : List (α × β)) :
    Decidable (KeysNodup l) := List.instDecidablePairwise l

/-- A finite map: an association list with pairwise distinct keys. -/
def SMap (α β : Type) : Type := { l : List (α × β) // KeysNodup l }

namespace SMap

variable {α β : Type} [DecidableEq α] [DecidableEq β]

instance : DecidableEq (SMap α β) := fun m n =>
  decidable_of_iff (m.val = n.val) Subtype.ext_iff.symm

theorem mem_setEntry {q : α × β} (k : α) (v : β) :
    ∀ l : List (α × β), q ∈ setEntry k v l → q ∈ l ∨ q = (k, v) := by
  intro l
  induction l with
  | nil => intro h; right; simpa [setEntry] using h
  | cons p rest ih =>
      intro h
      simp only [setEntry] at h
      by_cases hk : k = p.1
      · rw [if_pos hk] at h
        rcases List.mem_cons.1 h with h1 | h1
        · right; exact h1
        · left; exact List.mem_cons_of_mem _ h1
      · rw [if_neg hk] at h
        rcases List.mem_cons.1 h with h1 | h1
        · left; rw [h1]; exact List.mem_cons_self _ _
        · rcases ih h1 with h2 | h2
          · left; exact List.mem_cons_of_mem _ h2
          · right; exact h2

theorem setEntry_keysNodup (k : α) (v : β) :
    ∀ l : List (α × β), KeysNodup l → KeysNodup (setEntry k v l) := by
  intro l
  induction l with
  | nil => intro _; simp [setEntry, KeysNodup]
  | cons p rest ih =>
      intro h
      rw [KeysNodup, List.pairwise_cons] at h
      obtain ⟨hhead, htail⟩ := h
      by_cases hk : k = p.1
      · simp only [setEntry, if_pos hk]
        rw [KeysNodup, List.pairwise_cons]
        refine ⟨?_, htail⟩
        intro q hq
        show k ≠ q.1
        rw [hk]
        exact hhead q hq
      · simp only [setEntry, if_neg hk]
        rw [KeysNodup, List.pairwise_cons]
        refine ⟨?_, ih htail⟩
        intro q hq
        rcases mem_setEntry k v rest hq with h1 | h1
        · exact hhead q h1
        · rw [h1]
          show p.1 ≠ k
          exact fun hc => hk hc.symm

theorem filter_keysNodup (p : α × β → Bool) {l : List (α × β)}
    (h : KeysNodup l) : KeysNodup (l.filter p) :=
  List.Pairwise.sublist (List.filter_sublist l) h

/-- The empty map. -/
def empty : SMap α β := ⟨[], List.Pairwise.nil⟩

instance : EmptyCollection (SMap α β) := ⟨empty⟩

/-- Insert-or-replace (`im::HashMap::insert`). -/
def insert (k : α) (v : β) (m : SMap α β) : SMap α β :=
  ⟨setEntry k v m.val, setEntry_keysNodup k v m.val m.property⟩

/-- Lookup (`im::HashMap::get`). -/
def get (k : α) (m : SMap α β) : Option β := findEntry k m.val

/-- Key-membership (`im::HashMap::contains_key`). -/
def containsKey (k : α) (m : SMap α β) : Bool := (m.get k).isSome

/-- Remove a binding (`im::HashMap::remove` with the value dropped). -/
def erase (k : α) (m : SMap α β) : SMap α β :=
  ⟨m.val.filter (fun p => p.1 ≠ k),
   filter_keysNodup _ m.property⟩

/-- Keep bindings satisfying a predicate (`im::HashMap::retain`). -/
def retain (p : α → β → Bool) (m : SMap α β) : SMap α β :=
  ⟨m.val.filter (fun q => p q.1 q.2), filter_keysNodup _ m.property⟩

/-- Build a map from a list of bindings by repeated insertion, as the
`FromIterator` implementation of `im::HashMap` does. -/
def ofList (l : List (α × β)) : SMap α β :=
  l.foldl (fun m p => m.insert p.1 p.2) empty

theorem ext {m n : SMap α β} (h : m.val = n.val) : m = n := Subtype.ext h

@[simp] theorem get_empty (k : α) : (empty : SMap α β).get k = none := rfl

theorem findEntry_setEntry (k k' : α) (v : β) (l : List (α × β)) :
    findEntry k' (setEntry k v l) =
      if k' = k then some v else findEntry k' l := by
  induction l with
  | nil =>
      by_cases h : k' = k <;> simp [setEntry, findEntry, h]
  | cons p rest ih =>
      simp only [setEntry]
      by_cases hk : k = p.1
      · rw [if_pos hk]
        by_cases h : k' = k
        · subst h; simp [findEntry, hk]
        · simp only [findEntry, if_neg h]
          rw [if_neg (by rw [← hk]; exact h)]
      · rw [if_neg hk]
        by_cases h : k' = p.1
        · have hne : ¬ k' = k := by
            intro hc; rw [hc] at h; exact hk h
          simp only [findEntry, if_pos h, if_neg hne]
        · simp only [findEntry, if_neg h, ih]

@[simp] theorem get_insert (k k' : α) (v : β) (m : SMap α β) :
    (m.insert k v).get k' = if k' = k then some v else m.get k' :=
  findEntry_setEntry k k' v m.val

theorem findEntry_none_of_not_mem_keys (k : α) :
    ∀ l : List (α × β), (∀ r ∈ l, r.1 ≠ k) → findEntry k l = none := by
  intro l
  induction l with
  | nil => intro _; simp [findEntry]
  | cons r rs ihr =>
      intro hall
      simp only [findEntry]
      rw [if_neg (fun hc => (hall r (List.mem_cons_self _ _)) hc.symm)]
      exact ihr (fun x hx => hall x (List.mem_cons_of_mem _ hx))

theorem findEntry_filter (p : α × β → Bool) (k : α) :
    ∀ l : List (α × β), KeysNodup l →
      findEntry k (l.filter p) =
        match findEntry k l with
        | some v => if p (k, v) then some v else none
        | none => none := by
  intro l
  induction l with
  | nil => intro _; simp [findEntry]
  | cons q rest ih =>
      intro h
      obtain ⟨qk, qv⟩ := q
      rw [KeysNodup, List.pairwise_cons] at h
      obtain ⟨hhead, htail⟩ := h
      by_cases hk : k = qk
      · subst hk
        have hnot : findEntry k (rest.filter p) = none := by
          apply findEntry_none_of_not_mem_keys
          intro r hr
          exact ((hhead r (List.mem_of_mem_filter hr)).symm : r.1 ≠ k)
        rw [List.filter_cons]
        by_cases hp : p (k, qv)
        · rw [if_pos hp]
          simp [findEntry, hp]
        · rw [if_neg hp]
          rw [hnot]
          simp [findEntry, hp]
      · rw [List.filter_cons]
        by_cases hp : p (qk, qv)
        · rw [if_pos hp]
          simp only [findEntry, if_neg hk]
          exact ih htail
        · rw [if_neg hp]
          simp only [findEntry, if_neg hk]
          exact ih htail

@[simp] theorem get_erase (k k' : α) (m : SMap α β) :
    (m.erase k).get k' = if k' = k then none else m.get k' := by
  unfold erase get
  rw [findEntry_filter _ _ m.val m.property]
  by_cases h : k' = k
  · subst h
    cases hf : findEntry k' m.val <;> simp
  · cases hf : findEntry k' m.val <;> simp [h]

@[simp] theorem get_retain (p : α → β → Bool) (k : α) (m : SMap α β) :
    (m.retain p).get k =
      match m.get k with
      | some v => if p k v then some v else none
      | none => none := by
  unfold retain get
  rw [findEntry_filter _ _ m.val m.property]

end SMap

/-! ## `f64` coordinates

The library performs no arithmetic on coordinates: it stores them,
prints them with `Display` and parses them back with `f64::from_str`.
Rust's `Display` for `f64` prints the shortest decimal string that
parses back to exactly the same double (Ryu), without exponent
notation, and prints the special values as `NaN`, `inf` and `-inf`.
Distinct doubles therefore have distinct printed forms, and a double is
modelled faithfully by that canonical decimal form: an optional sign, a
list of integer-part digits with no leading zero (except the single
digit `0`), and a list of fraction digits with no trailing zero — plus
the two infinities and `NaN` (the sign of a `NaN` is not printed).
This universe includes the non-integral and non-finite coordinates the
program accepts. -/

/-- Strip leading zero digits, keeping one final `0`. -/
def stripLeadZeros : List Nat → List Nat
  | 0 :: d :: rest => stripLeadZeros (d :: rest)
  | l => l

/-- Strip every leading zero digit. -/
def stripAllZeros : List Nat → List Nat
  | 0 :: rest => stripAllZeros rest
  | l => l

/-- Canonical integer-part digits. -/
def normIp (l : List Nat) : List Nat := stripLeadZeros l

/-- Canonical fraction digits (no trailing zeros, possibly empty). -/
def normFp (l : List Nat) : List Nat := (stripAllZeros l.reverse).reverse

/-- The decimal shape of a printed double. -/
inductive F64Shape
  | finite (neg : Bool) (ip : List Nat) (fp : List Nat)
  | inf (neg : Bool)
  | nan
deriving DecidableEq, Repr

/-- A shape is canonical: non-empty integer digits below ten with no
leading zero, fraction digits below ten with no trailing zero. -/
def F64Shape.wf : F64Shape → Prop
  | F64Shape.finite _ ip fp =>
      ip ≠ [] ∧ (∀ d ∈ ip, d < 10) ∧ (∀ d ∈ fp, d < 10) ∧
      normIp ip = ip ∧ normFp fp = fp
  | F64Shape.inf _ => True
  | F64Shape.nan => True

instance (v : F64Shape) : Decidable v.wf := by
  cases v with
  | finite neg ip fp => unfold F64Shape.wf; infer_instance
  | inf neg => unfold F64Shape.wf; infer_instance
  | nan => unfold F64Shape.wf; infer_instance

/-- `f64`: a canonical decimal shape. -/
def F64 : Type := { v : F64Shape // v.wf }

instance : DecidableEq F64 := fun a b =>
  match decEq a.val b.val with
  | isTrue h => isTrue (Subtype.ext h)
  | isFalse h => isFalse (fun hc => h (congrArg Subtype.val hc))

/-- `0.0`. -/
def f64Zero : F64 := ⟨F64Shape.finite false [0] [], by decide⟩

/-- `1.0`. -/
def f64One : F64 := ⟨F64Shape.finite false [1] [], by decide⟩

/-- A `NaN`. -/
def f64NaN : F64 := ⟨F64Shape.nan, by decide⟩

/-- What a leading `-` does in `f64::from_str`. -/
def F64Shape.negate : F64Shape → F64Shape
  | F64Shape.finite _ ip fp => F64Shape.finite true ip fp
  | F64Shape.inf _ => F64Shape.inf true
  | F64Shape.nan => F64Shape.nan

theorem F64Shape.wf_negate (v : F64Shape) (h : v.wf) : v.negate.wf := by
  cases v with
  | finite neg ip fp => exact h
  | inf neg => trivial
  | nan => trivial

/-- `PartialEq::eq` on `f64`: `NaN` compares unequal to everything
(itself included) and the two zeroes compare equal; every other double
equals only itself. -/
def F64.peq (a b : F64) : Bool :=
  match a.val, b.val with
  | F64Shape.nan, _ => false
  | _, F64Shape.nan => false
  | F64Shape.inf n1, F64Shape.inf n2 => decide (n1 = n2)
  | F64Shape.finite n1 i1 f1, F64Shape.finite n2 i2 f2 =>
      decide (i1 = i2) && decide (f1 = f2) &&
        (decide (n1 = n2) || (decide (i1 = [0]) && decide (f1 = [])))
  | _, _ => false

theorem F64.peq_refl (v : F64) (h : v.val ≠ F64Shape.nan) :
    F64.peq v v = true := by
  obtain ⟨sh, hwf⟩ := v
  cases sh with
  | nan => exact absurd rfl h
  | inf n => simp [F64.peq]
  | finite n i f => simp [F64.peq]


/-! ## Snapshot and the versioned store (`src/graph/mod.rs`) -/

/-- An entity node (`EntityNode` in `node.rs`). -/
structure EntityNode where
  id : Nat
  content : String
  distinct_type : DistinctEntityType
  addon_types : Finset AddonEntityType
  coor : F64 × F64
deriving DecidableEq

namespace EntityNode

/-- `EntityNode::new`: addon types are collected into a set
(duplicates deduplicated). -/
def new (id : Nat) (content : String) (distinct_type : DistinctEntityType)
    (addon_types : List AddonEntityType) (coor : F64 × F64) : EntityNode :=
  { id, content, distinct_type, addon_types := addon_types.toFinset, coor }

/-- `EntityNode::update`: replaces every field except the id. -/
def update (n : EntityNode) (content : String)
    (distinct_type : DistinctEntityType)
    (addon_types : List AddonEntityType) (coor : F64 × F64) : EntityNode :=
  { n with content, distinct_type, addon_types := addon_types.toFinset, coor }

end EntityNode

/-- A knowledge-graph snapshot (`Snapshot` in `mod.rs`): the node map,
the edge map keyed by the ordered pair `(from, to)`, and the id
counter. -/
structure Snapshot where
  nodes : SMap Nat EntityNode
  edges : SMap (Nat × Nat) Relation
  latest_id : Nat
deriving DecidableEq

namespace Snapshot

/-- `Snapshot::default`: empty maps, counter starting at 1. -/
def default : Snapshot := { nodes := ∅, edges := ∅, latest_id := 1 }

end Snapshot

/-- The versioned store (`KnowledgeGraph` in `mod.rs`).  The undo and
redo stacks are `im::Vector`s used as deques; the head of the list is
the front (oldest) end, `push_back` appends at the tail. -/
structure KnowledgeGraph where
  current : Snapshot
  undo_stack : List Snapshot
  redo_stack : List Snapshot
  max_history : Nat
deriving DecidableEq

namespace KnowledgeGraph

/-- `KnowledgeGraph::default`. -/
def default : KnowledgeGraph :=
  { current := Snapshot.default, undo_stack := [], redo_stack := [],
    max_history := 100 }

/-- `KnowledgeGraph::from_snapshot`. -/
def from_snapshot (s : Snapshot) : KnowledgeGraph :=
  { default with current := s }

/-- `before_mutation`: clear the redo stack, evict the oldest history
entry when the stack is at capacity, push the current snapshot. -/
def before_mutation (g : KnowledgeGraph) : KnowledgeGraph :=
  { g with
    redo_stack := [],
    undo_stack :=
      (if g.max_history ≤ g.undo_stack.length
       then g.undo_stack.tail else g.undo_stack) ++ [g.current] }

/-- `undo`: pop the most recent history snapshot into `current`,
pushing the old `current` onto the redo stack. -/
def undo (g : KnowledgeGraph) : KnowledgeGraph × Option GraphError :=
  match g.undo_stack.getLast? with
  | none => (g, some GraphError.NothingToUndo)
  | some s =>
      ({ g with
         undo_stack := g.undo_stack.dropLast,
         redo_stack := g.redo_stack ++ [g.current],
         current := s }, none)

/-- `redo`: symmetric to `undo`. -/
def redo (g : KnowledgeGraph) : KnowledgeGraph × Option GraphError :=
  match g.redo_stack.getLast? with
  | none => (g, some GraphError.NothingToRedo)
  | some s =>
      ({ g with
         redo_stack := g.redo_stack.dropLast,
         undo_stack := g.undo_stack ++ [g.current],
         current := s }, none)

/-- `add_entity`: record a snapshot, allocate the next id, insert the
new node.  Returns the new store and the allocated id. -/
def add_entity (g : KnowledgeGraph) (content : String)
    (distinct_type : DistinctEntityType)
    (addon_types : List AddonEntityType) (coor : F64 × F64) :
    KnowledgeGraph × Nat :=
  let g := g.before_mutation
  let id := g.current.latest_id
  let cur :=
    { g.current with
      latest_id := id + 1,
      nodes := g.current.nodes.insert id
        (EntityNode.new id content distinct_type addon_types coor) }
  ({ g with current := cur }, id)

/-- `remove_entity`: record a snapshot; remove the node or fail with
`EntityNotFound`; cascade-remove every edge touching the id. -/
def remove_entity (g : KnowledgeGraph) (id : Nat) :
    KnowledgeGraph × Option GraphError :=
  let g := g.before_mutation
  match g.current.nodes.get id with
  | none => (g, some (GraphError.EntityNotFound id))
  | some _ =>
      let cur :=
        { g.current with
          nodes := g.current.nodes.erase id,
          edges := g.current.edges.retain
            (fun k _ => decide (k.1 ≠ id ∧ k.2 ≠ id)) }
      ({ g with current := cur }, none)

/-- `update_entity_content`: record a snapshot; update the node's
content fields in place (the position is kept) or fail. -/
def update_entity_content (g : KnowledgeGraph) (id : Nat)
    (content : String) (distinct_type : DistinctEntityType)
    (addon_types : List AddonEntityType) :
    KnowledgeGraph × Option GraphError :=
  let g := g.before_mutation
  match g.current.nodes.get id with
  | none => (g, some (GraphError.EntityNotFound id))
  | some n =>
      let cur :=
        { g.current with
          nodes := g.current.nodes.insert id
            (n.update content distinct_type addon_types n.coor) }
      ({ g with current := cur }, none)

/-- `update_entity_position`: record a snapshot; move the node or
fail. -/
def update_entity_position (g : KnowledgeGraph) (id : Nat)
    (new_pos : F64 × F64) : KnowledgeGraph × Option GraphError :=
  let g := g.before_mutation
  match g.current.nodes.get id with
  | none => (g, some (GraphError.EntityNotFound id))
  | some n =>
      let cur :=
        { g.current with
          nodes := g.current.nodes.insert id { n with coor := new_pos } }
      ({ g with current := cur }, none)

/-- `add_edge`: record a snapshot; check both endpoints (`from` first),
then insert the edge, overwriting any existing binding for the ordered
pair. -/
def add_edge (g : KnowledgeGraph) (from_ to_ : Nat) (relation : Relation) :
    KnowledgeGraph × Option GraphError :=
  let g := g.before_mutation
  if ¬ g.current.nodes.containsKey from_ then
    (g, some (GraphError.EntityNotFound from_))
  else if ¬ g.current.nodes.containsKey to_ then
    (g, some (GraphError.EntityNotFound to_))
  else
    ({ g with current :=
        { g.current with
          edges := g.current.edges.insert (from_, to_) relation } }, none)

/-- `remove_edge`: record a snapshot; remove the edge or fail. -/
def remove_edge (g : KnowledgeGraph) (from_ to_ : Nat) :
    KnowledgeGraph × Option GraphError :=
  let g := g.before_mutation
  match g.current.edges.get (from_, to_) with
  | none => (g, some (GraphError.EdgeNotFound from_ to_))
  | some _ =>
      ({ g with current :=
          { g.current with edges := g.current.edges.erase (from_, to_) } },
       none)

/-- `update_edge`: record a snapshot; replace the relation or fail. -/
def update_edge (g : KnowledgeGraph) (from_ to_ : Nat)
    (relation : Relation) : KnowledgeGraph × Option GraphError :=
  let g := g.before_mutation
  match g.current.edges.get (from_, to_) with
  | none => (g, some (GraphError.EdgeNotFound from_ to_))
  | some _ =>
      ({ g with current :=
          { g.current with
            edges := g.current.edges.insert (from_, to_) relation } },
       none)

end KnowledgeGraph


/-! ## Operations as data

`GraphOp` enumerates the mutating operations (every store call that runs
the before-mutation protocol); `StoreOp` additionally includes `undo`
and `redo`.  They let the verified properties quantify over arbitrary
call sequences. -/

/-- A mutating store operation together with its arguments. -/
inductive GraphOp
  | addEntity (content : String) (distinct_type : DistinctEntityType)
      (addon_types : List AddonEntityType) (coor : F64 × F64)
  | removeEntity (id : Nat)
  | updateEntityContent (id : Nat) (content : String)
      (distinct_type : DistinctEntityType)
      (addon_types : List AddonEntityType)
  | updateEntityPosition (id : Nat) (new_pos : F64 × F64)
  | addEdge (from_ to_ : Nat) (relation : Relation)
  | removeEdge (from_ to_ : Nat)
  | updateEdge (from_ to_ : Nat) (relation : Relation)
deriving DecidableEq

/-- Run a mutating operation, returning the new store and the error
result (`none` = `Ok`; the id returned by `add_entity` is dropped). -/
def GraphOp.apply (g : KnowledgeGraph) :
    GraphOp → KnowledgeGraph × Option GraphError
  | addEntity c dt ats coor => ((g.add_entity c dt ats coor).1, none)
  | removeEntity id => g.remove_entity id
  | updateEntityContent id c dt ats => g.update_entity_content id c dt ats
  | updateEntityPosition id pos => g.update_entity_position id pos
  | addEdge f t r => g.add_edge f t r
  | removeEdge f t => g.remove_edge f t
  | updateEdge f t r => g.update_edge f t r

/-- Any store operation, including `undo` and `redo`. -/
inductive StoreOp
  | mutate (op : GraphOp)
  | undoOp
  | redoOp
deriving DecidableEq

/-- Run an arbitrary store operation. -/
def StoreOp.apply (g : KnowledgeGraph) :
    StoreOp → KnowledgeGraph × Option GraphError
  | mutate op => op.apply g
  | undoOp => g.undo
  | redoOp => g.redo

/-- Run a sequence of mutating operations. -/
def GraphOp.applyList (g : KnowledgeGraph) :
    List GraphOp → KnowledgeGraph
  | [] => g
  | op :: ops => GraphOp.applyList (op.apply g).1 ops

/-- The snapshots current just before each operation of a sequence. -/
def GraphOp.prestates (g : KnowledgeGraph) :
    List GraphOp → List Snapshot
  | [] => []
  | op :: ops => g.current :: GraphOp.prestates (op.apply g).1 ops

/-- Run a sequence of arbitrary store operations. -/
def StoreOp.applyList (g : KnowledgeGraph) :
    List StoreOp → KnowledgeGraph
  | [] => g
  | op :: ops => StoreOp.applyList (op.apply g).1 ops

namespace KnowledgeGraph

@[simp] theorem before_mutation_current (g : KnowledgeGraph) :
    g.before_mutation.current = g.current := rfl

@[simp] theorem before_mutation_redo_stack (g : KnowledgeGraph) :
    g.before_mutation.redo_stack = [] := rfl

@[simp] theorem before_mutation_max_history (g : KnowledgeGraph) :
    g.before_mutation.max_history = g.max_history := rfl

theorem before_mutation_undo_stack (g : KnowledgeGraph) :
    g.before_mutation.undo_stack =
      (if g.max_history ≤ g.undo_stack.length
       then g.undo_stack.tail else g.undo_stack) ++ [g.current] := rfl

end KnowledgeGraph

/-- Every mutating operation leaves the history stacks exactly as the
before-mutation protocol does: redo cleared, the pre-mutation current
pushed (with eviction), the capacity unchanged. -/
theorem GraphOp.apply_frame (g : KnowledgeGraph) (op : GraphOp) :
    (GraphOp.apply g op).1.undo_stack = g.before_mutation.undo_stack ∧
    (GraphOp.apply g op).1.redo_stack = [] ∧
    (GraphOp.apply g op).1.max_history = g.max_history := by
  cases op with
  | addEntity c dt ats coor =>
      exact ⟨rfl, rfl, rfl⟩
  | removeEntity id =>
      cases hg : g.current.nodes.get id <;>
        simp [GraphOp.apply, KnowledgeGraph.remove_entity, hg]
  | updateEntityContent id c dt ats =>
      cases hg : g.current.nodes.get id <;>
        simp [GraphOp.apply, KnowledgeGraph.update_entity_content, hg]
  | updateEntityPosition id pos =>
      cases hg : g.current.nodes.get id <;>
        simp [GraphOp.apply, KnowledgeGraph.update_entity_position, hg]
  | addEdge f t r =>
      by_cases h1 : g.current.nodes.containsKey f <;>
        by_cases h2 : g.current.nodes.containsKey t <;>
          simp [GraphOp.apply, KnowledgeGraph.add_edge, h1, h2]
  | removeEdge f t =>
      cases hg : g.current.edges.get (f, t) <;>
        simp [GraphOp.apply, KnowledgeGraph.remove_edge, hg]
  | updateEdge f t r =>
      cases hg : g.current.edges.get (f, t) <;>
        simp [GraphOp.apply, KnowledgeGraph.update_edge, hg]

/-- A mutating operation that fails returns exactly the store produced
by the before-mutation protocol: nothing else was touched. -/
theorem GraphOp.apply_error_eq (g : KnowledgeGraph) (op : GraphOp)
    (e : GraphError) (h : (GraphOp.apply g op).2 = some e) :
    (GraphOp.apply g op).1 = g.before_mutation := by
  cases op with
  | addEntity c dt ats coor =>
      simp [GraphOp.apply, KnowledgeGraph.add_entity] at h
  | removeEntity id =>
      cases hg : g.current.nodes.get id <;>
        simp [GraphOp.apply, KnowledgeGraph.remove_entity, hg] at h ⊢
  | updateEntityContent id c dt ats =>
      cases hg : g.current.nodes.get id <;>
        simp [GraphOp.apply, KnowledgeGraph.update_entity_content, hg] at h ⊢
  | updateEntityPosition id pos =>
      cases hg : g.current.nodes.get id <;>
        simp [GraphOp.apply, KnowledgeGraph.update_entity_position, hg] at h ⊢
  | addEdge f t r =>
      by_cases h1 : g.current.nodes.containsKey f <;>
        by_cases h2 : g.current.nodes.containsKey t <;>
          simp [GraphOp.apply, KnowledgeGraph.add_edge, h1, h2] at h ⊢
  | removeEdge f t =>
      cases hg : g.current.edges.get (f, t) <;>
        simp [GraphOp.apply, KnowledgeGraph.remove_edge, hg] at h ⊢
  | updateEdge f t r =>
      cases hg : g.current.edges.get (f, t) <;>
        simp [GraphOp.apply, KnowledgeGraph.update_edge, hg] at h ⊢


/-! ## Claims about the store (C2, C3, C4, C6, C7, C8) -/

/-- C2: for every store state and every fallible store operation
(`remove_entity`, `update_entity_content`, `update_entity_position`,
`add_edge`, `remove_edge`, `update_edge`, `undo`, `redo`), if the call
returns an error then the `current` snapshot after the call equals the
`current` snapshot before the call (no partial mutation). -/
theorem C2_failed_call_leaves_current_untouched
    (g : KnowledgeGraph) (op : StoreOp) (e : GraphError)
    (h : (StoreOp.apply g op).2 = some e) :
    (StoreOp.apply g op).1.current = g.current := by
  cases op with
  | mutate m =>
      have heq := GraphOp.apply_error_eq g m e h
      show (GraphOp.apply g m).1.current = g.current
      rw [heq]
      rfl
  | undoOp =>
      cases hl : g.undo_stack.getLast? <;>
        simp [StoreOp.apply, KnowledgeGraph.undo, hl] at h ⊢
  | redoOp =>
      cases hl : g.redo_stack.getLast? <;>
        simp [StoreOp.apply, KnowledgeGraph.redo, hl] at h ⊢

/-- Witness for C2: removing an absent entity from the default store
fails and leaves `current` untouched. -/
theorem C2_witness :
    (StoreOp.apply KnowledgeGraph.default
      (StoreOp.mutate (GraphOp.removeEntity 1))).1.current =
      KnowledgeGraph.default.current :=
  C2_failed_call_leaves_current_untouched KnowledgeGraph.default
    (StoreOp.mutate (GraphOp.removeEntity 1))
    (GraphError.EntityNotFound 1) (by decide)

/-- C3: a fallible mutating operation (not `undo`/`redo`) that fails
has nevertheless cleared the redo stack and pushed a snapshot equal to
`current` onto the undo stack (evicting the oldest entry if at
capacity); consequently `redo` then fails with `NothingToRedo`, and
`undo` succeeds but leaves `current` unchanged. -/
theorem C3_failed_mutation_still_records_history
    (g : KnowledgeGraph) (op : GraphOp) (e : GraphError)
    (h : (GraphOp.apply g op).2 = some e) :
    (GraphOp.apply g op).1.redo_stack = [] ∧
    (GraphOp.apply g op).1.undo_stack =
      (if g.max_history ≤ g.undo_stack.length
       then g.undo_stack.tail else g.undo_stack) ++ [g.current] ∧
    ((GraphOp.apply g op).1.redo).2 = some GraphError.NothingToRedo ∧
    ((GraphOp.apply g op).1.undo).2 = none ∧
    ((GraphOp.apply g op).1.undo).1.current =
      (GraphOp.apply g op).1.current := by
  obtain ⟨hu, hr, hm⟩ := GraphOp.apply_frame g op
  have hcur : (GraphOp.apply g op).1.current = g.current := by
    rw [GraphOp.apply_error_eq g op e h]; rfl
  have hlast : (GraphOp.apply g op).1.undo_stack.getLast? =
      some g.current := by
    rw [hu, KnowledgeGraph.before_mutation_undo_stack]
    exact List.getLast?_concat _
  refine ⟨hr, ?_, ?_, ?_, ?_⟩
  · rw [hu, KnowledgeGraph.before_mutation_undo_stack]
  · simp [KnowledgeGraph.redo, hr]
  · simp [KnowledgeGraph.undo, hlast]
  · simp [KnowledgeGraph.undo, hlast, hcur]

/-- Witness for C3: a failing `remove_entity` on the default store. -/
theorem C3_witness :
    (GraphOp.apply KnowledgeGraph.default (GraphOp.removeEntity 1)).1.redo_stack = [] ∧
    (GraphOp.apply KnowledgeGraph.default (GraphOp.removeEntity 1)).1.undo_stack =
      (if KnowledgeGraph.default.max_history ≤ KnowledgeGraph.default.undo_stack.length
       then KnowledgeGraph.default.undo_stack.tail
       else KnowledgeGraph.default.undo_stack) ++ [KnowledgeGraph.default.current] ∧
    ((GraphOp.apply KnowledgeGraph.default (GraphOp.removeEntity 1)).1.redo).2 =
      some GraphError.NothingToRedo ∧
    ((GraphOp.apply KnowledgeGraph.default (GraphOp.removeEntity 1)).1.undo).2 = none ∧
    ((GraphOp.apply KnowledgeGraph.default (GraphOp.removeEntity 1)).1.undo).1.current =
      (GraphOp.apply KnowledgeGraph.default (GraphOp.removeEntity 1)).1.current :=
  C3_failed_mutation_still_records_history KnowledgeGraph.default
    (GraphOp.removeEntity 1) (GraphError.EntityNotFound 1) (by decide)

/-- C4: after a successful mutating call, `undo` succeeds and restores
the snapshot current before the mutation, and `redo` right after that
`undo` succeeds and restores the snapshot current after the mutation. -/
theorem C4_undo_then_redo_restore_snapshots
    (g : KnowledgeGraph) (op : GraphOp)
    (h : (GraphOp.apply g op).2 = none) :
    ((GraphOp.apply g op).1.undo).2 = none ∧
    ((GraphOp.apply g op).1.undo).1.current = g.current ∧
    (((GraphOp.apply g op).1.undo).1.redo).2 = none ∧
    (((GraphOp.apply g op).1.undo).1.redo).1.current =
      (GraphOp.apply g op).1.current := by
  obtain ⟨hu, hr, hm⟩ := GraphOp.apply_frame g op
  have hlast : (GraphOp.apply g op).1.undo_stack.getLast? =
      some g.current := by
    rw [hu, KnowledgeGraph.before_mutation_undo_stack]
    exact List.getLast?_concat _
  refine ⟨?_, ?_, ?_, ?_⟩ <;>
    simp [KnowledgeGraph.undo, KnowledgeGraph.redo, hlast, hr]

/-- Witness for C4: adding an entity to the default store, undoing and
redoing. -/
theorem C4_witness :
    ((GraphOp.apply KnowledgeGraph.default
        (GraphOp.addEntity "A" DistinctEntityType.KnowledgeArena [] (f64Zero, f64Zero))).1.undo).2 = none ∧
    ((GraphOp.apply KnowledgeGraph.default
        (GraphOp.addEntity "A" DistinctEntityType.KnowledgeArena [] (f64Zero, f64Zero))).1.undo).1.current =
      KnowledgeGraph.default.current ∧
    (((GraphOp.apply KnowledgeGraph.default
        (GraphOp.addEntity "A" DistinctEntityType.KnowledgeArena [] (f64Zero, f64Zero))).1.undo).1.redo).2 = none ∧
    (((GraphOp.apply KnowledgeGraph.default
        (GraphOp.addEntity "A" DistinctEntityType.KnowledgeArena [] (f64Zero, f64Zero))).1.undo).1.redo).1.current =
      (GraphOp.apply KnowledgeGraph.default
        (GraphOp.addEntity "A" DistinctEntityType.KnowledgeArena [] (f64Zero, f64Zero))).1.current :=
  C4_undo_then_redo_restore_snapshots KnowledgeGraph.default
    (GraphOp.addEntity "A" DistinctEntityType.KnowledgeArena [] (f64Zero, f64Zero)) (by decide)

/-- C6: every mutating call clears the redo stack, so after the
sequence mutate, undo, mutate-again, a `redo` fails with
`NothingToRedo` (no branching timeline). -/
theorem C6_mutation_clears_redo_no_branching
    (g : KnowledgeGraph) (op1 op2 : GraphOp) :
    (GraphOp.apply g op1).1.redo_stack = [] ∧
    ((GraphOp.apply ((GraphOp.apply g op1).1.undo).1 op2).1.redo).2 =
      some GraphError.NothingToRedo := by
  refine ⟨(GraphOp.apply_frame g op1).2.1, ?_⟩
  obtain ⟨-, hr2, -⟩ :=
    GraphOp.apply_frame ((GraphOp.apply g op1).1.undo).1 op2
  simp [KnowledgeGraph.redo, hr2]

/-- C7: `add_edge` fails with `EntityNotFound` when an endpoint is
missing (`from` is checked first); when both endpoints exist it
succeeds and overwrites the stored relation for the ordered pair. -/
theorem C7_add_edge_endpoint_checks_and_overwrite
    (g : KnowledgeGraph) (from_ to_ : Nat) (r : Relation) :
    (g.current.nodes.get from_ = none →
      (g.add_edge from_ to_ r).2 =
        some (GraphError.EntityNotFound from_)) ∧
    ((g.current.nodes.get from_).isSome →
      g.current.nodes.get to_ = none →
      (g.add_edge from_ to_ r).2 =
        some (GraphError.EntityNotFound to_)) ∧
    ((g.current.nodes.get from_).isSome →
      (g.current.nodes.get to_).isSome →
      (g.add_edge from_ to_ r).2 = none ∧
      (g.add_edge from_ to_ r).1.current.edges =
        g.current.edges.insert (from_, to_) r ∧
      (g.add_edge from_ to_ r).1.current.edges.get (from_, to_) =
        some r) := by
  refine ⟨?_, ?_, ?_⟩
  · intro h
    simp [KnowledgeGraph.add_edge, SMap.containsKey, h]
  · intro h1 h2
    simp [KnowledgeGraph.add_edge, SMap.containsKey, h1, h2]
  · intro h1 h2
    refine ⟨?_, ?_, ?_⟩ <;>
      simp [KnowledgeGraph.add_edge, SMap.containsKey, h1, h2]

/-- A small concrete store: two entities (ids 1 and 2) and the edge
`(1, 2) -> Contain`. -/
def wGraph : KnowledgeGraph :=
  (((KnowledgeGraph.default.add_entity "A"
      DistinctEntityType.KnowledgeArena [] (f64Zero, f64Zero)).1.add_entity "B"
      DistinctEntityType.KnowledgePoint
      [AddonEntityType.Example, AddonEntityType.Question]
      (f64One, f64One)).1.add_edge
      1 2 Relation.Contain).1

/-- Witness for C7: overwriting the existing edge `(1, 2)` succeeds and
stores the new relation. -/
theorem C7_witness :
    (wGraph.add_edge 1 2 Relation.Order).2 = none ∧
    (wGraph.add_edge 1 2 Relation.Order).1.current.edges.get (1, 2) =
      some Relation.Order :=
  ⟨((C7_add_edge_endpoint_checks_and_overwrite wGraph 1 2
      Relation.Order).2.2 (by decide) (by decide)).1,
   ((C7_add_edge_endpoint_checks_and_overwrite wGraph 1 2
      Relation.Order).2.2 (by decide) (by decide)).2.2⟩

/-- C8: `remove_entity` fails with `EntityNotFound` on an absent id;
on success it removes exactly that node and exactly the edges touching
the id. -/
theorem C8_remove_entity_cascade
    (g : KnowledgeGraph) (id : Nat) :
    (g.current.nodes.get id = none →
      (g.remove_entity id).2 = some (GraphError.EntityNotFound id)) ∧
    ((g.current.nodes.get id).isSome →
      (g.remove_entity id).2 = none ∧
      (∀ j, (g.remove_entity id).1.current.nodes.get j =
        if j = id then none else g.current.nodes.get j) ∧
      (∀ f t, (g.remove_entity id).1.current.edges.get (f, t) =
        if f = id ∨ t = id then none
        else g.current.edges.get (f, t))) := by
  constructor
  · intro h
    simp [KnowledgeGraph.remove_entity, h]
  · intro h
    obtain ⟨n, hn⟩ := Option.isSome_iff_exists.1 h
    refine ⟨?_, ?_, ?_⟩
    · simp [KnowledgeGraph.remove_entity, hn]
    · intro j
      simp [KnowledgeGraph.remove_entity, hn]
    · intro f t
      simp only [KnowledgeGraph.remove_entity,
        KnowledgeGraph.before_mutation_current, hn, SMap.get_retain]
      rcases hget : g.current.edges.get (f, t) with _ | v
      · simp [hget]
      · by_cases hf : f = id
        · simp [hget, hf]
        · by_cases ht : t = id
          · simp [hget, hf, ht]
          · simp [hget, hf, ht]

/-- Witness for C8: removing entity 1 of the two-entity store removes
the node and its incident edge. -/
theorem C8_witness :
    (wGraph.remove_entity 1).2 = none ∧
    (wGraph.remove_entity 1).1.current.nodes.get 1 = none ∧
    (wGraph.remove_entity 1).1.current.edges.get (1, 2) = none := by
  have h := (C8_remove_entity_cascade wGraph 1).2 (by decide)
  refine ⟨h.1, ?_, ?_⟩
  · simpa using h.2.1 1
  · simpa using h.2.2 1 2


/-! ## Claim C5: bounded history with FIFO eviction -/

/-- The history invariant: the two stacks together never hold more than
`max_history` snapshots (and the capacity is positive, as the only
capacity the code ever configures is 100). -/
def HistInv (g : KnowledgeGraph) : Prop :=
  g.undo_stack.length + g.redo_stack.length ≤ g.max_history ∧
  1 ≤ g.max_history

theorem StoreOp.apply_max_history (g : KnowledgeGraph) (op : StoreOp) :
    (StoreOp.apply g op).1.max_history = g.max_history := by
  cases op with
  | mutate m => exact (GraphOp.apply_frame g m).2.2
  | undoOp =>
      cases hl : g.undo_stack.getLast? <;>
        simp [StoreOp.apply, KnowledgeGraph.undo, hl]
  | redoOp =>
      cases hl : g.redo_stack.getLast? <;>
        simp [StoreOp.apply, KnowledgeGraph.redo, hl]

theorem StoreOp.applyList_max_history (ops : List StoreOp) :
    ∀ g : KnowledgeGraph,
      (StoreOp.applyList g ops).max_history = g.max_history := by
  induction ops with
  | nil => intro g; rfl
  | cons op ops ih =>
      intro g
      rw [StoreOp.applyList, ih, StoreOp.apply_max_history]

/-- Every operation, including `undo` and `redo` (which push onto a
stack without the eviction check), preserves the history invariant:
what `undo`/`redo` push was just popped from the other stack. -/
theorem HistInv_apply (g : KnowledgeGraph) (op : StoreOp)
    (h : HistInv g) : HistInv (StoreOp.apply g op).1 := by
  obtain ⟨hsum, hmax⟩ := h
  cases op with
  | mutate m =>
      obtain ⟨hu, hr, hm⟩ := GraphOp.apply_frame g m
      show HistInv (GraphOp.apply g m).1
      constructor
      · rw [hu, KnowledgeGraph.before_mutation_undo_stack, hr, hm]
        simp only [List.length_append, List.length_cons, List.length_nil]
        by_cases hc : g.max_history ≤ g.undo_stack.length
        · rw [if_pos hc]
          simp only [List.length_tail]
          omega
        · rw [if_neg hc]
          omega
      · rw [hm]; exact hmax
  | undoOp =>
      show HistInv (g.undo).1
      cases hl : g.undo_stack.getLast? with
      | none =>
          simp only [KnowledgeGraph.undo, hl]
          exact ⟨hsum, hmax⟩
      | some s =>
          have hne : g.undo_stack ≠ [] := by
            intro hc; rw [hc] at hl; simp at hl
          have hpos : 1 ≤ g.undo_stack.length := List.length_pos.2 hne
          simp only [KnowledgeGraph.undo, hl]
          constructor
          · simp only [List.length_dropLast, List.length_append,
              List.length_cons, List.length_nil]
            omega
          · exact hmax
  | redoOp =>
      show HistInv (g.redo).1
      cases hl : g.redo_stack.getLast? with
      | none =>
          simp only [KnowledgeGraph.redo, hl]
          exact ⟨hsum, hmax⟩
      | some s =>
          have hne : g.redo_stack ≠ [] := by
            intro hc; rw [hc] at hl; simp at hl
          have hpos : 1 ≤ g.redo_stack.length := List.length_pos.2 hne
          simp only [KnowledgeGraph.redo, hl]
          constructor
          · simp only [List.length_dropLast, List.length_append,
              List.length_cons, List.length_nil]
            omega
          · exact hmax

theorem HistInv_applyList (ops : List StoreOp) :
    ∀ g : KnowledgeGraph, HistInv g →
      HistInv (StoreOp.applyList g ops) := by
  induction ops with
  | nil => intro g h; exact h
  | cons op ops ih => intro g h; exact ih _ (HistInv_apply g op h)

theorem GraphOp.prestates_length (ops : List GraphOp) :
    ∀ g : KnowledgeGraph, (GraphOp.prestates g ops).length = ops.length := by
  induction ops with
  | nil => intro g; rfl
  | cons op ops ih =>
      intro g
      rw [GraphOp.prestates, List.length_cons, ih]
      simp

/-- Shape of the undo stack along a pure mutation sequence: it is the
suffix of the list of pre-mutation snapshots that fits in the capacity
(the oldest entries are evicted first). -/
theorem GraphOp.applyList_undo_stack_drop (ops : List GraphOp) :
    ∀ (g : KnowledgeGraph) (P : List Snapshot),
      1 ≤ g.max_history →
      g.undo_stack = P.drop (P.length - g.max_history) →
      (GraphOp.applyList g ops).undo_stack =
        (P ++ GraphOp.prestates g ops).drop
          ((P ++ GraphOp.prestates g ops).length - g.max_history) := by
  induction ops with
  | nil =>
      intro g P hm hP
      simpa [GraphOp.applyList, GraphOp.prestates] using hP
  | cons op ops ih =>
      intro g P hm hP
      obtain ⟨hu, hr, hmax⟩ := GraphOp.apply_frame g op
      have hlen : g.undo_stack.length =
          P.length - (P.length - g.max_history) := by
        rw [hP, List.length_drop]
      have hg1 : (GraphOp.apply g op).1.undo_stack =
          (P ++ [g.current]).drop
            ((P ++ [g.current]).length - g.max_history) := by
        rw [hu, KnowledgeGraph.before_mutation_undo_stack]
        simp only [List.length_append, List.length_cons, List.length_nil]
        by_cases hc : g.max_history ≤ g.undo_stack.length
        · have hPm : g.max_history ≤ P.length := by omega
          rw [if_pos hc, hP, List.tail_drop]
          rw [List.drop_append_of_le_length (by omega)]
          have harith : P.length - g.max_history + 1 =
              P.length + (0 + 1) - g.max_history := by omega
          rw [harith]
        · have hPm : P.length < g.max_history := by omega
          have h0 : P.length - g.max_history = 0 := by omega
          have h1 : P.length + (0 + 1) - g.max_history = 0 := by omega
          rw [if_neg hc, hP, h0, h1]
          simp
      have hrec := ih (GraphOp.apply g op).1 (P ++ [g.current])
        (by rw [hmax]; exact hm) (by rw [hmax]; exact hg1)
      show (GraphOp.applyList (GraphOp.apply g op).1 ops).undo_stack = _
      rw [hrec, hmax]
      have hps : GraphOp.prestates g (op :: ops) =
          g.current :: GraphOp.prestates (GraphOp.apply g op).1 ops := rfl
      rw [hps]
      have hassoc : P ++ [g.current] ++
          GraphOp.prestates (GraphOp.apply g op).1 ops =
          P ++ (g.current :: GraphOp.prestates (GraphOp.apply g op).1 ops) := by
        simp
      rw [hassoc]

/-- C5: reachable stores never hold more than 100 undo entries (even
through `undo`/`redo`, which push without the eviction check), and
after `100 + k` mutations exactly the `k` oldest pre-mutation
snapshots have been evicted from the undo stack (FIFO). -/
theorem C5_undo_stack_bounded_fifo :
    (∀ (s : Snapshot) (ops : List StoreOp),
      (StoreOp.applyList (KnowledgeGraph.from_snapshot s) ops).undo_stack.length ≤ 100) ∧
    (∀ (s : Snapshot) (ops : List GraphOp) (k : Nat),
      ops.length = 100 + k →
      (GraphOp.applyList (KnowledgeGraph.from_snapshot s) ops).undo_stack =
        (GraphOp.prestates (KnowledgeGraph.from_snapshot s) ops).drop k) := by
  constructor
  · intro s ops
    have hinv : HistInv (KnowledgeGraph.from_snapshot s) := by
      constructor
      · show 0 + 0 ≤ 100
        omega
      · show 1 ≤ 100
        omega
    have hfin := HistInv_applyList ops _ hinv
    have hmaxf := StoreOp.applyList_max_history ops
      (KnowledgeGraph.from_snapshot s)
    have h100 : (StoreOp.applyList (KnowledgeGraph.from_snapshot s) ops).max_history = 100 := hmaxf
    have hb := hfin.1
    rw [h100] at hb
    omega
  · intro s ops k hk
    have h := GraphOp.applyList_undo_stack_drop ops
      (KnowledgeGraph.from_snapshot s) []
      (by show 1 ≤ 100; omega) (by rfl)
    rw [h]
    simp only [List.nil_append]
    rw [GraphOp.prestates_length]
    have hm100 : (KnowledgeGraph.from_snapshot s).max_history = 100 := rfl
    rw [hm100, hk]
    congr 1
    omega

/-- Witness for C5. -/
theorem C5_witness :
    (StoreOp.applyList (KnowledgeGraph.from_snapshot Snapshot.default) []).undo_stack.length ≤ 100 ∧
    (GraphOp.applyList (KnowledgeGraph.from_snapshot Snapshot.default)
        (List.replicate 100 (GraphOp.removeEntity 0))).undo_stack =
      (GraphOp.prestates (KnowledgeGraph.from_snapshot Snapshot.default)
        (List.replicate 100 (GraphOp.removeEntity 0))).drop 0 :=
  ⟨C5_undo_stack_bounded_fifo.1 Snapshot.default [],
   C5_undo_stack_bounded_fifo.2 Snapshot.default
     (List.replicate 100 (GraphOp.removeEntity 0)) 0 (by simp)⟩


/-! ## Decimal numerals

The codec prints ids and coordinates in decimal (`itoa`/`ryu` through
`quick_xml`) and parses them back with `FromStr`.  Both directions are
modelled concretely, fuel-structured so that they evaluate inside the
kernel. -/

/-- The decimal digit character for a value below ten. -/
def digitChar (n : Nat) : Char :=
  match n with
  | 0 => '0' | 1 => '1' | 2 => '2' | 3 => '3' | 4 => '4'
  | 5 => '5' | 6 => '6' | 7 => '7' | 8 => '8' | _ => '9'

/-- Decimal digits of `n`, most significant first (`fuel` bounds the
recursion depth; any fuel above the digit count is enough). -/
def natReprAux : Nat → Nat → List Char
  | 0, _ => []
  | fuel + 1, n =>
      if n < 10 then [digitChar n]
      else natReprAux fuel (n / 10) ++ [digitChar (n % 10)]

/-- Decimal representation of a natural number. -/
def natRepr (n : Nat) : String := String.mk (natReprAux (n + 1) n)

/-- The value of a decimal digit character. -/
def digitVal (c : Char) : Option Nat :=
  if c = '0' then some 0 else if c = '1' then some 1
  else if c = '2' then some 2 else if c = '3' then some 3
  else if c = '4' then some 4 else if c = '5' then some 5
  else if c = '6' then some 6 else if c = '7' then some 7
  else if c = '8' then some 8 else if c = '9' then some 9
  else none

/-- Left-to-right accumulation of decimal digits. -/
def parseNatAux : List Char → Nat → Option Nat
  | [], acc => some acc
  | c :: cs, acc =>
      match digitVal c with
      | none => none
      | some d => parseNatAux cs (acc * 10 + d)

/-- Parse a non-empty all-digit string (`u64::from_str`). -/
def parseNat (s : String) : Option Nat :=
  if s.data.isEmpty then none else parseNatAux s.data 0

/-- `Display` for `f64`: optional sign, the integer digits, and the
fraction digits after a point when there are any; `NaN`, `inf` and
`-inf` for the special values. -/
def f64Repr (v : F64) : String :=
  match v.val with
  | F64Shape.nan => "NaN"
  | F64Shape.inf true => "-inf"
  | F64Shape.inf false => "inf"
  | F64Shape.finite neg ip fp =>
      String.mk ((if neg then ['-'] else []) ++ ip.map digitChar ++
        (if fp.isEmpty then [] else '.' :: fp.map digitChar))

/-- The run of decimal digits at the front of the input: their values
and the rest of the input. -/
def parseIpDigits : List Char → List Nat × List Char
  | [] => ([], [])
  | c :: cs =>
      match digitVal c with
      | some d =>
          match parseIpDigits cs with
          | (ds, r) => (d :: ds, r)
      | none => ([], c :: cs)

/-- Parse an all-digit run. -/
def parseDigits : List Char → Option (List Nat)
  | [] => some []
  | c :: cs =>
      match digitVal c with
      | none => none
      | some d => (parseDigits cs).map (fun ds => d :: ds)

/-- The unsigned magnitude of the modelled fragment of
`f64::from_str`: `NaN`, `inf`, or digits with an optional non-empty
fraction.  The digits are normalised, since numerically equal decimal
strings parse to the same double. -/
def parseF64Mag (l : List Char) : Option F64Shape :=
  match parseIpDigits l with
  | ([], _) =>
      if l = ['N', 'a', 'N'] then some F64Shape.nan
      else if l = ['i', 'n', 'f'] then some (F64Shape.inf false)
      else none
  | (ip0, r) =>
      match r with
      | [] => some (F64Shape.finite false (normIp ip0) [])
      | '.' :: fpChars =>
          match fpChars, parseDigits fpChars with
          | _ :: _, some fp0 =>
              some (F64Shape.finite false (normIp ip0) (normFp fp0))
          | _, _ => none
      | _ => none

/-- Package a shape as a double, checking canonicity (the grammar
above only produces canonical shapes). -/
def mkF64 (sh : F64Shape) : Option F64 :=
  if h : sh.wf then some ⟨sh, h⟩ else none

/-- The modelled fragment of `f64::from_str`: an optional leading
sign, then a magnitude. -/
def parseF64Chars (l : List Char) : Option F64 :=
  match l with
  | [] => none
  | c :: rest =>
      if c = '-' then (parseF64Mag rest).map F64Shape.negate >>= mkF64
      else parseF64Mag (c :: rest) >>= mkF64

/-- Parse a printed double. -/
def parseF64 (s : String) : Option F64 := parseF64Chars s.data

theorem digitVal_digitChar (d : Nat) (h : d < 10) :
    digitVal (digitChar d) = some d := by
  interval_cases d <;> rfl

/-- Rust `char::is_ascii`: the code point is at most `0x7F`. -/
def charIsAscii (c : Char) : Bool := decide (c.toNat ≤ 127)

theorem digitChar_ne_semicolon (d : Nat) (h : d < 10) :
    digitChar d ≠ Char.ofNat 59 := by
  interval_cases d <;> decide

theorem digitChar_isAscii (d : Nat) (h : d < 10) :
    charIsAscii (digitChar d) = true := by
  interval_cases d <;> decide

theorem digitChar_ne_lt (d : Nat) (h : d < 10) :
    digitChar d ≠ Char.ofNat 60 := by
  interval_cases d <;> decide

theorem digitChar_ne_dash (d : Nat) (h : d < 10) :
    digitChar d ≠ Char.ofNat 45 := by
  interval_cases d <;> decide

theorem natReprAux_ne_nil (fuel n : Nat) (h : 1 ≤ fuel) :
    natReprAux fuel n ≠ [] := by
  cases fuel with
  | zero => omega
  | succ fuel =>
      rw [natReprAux]
      by_cases hn : n < 10
      · simp [hn]
      · simp [hn]

theorem parseNatAux_append (ds es : List Char) :
    ∀ acc, parseNatAux (ds ++ es) acc =
      match parseNatAux ds acc with
      | some a => parseNatAux es a
      | none => none := by
  induction ds with
  | nil => intro acc; rfl
  | cons c cs ih =>
      intro acc
      rw [List.cons_append, parseNatAux, parseNatAux]
      cases digitVal c with
      | none => rfl
      | some d => exact ih (acc * 10 + d)

theorem parseNatAux_natReprAux :
    ∀ (fuel n acc : Nat), n < 10 ^ fuel →
      parseNatAux (natReprAux fuel n) acc =
        some (acc * 10 ^ (natReprAux fuel n).length + n) := by
  intro fuel
  induction fuel with
  | zero => intro n acc h; simp at h; simp [natReprAux, parseNatAux, h]
  | succ fuel ih =>
      intro n acc h
      rw [natReprAux]
      by_cases hn : n < 10
      · rw [if_pos hn]
        simp [parseNatAux, digitVal_digitChar n hn]
      · rw [if_neg hn]
        have hdiv : n / 10 < 10 ^ fuel := by
          have h10 : (0 : Nat) < 10 := by omega
          rw [Nat.div_lt_iff_lt_mul h10]
          calc n < 10 ^ (fuel + 1) := h
            _ = 10 ^ fuel * 10 := by ring
        rw [parseNatAux_append]
        rw [ih (n / 10) acc hdiv]
        simp only [parseNatAux, digitVal_digitChar (n % 10) (Nat.mod_lt n (by omega))]
        rw [List.length_append]
        simp only [List.length_cons, List.length_nil]
        have hpow : (10 : Nat) ^ (List.length (natReprAux fuel (n / 10)) + (0 + 1)) =
            10 ^ List.length (natReprAux fuel (n / 10)) * 10 := by ring
        rw [hpow, ← mul_assoc]
        congr 1
        generalize acc * 10 ^ List.length (natReprAux fuel (n / 10)) = A
        omega

theorem parseNat_natRepr (n : Nat) : parseNat (natRepr n) = some n := by
  have hlt : n < 10 ^ (n + 1) :=
    lt_of_lt_of_le (Nat.lt_pow_self (by omega) n)
      (Nat.pow_le_pow_right (by omega) (by omega))
  rw [natRepr, parseNat]
  rw [if_neg (by
    simpa [List.isEmpty_iff] using natReprAux_ne_nil (n + 1) n (by omega))]
  rw [parseNatAux_natReprAux (n + 1) n 0 hlt]
  simp

theorem natReprAux_all_digits (fuel : Nat) :
    ∀ (n : Nat), ∀ c ∈ natReprAux fuel n, ∃ d, d < 10 ∧ c = digitChar d := by
  induction fuel with
  | zero => intro n c hc; simp [natReprAux] at hc
  | succ fuel ih =>
      intro n c hc
      rw [natReprAux] at hc
      by_cases hn : n < 10
      · rw [if_pos hn] at hc
        simp at hc
        exact ⟨n, hn, hc⟩
      · rw [if_neg hn] at hc
        rcases List.mem_append.1 hc with h1 | h1
        · exact ih (n / 10) c h1
        · simp at h1
          exact ⟨n % 10, Nat.mod_lt n (by omega), h1⟩

theorem digitChar_ne_dot (d : Nat) (h : d < 10) :
    digitChar d ≠ Char.ofNat 46 := by
  interval_cases d <;> decide

theorem parseIpDigits_digits (l : List Nat) (hl : ∀ d ∈ l, d < 10) :
    ∀ r, r = [] ∨ (∃ r2, r = '.' :: r2) →
      parseIpDigits (l.map digitChar ++ r) = (l, r) := by
  induction l with
  | nil =>
      intro r hr
      rcases hr with rfl | ⟨r2, rfl⟩
      · rfl
      · rfl
  | cons d ds ih =>
      intro r hr
      rw [List.map_cons, List.cons_append, parseIpDigits]
      rw [digitVal_digitChar d (hl d (List.mem_cons_self _ _))]
      rw [ih (fun x hx => hl x (List.mem_cons_of_mem _ hx)) r hr]

theorem parseDigits_map (l : List Nat) (hl : ∀ d ∈ l, d < 10) :
    parseDigits (l.map digitChar) = some l := by
  induction l with
  | nil => rfl
  | cons d ds ih =>
      rw [List.map_cons, parseDigits,
        digitVal_digitChar d (hl d (List.mem_cons_self _ _)),
        ih (fun x hx => hl x (List.mem_cons_of_mem _ hx))]
      rfl

theorem parseF64Mag_canonical (ip fp : List Nat) (hne : ip ≠ [])
    (hip : ∀ d ∈ ip, d < 10) (hfp : ∀ d ∈ fp, d < 10)
    (hni : normIp ip = ip) (hnf : normFp fp = fp) :
    parseF64Mag (ip.map digitChar ++
        (if fp.isEmpty then [] else '.' :: fp.map digitChar)) =
      some (F64Shape.finite false ip fp) := by
  cases ip with
  | nil => exact absurd rfl hne
  | cons d0 ds =>
      cases fp with
      | nil =>
          rw [show (if (List.isEmpty ([] : List Nat)) = true
            then ([] : List Char)
            else '.' :: List.map digitChar []) = [] from rfl]
          rw [parseF64Mag]
          rw [parseIpDigits_digits (d0 :: ds) hip [] (Or.inl rfl)]
          show some (F64Shape.finite false (normIp (d0 :: ds)) []) = _
          rw [hni]
      | cons f0 fs =>
          rw [if_neg (by simp)]
          rw [parseF64Mag]
          rw [parseIpDigits_digits (d0 :: ds) hip
            ('.' :: (f0 :: fs).map digitChar)
            (Or.inr ⟨(f0 :: fs).map digitChar, rfl⟩)]
          show (match (f0 :: fs).map digitChar,
              parseDigits ((f0 :: fs).map digitChar) with
            | _ :: _, some fp0 =>
                some (F64Shape.finite false (normIp (d0 :: ds)) (normFp fp0))
            | _, _ => none) = _
          rw [parseDigits_map (f0 :: fs) hfp]
          show some (F64Shape.finite false (normIp (d0 :: ds))
            (normFp (f0 :: fs))) = _
          rw [hni, hnf]

theorem parseF64_f64Repr (v : F64) : parseF64 (f64Repr v) = some v := by
  obtain ⟨sh, hwf⟩ := v
  cases sh with
  | nan => rfl
  | inf neg => cases neg <;> rfl
  | finite neg ip fp =>
      obtain ⟨hne, hip, hfp, hni, hnf⟩ := hwf
      have hmag := parseF64Mag_canonical ip fp hne hip hfp hni hnf
      cases neg with
      | false =>
          cases ip with
          | nil => exact absurd rfl hne
          | cons d0 ds =>
              show parseF64Chars (digitChar d0 :: (List.map digitChar ds ++
                (if (fp.isEmpty : Bool) then []
                 else '.' :: fp.map digitChar))) = _
              rw [parseF64Chars]
              rw [if_neg (show ¬digitChar d0 = '-' from
                fun hc => digitChar_ne_dash d0
                  (hip d0 (List.mem_cons_self _ _)) (hc.trans (by decide)))]
              have hmag2 : parseF64Mag (digitChar d0 ::
                  (List.map digitChar ds ++
                    (if (fp.isEmpty : Bool) then []
                     else '.' :: fp.map digitChar))) =
                  some (F64Shape.finite false (d0 :: ds) fp) := hmag
              rw [hmag2]
              show mkF64 (F64Shape.finite false (d0 :: ds) fp) = _
              have hw : (F64Shape.finite false (d0 :: ds) fp).wf :=
                ⟨hne, hip, hfp, hni, hnf⟩
              rw [mkF64, dif_pos hw]
      | true =>
          show parseF64Chars ('-' :: (List.map digitChar ip ++
            (if (fp.isEmpty : Bool) then []
             else '.' :: fp.map digitChar))) = _
          rw [parseF64Chars]
          rw [if_pos rfl]
          rw [hmag]
          show mkF64 (F64Shape.finite true ip fp) = _
          have hw : (F64Shape.finite true ip fp).wf :=
            ⟨hne, hip, hfp, hni, hnf⟩
          rw [mkF64, dif_pos hw]


/-! ## Text escaping

`quick_xml` escapes the five XML special characters when serialising
text; `escape_non_ascii` (from `codec.rs`) then replaces every
non-ASCII character of the whole document by a decimal numeric
character reference; the deserialiser undoes both. -/

/-- The XML escape of a single text character (`quick_xml::escape`). -/
def escapeXmlChar (c : Char) : List Char :=
  if c = '&' then ['&', 'a', 'm', 'p', ';']
  else if c = '<' then ['&', 'l', 't', ';']
  else if c = '>' then ['&', 'g', 't', ';']
  else if c = Char.ofNat 39 then ['&', 'a', 'p', 'o', 's', ';']
  else if c = '"' then ['&', 'q', 'u', 'o', 't', ';']
  else [c]

/-- XML text escaping, character by character. -/
def escapeXml (cs : List Char) : List Char := cs.flatMap escapeXmlChar

/-- `escape_non_ascii` from `codec.rs`: keep ASCII characters, replace
every other character by `&#<codepoint>;`. -/
def escape_non_ascii (input : String) : String :=
  String.join (input.data.map (fun c =>
    if charIsAscii c then String.mk [c]
    else "&#" ++ natRepr c.toNat ++ ";"))

/-- Character-level chunk produced by `escape_non_ascii`. -/
def escNAC (c : Char) : List Char :=
  if charIsAscii c then [c]
  else '&' :: '#' :: (natReprAux (c.toNat + 1) c.toNat ++ [';'])

theorem join_data (l : List String) :
    (String.join l).data = l.flatMap String.data := by
  have haux : ∀ (l : List String) (acc : String),
      (l.foldl (fun r c => r ++ c) acc).data =
        acc.data ++ l.flatMap String.data := by
    intro l
    induction l with
    | nil => intro acc; simp
    | cons x xs ih =>
        intro acc
        rw [List.foldl_cons, ih]
        simp [String.data_append]
  rw [String.join, haux]
  rfl

theorem escape_non_ascii_data (s : String) :
    (escape_non_ascii s).data = s.data.flatMap escNAC := by
  rw [escape_non_ascii, join_data, List.flatMap_map]
  congr 1
  funext c
  by_cases h : charIsAscii c
  · simp [h, escNAC]
  · rw [Bool.not_eq_true] at h
    rw [escNAC, h]
    rw [if_neg (by exact Bool.false_ne_true),
        if_neg (by exact Bool.false_ne_true)]
    rw [String.data_append, String.data_append]
    rfl

/-- One original text character, seen after both escaping passes. -/
def pipeChar (c : Char) : List Char := (escapeXmlChar c).flatMap escNAC

theorem escape_pipeline (v : List Char) :
    (escape_non_ascii (String.mk (escapeXml v))).data = v.flatMap pipeChar := by
  rw [escape_non_ascii_data]
  show (escapeXml v).flatMap escNAC = _
  rw [escapeXml, List.flatMap_assoc]
  rfl

/-- State of the entity-reference decoder: the output so far and, when
inside `&...;`, the reference characters read so far. -/
structure UnescapeSt where
  out : List Char
  ent : Option (List Char)
deriving DecidableEq

/-- Decode one entity body (between `&` and `;`): the five named XML
entities and decimal numeric character references, as the `quick_xml`
reader does. -/
def decodeEntity (cs : List Char) : Option (List Char) :=
  if cs = ['a', 'm', 'p'] then some ['&']
  else if cs = ['l', 't'] then some ['<']
  else if cs = ['g', 't'] then some ['>']
  else if cs = ['a', 'p', 'o', 's'] then some [Char.ofNat 39]
  else if cs = ['q', 'u', 'o', 't'] then some ['"']
  else
    match cs with
    | [] => none
    | c :: ds =>
        if c = '#' then
          if ds.isEmpty then none
          else
            match parseNatAux ds 0 with
            | none => none
            | some n => if Nat.isValidChar n then some [Char.ofNat n] else none
        else none

/-- One step of the unescaping scan. -/
def unescapeStep (st : UnescapeSt) (c : Char) : Option UnescapeSt :=
  match st.ent with
  | none =>
      if c = '&' then some { st with ent := some [] }
      else some { st with out := st.out ++ [c] }
  | some acc =>
      if c = ';' then
        match decodeEntity acc with
        | none => none
        | some dec => some { out := st.out ++ dec, ent := none }
      else some { st with ent := some (acc ++ [c]) }

/-- Unescape a character list; fails on a malformed reference. -/
def unescapeChars (cs : List Char) : Option (List Char) :=
  match cs.foldlM unescapeStep ⟨[], none⟩ with
  | some ⟨out, none⟩ => some out
  | _ => none

theorem unescape_plain (out : List Char) (c : Char) (hc : c ≠ '&')
    (rest : List Char) :
    List.foldlM unescapeStep ⟨out, none⟩ (c :: rest) =
      List.foldlM unescapeStep ⟨out ++ [c], none⟩ rest := by
  rw [List.foldlM]
  simp [unescapeStep, hc]

theorem unescape_ent_grow (out e : List Char) :
    ∀ (ds : List Char), (∀ c ∈ ds, c ≠ ';') →
    ∀ rest, List.foldlM unescapeStep ⟨out, some e⟩ (ds ++ rest) =
      List.foldlM unescapeStep ⟨out, some (e ++ ds)⟩ rest := by
  intro ds
  induction ds generalizing e with
  | nil => intro _ rest; simp
  | cons c cs ih =>
      intro hds rest
      have hc : c ≠ ';' := hds c (List.mem_cons_self _ _)
      have hstep : unescapeStep ⟨out, some e⟩ c =
          some ⟨out, some (e ++ [c])⟩ := by
        simp [unescapeStep, hc]
      rw [List.cons_append, List.foldlM, hstep]
      show List.foldlM unescapeStep ⟨out, some (e ++ [c])⟩ (cs ++ rest) = _
      rw [ih (e ++ [c]) (fun x hx => hds x (List.mem_cons_of_mem _ hx)) rest]
      simp

theorem unescape_numeric (out : List Char) (c : Char)
    (hna : charIsAscii c = false) (rest : List Char) :
    List.foldlM unescapeStep ⟨out, none⟩ (escNAC c ++ rest) =
      List.foldlM unescapeStep ⟨out ++ [c], none⟩ rest := by
  rw [escNAC, if_neg (by rw [hna]; exact Bool.false_ne_true)]
  have hdigits : ∀ x ∈ natReprAux (c.toNat + 1) c.toNat, x ≠ ';' := by
    intro x hx
    obtain ⟨d, hd, rfl⟩ := natReprAux_all_digits _ _ x hx
    exact digitChar_ne_semicolon d hd
  have hne : natReprAux (c.toNat + 1) c.toNat ≠ [] :=
    natReprAux_ne_nil _ _ (by omega)
  have hlt : c.toNat < 10 ^ (c.toNat + 1) :=
    lt_of_lt_of_le (Nat.lt_pow_self (by omega) _)
      (Nat.pow_le_pow_right (by omega) (by omega))
  have hdec : decodeEntity ('#' :: natReprAux (c.toNat + 1) c.toNat) =
      some [c] := by
    rw [decodeEntity]
    rw [if_neg (by simp), if_neg (by simp), if_neg (by simp),
        if_neg (by simp), if_neg (by simp)]
    rw [if_pos rfl]
    rw [if_neg (by simpa [List.isEmpty_iff] using hne)]
    rw [parseNatAux_natReprAux _ _ 0 hlt]
    have h0 : 0 * 10 ^ (natReprAux (c.toNat + 1) c.toNat).length +
        c.toNat = c.toNat := by
      generalize (10 : Nat) ^ (natReprAux (c.toNat + 1) c.toNat).length = B
      omega
    rw [h0]
    show (if c.toNat.isValidChar then some [Char.ofNat c.toNat] else none) =
      some [c]
    rw [if_pos (show c.toNat.isValidChar from c.valid)]
    rw [Char.ofNat_toNat]
  have hamp : unescapeStep ⟨out, none⟩ '&' = some ⟨out, some []⟩ := by
    simp [unescapeStep]
  have hhash : unescapeStep ⟨out, some []⟩ '#' =
      some ⟨out, some ['#']⟩ := by
    simp [unescapeStep]
  have hsemi : unescapeStep
      ⟨out, some ('#' :: natReprAux (c.toNat + 1) c.toNat)⟩ ';' =
      some ⟨out ++ [c], none⟩ := by
    simp [unescapeStep, hdec]
  -- consume the ampersand
  rw [List.cons_append, List.foldlM, hamp]
  show List.foldlM unescapeStep ⟨out, some []⟩
    (('#' :: (natReprAux (c.toNat + 1) c.toNat ++ [';'])) ++ rest) = _
  -- consume the hash sign
  rw [List.cons_append, List.foldlM, hhash]
  show List.foldlM unescapeStep ⟨out, some ['#']⟩
    ((natReprAux (c.toNat + 1) c.toNat ++ [';']) ++ rest) = _
  rw [List.append_assoc, List.cons_append]
  rw [unescape_ent_grow out ['#'] _ hdigits _]
  -- consume the semicolon
  rw [List.foldlM]
  show unescapeStep ⟨out, some ('#' :: natReprAux (c.toNat + 1) c.toNat)⟩ ';' >>=
      (fun s => List.foldlM unescapeStep s rest) = _
  rw [hsemi]
  rfl

theorem unescape_named (out : List Char) (c : Char)
    (hc : c = '&' ∨ c = '<' ∨ c = '>' ∨ c = Char.ofNat 39 ∨ c = '"')
    (rest : List Char) :
    List.foldlM unescapeStep ⟨out, none⟩ (escapeXmlChar c ++ rest) =
      List.foldlM unescapeStep ⟨out ++ [c], none⟩ rest := by
  rcases hc with rfl | rfl | rfl | rfl | rfl <;>
    simp [escapeXmlChar, List.foldlM, unescapeStep, decodeEntity]

theorem unescape_pipeChar (out : List Char) (c : Char) (rest : List Char) :
    List.foldlM unescapeStep ⟨out, none⟩ (pipeChar c ++ rest) =
      List.foldlM unescapeStep ⟨out ++ [c], none⟩ rest := by
  by_cases hna : charIsAscii c
  · by_cases h5 : c = '&' ∨ c = '<' ∨ c = '>' ∨ c = Char.ofNat 39 ∨ c = '"'
    · have hxc : pipeChar c = escapeXmlChar c := by
        rcases h5 with rfl | rfl | rfl | rfl | rfl <;> rfl
      rw [hxc]
      exact unescape_named out c h5 rest
    · push_neg at h5
      obtain ⟨h1, h2, h3, h4, hq⟩ := h5
      have hxc : pipeChar c = [c] := by
        rw [pipeChar, escapeXmlChar]
        rw [if_neg h1, if_neg h2, if_neg h3, if_neg h4, if_neg hq]
        simp [escNAC, hna]
      rw [hxc]
      exact unescape_plain out c h1 rest
  · have hxc : pipeChar c = escNAC c := by
      rw [pipeChar, escapeXmlChar]
      have hne : ∀ d : Char, charIsAscii d = true → c ≠ d := by
        intro d hd hcd
        rw [hcd] at hna
        exact hna hd
      rw [if_neg (hne '&' (by decide)), if_neg (hne '<' (by decide)),
          if_neg (hne '>' (by decide)), if_neg (hne (Char.ofNat 39) (by decide)),
          if_neg (hne '"' (by decide))]
      simp
    rw [hxc]
    exact unescape_numeric out c (by simpa using hna) rest

theorem unescape_text (v : List Char) :
    ∀ (out rest : List Char),
      List.foldlM unescapeStep ⟨out, none⟩ (v.flatMap pipeChar ++ rest) =
        List.foldlM unescapeStep ⟨out ++ v, none⟩ rest := by
  induction v with
  | nil => intro out rest; simp
  | cons c cs ih =>
      intro out rest
      rw [List.flatMap_cons, List.append_assoc]
      rw [unescape_pipeChar out c _]
      rw [ih (out ++ [c]) rest]
      simp

/-- Unescaping inverts the two escaping passes on any text. -/
theorem unescapeChars_pipeline (v : List Char) :
    unescapeChars (v.flatMap pipeChar) = some v := by
  rw [unescapeChars]
  have h := unescape_text v [] []
  rw [List.append_nil] at h
  rw [h]
  rfl


/-! ## Addon-type bitmask and serialisable records (`codec.rs`) -/

/-- Fixed canonical order of addon-type slots: T Z Q K E P. -/
def ADDON_TYPES : List AddonEntityType :=
  [AddonEntityType.Thinking, AddonEntityType.Political,
   AddonEntityType.Question, AddonEntityType.Knowledge,
   AddonEntityType.Example, AddonEntityType.Practice]

/-- `serialize_addon_types`: one character per slot, `'1'` when the set
contains the slot's type. -/
def serialize_addon_types (addon_types : Finset AddonEntityType) : String :=
  ADDON_TYPES.foldl (fun result addon =>
    result.push (if addon ∈ addon_types then '1' else '0')) ""

/-- `deserialize_addon_types`: zip the characters with the slots,
inserting the slot's type for each `'1'`. -/
def deserialize_addon_types (s : String) : Finset AddonEntityType :=
  (s.data.zip ADDON_TYPES).foldl (fun set p =>
    if p.1 = '1' then insert p.2 set else set) ∅

/-- The bitmask decodes back to exactly the encoded set. -/
theorem deserialize_serialize_addon_types (s : Finset AddonEntityType) :
    deserialize_addon_types (serialize_addon_types s) = s := by
  revert s
  decide

/-- A serialisable entity (`SerializableEntity` in `codec.rs`). -/
structure SerializableEntity where
  id : Nat
  class_name : String
  classification : String
  identity : String
  level : String
  attach : Finset AddonEntityType
  opentool : String
  content : String
  x : F64
  y : F64
deriving DecidableEq

namespace SerializableEntity

/-- The `Default` implementation. -/
def default : SerializableEntity :=
  { id := 0, class_name := "", classification := "内容方法型节点",
    identity := "知识", level := "", attach := ∅, opentool := "无",
    content := "", x := f64Zero, y := f64Zero }

end SerializableEntity

/-- `class_name` of a distinct entity type. -/
def DistinctEntityType.class_name : DistinctEntityType → String
  | DistinctEntityType.KnowledgeArena => "知识领域"
  | DistinctEntityType.KnowledgeUnit => "知识单元"
  | DistinctEntityType.KnowledgePoint => "知识点"
  | DistinctEntityType.KnowledgeDetail => "关键知识细节"

/-- `level` of a distinct entity type. -/
def DistinctEntityType.level : DistinctEntityType → String
  | DistinctEntityType.KnowledgeArena => "一级"
  | DistinctEntityType.KnowledgeUnit => "二级"
  | DistinctEntityType.KnowledgePoint => "归纳级"
  | DistinctEntityType.KnowledgeDetail => "内容级"

/-- `From<&EntityNode> for SerializableEntity`. -/
def SerializableEntity.ofEntityNode (node : EntityNode) : SerializableEntity :=
  { SerializableEntity.default with
    id := node.id,
    class_name := node.distinct_type.class_name,
    level := node.distinct_type.level,
    attach := node.addon_types,
    content := node.content,
    x := node.coor.1,
    y := node.coor.2 }

/-- An executable enumeration of an addon-type set, modelling
`HashSet::iter` (whose order Rust leaves unspecified; the collected
result is only ever turned back into a set). -/
def finsetToList (s : Finset AddonEntityType) : List AddonEntityType :=
  ADDON_TYPES.filter (fun a => a ∈ s)

theorem finsetToList_toFinset (s : Finset AddonEntityType) :
    (finsetToList s).toFinset = s := by
  revert s
  decide

/-- `TryFrom<SerializableEntity> for EntityNode`: recover the distinct
type from `class_name`, failing on an unrecognised label. -/
def EntityNode.tryFromSerializable (value : SerializableEntity) :
    Except SerdeError EntityNode :=
  if value.class_name = "知识领域" then
    Except.ok (EntityNode.new value.id value.content
      DistinctEntityType.KnowledgeArena (finsetToList value.attach) (value.x, value.y))
  else if value.class_name = "知识单元" then
    Except.ok (EntityNode.new value.id value.content
      DistinctEntityType.KnowledgeUnit (finsetToList value.attach) (value.x, value.y))
  else if value.class_name = "知识点" then
    Except.ok (EntityNode.new value.id value.content
      DistinctEntityType.KnowledgePoint (finsetToList value.attach) (value.x, value.y))
  else if value.class_name = "关键知识细节" then
    Except.ok (EntityNode.new value.id value.content
      DistinctEntityType.KnowledgeDetail (finsetToList value.attach) (value.x, value.y))
  else
    Except.error (SerdeError.Unexpected "实体类型" value.class_name)

/-- A serialisable edge (`SerializableEdge` in `codec.rs`). -/
structure SerializableEdge where
  name : String
  headnodeid : Nat
  tailnodeid : Nat
  class_name : String
  mask : String
  classification : String
  head_need : String
  tail_need : String
deriving DecidableEq

/-- `class_name` of a relation. -/
def Relation.class_name : Relation → String
  | Relation.Contain => "包含关系"
  | Relation.Order => "次序关系"

/-- `classification` of a relation. -/
def Relation.classification : Relation → String
  | Relation.Contain => "包含关系"
  | Relation.Order => "次序关系"

namespace SerializableEdge

/-- The `Default` implementation. -/
def default : SerializableEdge :=
  { name := "包含", headnodeid := 0, tailnodeid := 0, class_name := "",
    mask := "知识连线", classification := "",
    head_need := "内容方法型节点", tail_need := "内容方法型节点" }

/-- `SerializableEdge::from_edge`. -/
def from_edge (from_ to_ : Nat) (relation : Relation) : SerializableEdge :=
  { default with
    headnodeid := from_,
    tailnodeid := to_,
    class_name := relation.class_name,
    classification := relation.classification }

/-- `SerializableEdge::to_edge`: recover the relation from
`class_name` (two accepted spellings for `Order`). -/
def to_edge (e : SerializableEdge) :
    Except SerdeError (Nat × Nat × Relation) :=
  if e.class_name = "包含关系" then
    Except.ok (e.headnodeid, e.tailnodeid, Relation.Contain)
  else if e.class_name = "次序关系" ∨ e.class_name = "次序：次序关系" then
    Except.ok (e.headnodeid, e.tailnodeid, Relation.Order)
  else
    Except.error (SerdeError.Unexpected "关系名" e.class_name)

end SerializableEdge

/-- A serialisable snapshot (`SerializableSnapshot` in `codec.rs`):
the constant document title plus the entity and relation lists. -/
structure SerializableSnapshot where
  title : String
  entities : List SerializableEntity
  relations : List SerializableEdge
deriving DecidableEq

/-- `From<&Snapshot> for SerializableSnapshot`: iterate the node and
edge maps. -/
def SerializableSnapshot.ofSnapshot (value : Snapshot) :
    SerializableSnapshot :=
  { title := "教学知识图谱",
    entities := value.nodes.val.map
      (fun p => SerializableEntity.ofEntityNode p.2),
    relations := value.edges.val.map
      (fun p => SerializableEdge.from_edge p.1.1 p.1.2 p.2) }

/-- `TryFrom<SerializableSnapshot> for Snapshot`: rebuild both maps,
then recompute the id counter as one past the maximum node id (zero
for an empty document). -/
def Snapshot.tryFromSerializable (value : SerializableSnapshot) :
    Except SerdeError Snapshot := do
  let nodePairs ← value.entities.mapM (fun entity => do
    let n ← EntityNode.tryFromSerializable entity
    pure (n.id, n))
  let edgePairs ← value.relations.mapM (fun edge => do
    let et ← edge.to_edge
    pure ((et.1, et.2.1), et.2.2))
  let nodes : SMap Nat EntityNode := SMap.ofList nodePairs
  let latest_id := (nodes.val.foldl (fun a p => max a p.1) 0) + 1
  Except.ok { nodes := nodes, edges := SMap.ofList edgePairs,
              latest_id := latest_id }

/-- C9: the `attach` bitmask has exactly six characters, one per
addon-type slot in the fixed canonical order T Z Q K E P, a slot being
`'1'` iff the set contains that type; and the mask depends only on set
membership, not on the insertion order of the addon types. -/
theorem C9_attach_bitmask_canonical :
    (∀ s : Finset AddonEntityType,
      (serialize_addon_types s).length = 6 ∧
      (serialize_addon_types s).data =
        ADDON_TYPES.map (fun a => if a ∈ s then '1' else '0') ∧
      (∀ i, i < 6 →
        (serialize_addon_types s).data.getD i '0' =
          if ADDON_TYPES.getD i AddonEntityType.Knowledge ∈ s
          then '1' else '0')) ∧
    (∀ l1 l2 : List AddonEntityType, (∀ a, a ∈ l1 ↔ a ∈ l2) →
      serialize_addon_types l1.toFinset =
        serialize_addon_types l2.toFinset) := by
  constructor
  · decide
  · intro l1 l2 h
    have : l1.toFinset = l2.toFinset := by
      apply Finset.ext
      intro a
      rw [List.mem_toFinset, List.mem_toFinset]
      exact h a
    rw [this]

/-- Witness for C9. -/
theorem C9_witness :
    (serialize_addon_types {AddonEntityType.Thinking}).length = 6 ∧
    (serialize_addon_types
      [AddonEntityType.Thinking, AddonEntityType.Knowledge].toFinset =
     serialize_addon_types
      [AddonEntityType.Knowledge, AddonEntityType.Thinking,
       AddonEntityType.Thinking].toFinset) :=
  ⟨(C9_attach_bitmask_canonical.1 {AddonEntityType.Thinking}).1,
   C9_attach_bitmask_canonical.2
     [AddonEntityType.Thinking, AddonEntityType.Knowledge]
     [AddonEntityType.Knowledge, AddonEntityType.Thinking,
      AddonEntityType.Thinking]
     (by decide)⟩


/-! ## The XML text layer

The codec serialises through `quick_xml`: `se::to_string` produces a
flat tag/text string, `indent_xml` re-reads it event by event and
re-writes it with a four-space indent, and `de::from_str` parses the
escaped document.  The model makes that layer concrete for the fixed
schema: an event type, a character-level lexer, the indenting writer
and a recursive-descent reader that skips whitespace-only text between
elements (as the `quick_xml` deserialiser does). -/

/-- An XML event: start tag, end tag, self-closed empty tag, or raw
(still escaped) text. -/
inductive XEvent
  | startTag (name : String)
  | endTag (name : String)
  | emptyTag (name : String)
  | textEv (raw : List Char)
deriving DecidableEq

/-- Lexer state: events so far, the tag body being read (when inside
`<...>`), and the pending text characters. -/
structure LexSt where
  events : List XEvent
  tag : Option (List Char)
  buf : List Char
deriving DecidableEq

/-- Move a pending text run into the event list. -/
def flushText (st : LexSt) : List XEvent :=
  if st.buf.isEmpty then st.events else st.events ++ [XEvent.textEv st.buf]

/-- Classify a tag body: leading slash is an end tag, trailing slash a
self-closed tag, otherwise a start tag. -/
def classifyTag (cs : List Char) : Option XEvent :=
  match cs with
  | [] => none
  | c :: rest =>
      if c = '/' then some (XEvent.endTag (String.mk rest))
      else if cs.getLast? = some '/' then
        some (XEvent.emptyTag (String.mk cs.dropLast))
      else some (XEvent.startTag (String.mk cs))

/-- One lexing step. -/
def lexStep (st : LexSt) (c : Char) : Option LexSt :=
  match st.tag with
  | none =>
      if c = '<' then some { events := flushText st, tag := some [], buf := [] }
      else some { st with buf := st.buf ++ [c] }
  | some acc =>
      if c = '>' then
        match classifyTag acc with
        | none => none
        | some ev => some { events := st.events ++ [ev], tag := none, buf := [] }
      else some { st with tag := some (acc ++ [c]) }

/-- Lex a whole character list into events (the `quick_xml` reader). -/
def lexChars (cs : List Char) : Option (List XEvent) :=
  match cs.foldlM lexStep ⟨[], none, []⟩ with
  | some st =>
      match st.tag with
      | some _ => none
      | none => some (flushText st)
  | none => none

/-- The flat text of one event. -/
def renderEvent : XEvent → List Char
  | XEvent.startTag n => '<' :: (n.data ++ ['>'])
  | XEvent.endTag n => '<' :: '/' :: (n.data ++ ['>'])
  | XEvent.emptyTag n => '<' :: (n.data ++ ['/', '>'])
  | XEvent.textEv t => t

/-- Newline plus a four-space indent per level. -/
def wsIndent (level : Nat) : List Char :=
  Char.ofNat 10 :: List.replicate (4 * level) ' '

/-- The `quick_xml` writer with indent: a line break and indent before
every tag, except right after a text event; text is written inline. -/
def renderIndent : Bool → Nat → List XEvent → List Char
  | _, _, [] => []
  | sb, lvl, XEvent.startTag n :: evs =>
      (if sb then wsIndent lvl else []) ++
        renderEvent (XEvent.startTag n) ++ renderIndent true (lvl + 1) evs
  | sb, lvl, XEvent.endTag n :: evs =>
      (if sb then wsIndent (lvl - 1) else []) ++
        renderEvent (XEvent.endTag n) ++ renderIndent true (lvl - 1) evs
  | sb, lvl, XEvent.emptyTag n :: evs =>
      (if sb then wsIndent lvl else []) ++
        renderEvent (XEvent.emptyTag n) ++ renderIndent true lvl evs
  | _, lvl, XEvent.textEv t :: evs =>
      t ++ renderIndent false lvl evs

/-- `indent_xml` from `codec.rs`: re-read the document and re-write it
with a four-space indent. -/
def indent_xml (xml_string : List Char) : Option (List Char) :=
  (lexChars xml_string).map (renderIndent false 0)

/-- The field events of one named simple field (`quick_xml` writes an
empty string field as a self-closed tag). -/
def fieldEvents (name : String) (v : List Char) : List XEvent :=
  if v.isEmpty then [XEvent.emptyTag name]
  else [XEvent.startTag name, XEvent.textEv v, XEvent.endTag name]

/-- The event stream of one serialised entity, fields in the fixed
schema order. -/
def entityEvents (e : SerializableEntity) : List XEvent :=
  [XEvent.startTag "entity"] ++
  fieldEvents "id" (escapeXml (natRepr e.id).data) ++
  fieldEvents "class_name" (escapeXml e.class_name.data) ++
  fieldEvents "classification" (escapeXml e.classification.data) ++
  fieldEvents "identity" (escapeXml e.identity.data) ++
  fieldEvents "level" (escapeXml e.level.data) ++
  fieldEvents "attach" (escapeXml (serialize_addon_types e.attach).data) ++
  fieldEvents "opentool" (escapeXml e.opentool.data) ++
  fieldEvents "content" (escapeXml e.content.data) ++
  fieldEvents "x" (escapeXml (f64Repr e.x).data) ++
  fieldEvents "y" (escapeXml (f64Repr e.y).data) ++
  [XEvent.endTag "entity"]

/-- The event stream of one serialised relation. -/
def edgeEvents (e : SerializableEdge) : List XEvent :=
  [XEvent.startTag "relation"] ++
  fieldEvents "name" (escapeXml e.name.data) ++
  fieldEvents "headnodeid" (escapeXml (natRepr e.headnodeid).data) ++
  fieldEvents "tailnodeid" (escapeXml (natRepr e.tailnodeid).data) ++
  fieldEvents "class_name" (escapeXml e.class_name.data) ++
  fieldEvents "mask" (escapeXml e.mask.data) ++
  fieldEvents "classification" (escapeXml e.classification.data) ++
  fieldEvents "head_need" (escapeXml e.head_need.data) ++
  fieldEvents "tail_need" (escapeXml e.tail_need.data) ++
  [XEvent.endTag "relation"]

/-- A wrapper element: self-closed when it has no children. -/
def wrapperEvents (name : String) (inner : List (List XEvent)) :
    List XEvent :=
  if inner.isEmpty then [XEvent.emptyTag name]
  else [XEvent.startTag name] ++ inner.flatten ++ [XEvent.endTag name]

/-- The event stream of a whole serialised snapshot. -/
def snapshotEvents (ss : SerializableSnapshot) : List XEvent :=
  [XEvent.startTag "KG"] ++
  (if ss.title.data.isEmpty then []
   else [XEvent.textEv (escapeXml ss.title.data)]) ++
  wrapperEvents "entities" (ss.entities.map entityEvents) ++
  wrapperEvents "relations" (ss.relations.map edgeEvents) ++
  [XEvent.endTag "KG"]

/-- `quick_xml::se::to_string` for this schema: the flat concatenation
of the serialised events. -/
def seString (ss : SerializableSnapshot) : List Char :=
  ((snapshotEvents ss).map renderEvent).flatten

/-- `SerializableSnapshot::to_xml`: serialise, indent, then run
`escape_non_ascii` over the whole document. -/
def SerializableSnapshot.to_xml (ss : SerializableSnapshot) :
    Except SerdeError String :=
  match indent_xml (seString ss) with
  | none => Except.error (SerdeError.Serialize "xml")
  | some indented => Except.ok (escape_non_ascii (String.mk indented))

/-- Whitespace characters ignored between elements. -/
def isWsChar (c : Char) : Bool :=
  c = ' ' ∨ c = Char.ofNat 10 ∨ c = Char.ofNat 9 ∨ c = Char.ofNat 13

/-- A whitespace-only text event. -/
def isWsText : XEvent → Bool
  | XEvent.textEv t => t.all isWsChar
  | _ => false

/-- Skip whitespace-only text where element structure is expected. -/
def skipWs (evs : List XEvent) : List XEvent := evs.dropWhile isWsText

/-- Expect a start tag of the given name. -/
def expectStart (name : String) (evs : List XEvent) :
    Except SerdeError (List XEvent) :=
  match skipWs evs with
  | XEvent.startTag n :: rest =>
      if n = name then Except.ok rest
      else Except.error (SerdeError.Deserialize name)
  | _ => Except.error (SerdeError.Deserialize name)

/-- Expect an end tag of the given name. -/
def expectEnd (name : String) (evs : List XEvent) :
    Except SerdeError (List XEvent) :=
  match skipWs evs with
  | XEvent.endTag n :: rest =>
      if n = name then Except.ok rest
      else Except.error (SerdeError.Deserialize name)
  | _ => Except.error (SerdeError.Deserialize name)

/-- Parse one simple field: `<name>text</name>`, `<name></name>` or
`<name/>`; the text is unescaped. -/
def parseField (name : String) (evs : List XEvent) :
    Except SerdeError (String × List XEvent) :=
  match skipWs evs with
  | XEvent.emptyTag n :: rest =>
      if n = name then Except.ok ("", rest)
      else Except.error (SerdeError.Deserialize name)
  | XEvent.startTag n :: XEvent.endTag n2 :: rest =>
      if n = name ∧ n2 = name then Except.ok ("", rest)
      else Except.error (SerdeError.Deserialize name)
  | XEvent.startTag n :: XEvent.textEv t :: XEvent.endTag n2 :: rest =>
      if n = name ∧ n2 = name then
        match unescapeChars t with
        | some u => Except.ok (String.mk u, rest)
        | none => Except.error (SerdeError.Deserialize name)
      else Except.error (SerdeError.Deserialize name)
  | _ => Except.error (SerdeError.Deserialize name)

/-- Parse an unsigned numeric field. -/
def parseNatField (name : String) (evs : List XEvent) :
    Except SerdeError (Nat × List XEvent) := do
  let fv ← parseField name evs
  match parseNat fv.1 with
  | some n => Except.ok (n, fv.2)
  | none => Except.error (SerdeError.Deserialize name)

/-- Parse a coordinate field (`f64`). -/
def parseF64Field (name : String) (evs : List XEvent) :
    Except SerdeError (F64 × List XEvent) := do
  let fv ← parseField name evs
  match parseF64 fv.1 with
  | some x => Except.ok (x, fv.2)
  | none => Except.error (SerdeError.Deserialize name)

/-- Parse one `<entity>` element, fields in schema order. -/
def parseEntity (evs : List XEvent) :
    Except SerdeError (SerializableEntity × List XEvent) := do
  let evs ← expectStart "entity" evs
  let (idv, evs) ← parseNatField "id" evs
  let (cn, evs) ← parseField "class_name" evs
  let (cl, evs) ← parseField "classification" evs
  let (idy, evs) ← parseField "identity" evs
  let (lv, evs) ← parseField "level" evs
  let (at_, evs) ← parseField "attach" evs
  let (ot, evs) ← parseField "opentool" evs
  let (ct, evs) ← parseField "content" evs
  let (xv, evs) ← parseF64Field "x" evs
  let (yv, evs) ← parseF64Field "y" evs
  let evs ← expectEnd "entity" evs
  Except.ok ({ id := idv, class_name := cn, classification := cl,
               identity := idy, level := lv,
               attach := deserialize_addon_types at_, opentool := ot,
               content := ct, x := xv, y := yv }, evs)

/-- Parse one `<relation>` element, fields in schema order. -/
def parseEdge (evs : List XEvent) :
    Except SerdeError (SerializableEdge × List XEvent) := do
  let evs ← expectStart "relation" evs
  let (nm, evs) ← parseField "name" evs
  let (hn, evs) ← parseNatField "headnodeid" evs
  let (tn, evs) ← parseNatField "tailnodeid" evs
  let (cn, evs) ← parseField "class_name" evs
  let (mk_, evs) ← parseField "mask" evs
  let (cl, evs) ← parseField "classification" evs
  let (hd, evs) ← parseField "head_need" evs
  let (tl, evs) ← parseField "tail_need" evs
  let evs ← expectEnd "relation" evs
  Except.ok ({ name := nm, headnodeid := hn, tailnodeid := tn,
               class_name := cn, mask := mk_, classification := cl,
               head_need := hd, tail_need := tl }, evs)

/-- Parse the children of `<entities>` until its end tag. -/
def parseEntitiesItems :
    Nat → List XEvent →
    Except SerdeError (List SerializableEntity × List XEvent)
  | 0, _ => Except.error (SerdeError.Deserialize "entities")
  | fuel + 1, evs =>
      match skipWs evs with
      | XEvent.endTag n :: rest =>
          if n = "entities" then Except.ok ([], rest)
          else Except.error (SerdeError.Deserialize "entities")
      | evs2 => do
          let (e, rest) ← parseEntity evs2
          let (es, rest2) ← parseEntitiesItems fuel rest
          Except.ok (e :: es, rest2)

/-- Parse the `<entities>` wrapper (possibly self-closed). -/
def parseEntitiesBlock (fuel : Nat) (evs : List XEvent) :
    Except SerdeError (List SerializableEntity × List XEvent) :=
  match skipWs evs with
  | XEvent.emptyTag n :: rest =>
      if n = "entities" then Except.ok ([], rest)
      else Except.error (SerdeError.Deserialize "entities")
  | XEvent.startTag n :: rest =>
      if n = "entities" then parseEntitiesItems fuel rest
      else Except.error (SerdeError.Deserialize "entities")
  | _ => Except.error (SerdeError.Deserialize "entities")

/-- Parse the children of `<relations>` until its end tag. -/
def parseEdgesItems :
    Nat → List XEvent →
    Except SerdeError (List SerializableEdge × List XEvent)
  | 0, _ => Except.error (SerdeError.Deserialize "relations")
  | fuel + 1, evs =>
      match skipWs evs with
      | XEvent.endTag n :: rest =>
          if n = "relations" then Except.ok ([], rest)
          else Except.error (SerdeError.Deserialize "relations")
      | evs2 => do
          let (e, rest) ← parseEdge evs2
          let (es, rest2) ← parseEdgesItems fuel rest
          Except.ok (e :: es, rest2)

/-- Parse the `<relations>` wrapper (possibly self-closed). -/
def parseEdgesBlock (fuel : Nat) (evs : List XEvent) :
    Except SerdeError (List SerializableEdge × List XEvent) :=
  match skipWs evs with
  | XEvent.emptyTag n :: rest =>
      if n = "relations" then Except.ok ([], rest)
      else Except.error (SerdeError.Deserialize "relations")
  | XEvent.startTag n :: rest =>
      if n = "relations" then parseEdgesItems fuel rest
      else Except.error (SerdeError.Deserialize "relations")
  | _ => Except.error (SerdeError.Deserialize "relations")

/-- Parse the whole `<KG>` document. -/
def parseTitle (evs : List XEvent) :
    Except SerdeError (String × List XEvent) :=
  match evs with
  | XEvent.textEv t :: rest =>
      match unescapeChars t with
      | some u => Except.ok (String.mk u, rest)
      | none => Except.error (SerdeError.Deserialize "KG")
  | _ => Except.ok ("", evs)

def parseKG (evs : List XEvent) : Except SerdeError SerializableSnapshot := do
  let evs ← expectStart "KG" evs
  let (title, evs) ← parseTitle evs
  let (ents, evs) ← parseEntitiesBlock evs.length evs
  let (rels, evs) ← parseEdgesBlock evs.length evs
  let evs ← expectEnd "KG" evs
  if (skipWs evs).isEmpty then
    Except.ok { title := title, entities := ents, relations := rels }
  else Except.error (SerdeError.Deserialize "KG")

/-- `SerializableSnapshot::from_xml` (`quick_xml::de::from_str`). -/
def SerializableSnapshot.from_xml (xml : String) :
    Except SerdeError SerializableSnapshot :=
  match lexChars xml.data with
  | none => Except.error (SerdeError.Deserialize "lex")
  | some evs => parseKG evs

/-- `Snapshot::to_xml`. -/
def Snapshot.to_xml (s : Snapshot) : Except SerdeError String :=
  (SerializableSnapshot.ofSnapshot s).to_xml

/-- `Snapshot::from_xml`. -/
def Snapshot.from_xml (xml : String) : Except SerdeError Snapshot := do
  let ss ← SerializableSnapshot.from_xml xml
  Snapshot.tryFromSerializable ss


/-! ## Lexing a rendered event stream

The round-trip argument needs that re-lexing a rendered document
recovers its events.  `GoodEvent` states the well-formedness the
codec's streams satisfy: non-empty slash-free ASCII tag names, and
non-empty `<`-free text. -/

/-- A well-formed tag name. -/
def GoodName (n : String) : Prop :=
  n.data ≠ [] ∧
  ∀ c ∈ n.data, c ≠ '<' ∧ c ≠ '>' ∧ c ≠ '/' ∧ charIsAscii c = true

/-- Well-formedness of one event. -/
def GoodEvent : XEvent → Prop
  | XEvent.startTag n => GoodName n
  | XEvent.endTag n => GoodName n
  | XEvent.emptyTag n => GoodName n
  | XEvent.textEv t => t ≠ [] ∧ ∀ c ∈ t, c ≠ '<'

/-- Two adjacent events are not both text (adjacent text runs would
merge when re-lexed). -/
def notTT : XEvent → XEvent → Prop
  | XEvent.textEv _, XEvent.textEv _ => False
  | _, _ => True

/-- The head of the list is not a text event (or the list is empty). -/
def headNotText : List XEvent → Prop
  | XEvent.textEv _ :: _ => False
  | _ => True

/-- The flat text of an event stream. -/
def flatRender (evs : List XEvent) : List Char :=
  (evs.map renderEvent).flatten

theorem lexFold_text (t : List Char) :
    ∀ (E : List XEvent) (b : List Char), (∀ c ∈ t, c ≠ '<') →
    List.foldlM lexStep ⟨E, none, b⟩ t = some ⟨E, none, b ++ t⟩ := by
  induction t with
  | nil => intro E b _; simp
  | cons c cs ih =>
      intro E b ht
      have hc : c ≠ '<' := ht c (List.mem_cons_self _ _)
      have hstep : lexStep ⟨E, none, b⟩ c = some ⟨E, none, b ++ [c]⟩ := by
        simp [lexStep, hc]
      rw [List.foldlM, hstep]
      show List.foldlM lexStep ⟨E, none, b ++ [c]⟩ cs = _
      rw [ih E (b ++ [c]) (fun x hx => ht x (List.mem_cons_of_mem _ hx))]
      simp

theorem lexFold_tagBody (nm : List Char) :
    ∀ (E : List XEvent) (acc : List Char), (∀ c ∈ nm, c ≠ '>') →
    List.foldlM lexStep ⟨E, some acc, []⟩ nm =
      some ⟨E, some (acc ++ nm), []⟩ := by
  induction nm with
  | nil => intro E acc _; simp
  | cons c cs ih =>
      intro E acc h
      have hc : c ≠ '>' := h c (List.mem_cons_self _ _)
      have hstep : lexStep ⟨E, some acc, []⟩ c =
          some ⟨E, some (acc ++ [c]), []⟩ := by
        simp [lexStep, hc]
      rw [List.foldlM, hstep]
      show List.foldlM lexStep ⟨E, some (acc ++ [c]), []⟩ cs = _
      rw [ih E (acc ++ [c]) (fun x hx => h x (List.mem_cons_of_mem _ hx))]
      simp

theorem classifyTag_start (n : String) (h : GoodName n) :
    classifyTag n.data = some (XEvent.startTag n) := by
  obtain ⟨hne, hall⟩ := h
  rcases hd : n.data with _ | ⟨c, rest⟩
  · exact absurd hd hne
  · rw [classifyTag]
    have hc : c ≠ '/' :=
      (hall c (by rw [hd]; exact List.mem_cons_self _ _)).2.2.1
    rw [if_neg hc]
    have hlast : ¬ (c :: rest).getLast? = some '/' := by
      intro hcon
      have hmem : '/' ∈ c :: rest := by
        have := List.getLast?_eq_getLast (c :: rest) (by simp)
        rw [this] at hcon
        have hg := List.getLast_mem (l := c :: rest) (by simp)
        rw [Option.some_inj.1 hcon] at hg
        exact hg
      rw [← hd] at hmem
      exact (hall '/' hmem).2.2.1 rfl
    rw [if_neg hlast]
    rw [← hd]

theorem classifyTag_close (n : String) :
    classifyTag ('/' :: n.data) = some (XEvent.endTag n) := by
  rw [classifyTag]
  rw [if_pos rfl]

theorem classifyTag_empty (n : String) (h : GoodName n) :
    classifyTag (n.data ++ ['/']) = some (XEvent.emptyTag n) := by
  obtain ⟨hne, hall⟩ := h
  rcases hd : n.data with _ | ⟨c, rest⟩
  · exact absurd hd hne
  · rw [List.cons_append, classifyTag]
    have hc : c ≠ '/' :=
      (hall c (by rw [hd]; exact List.mem_cons_self _ _)).2.2.1
    rw [if_neg hc]
    rw [if_pos (by rw [← List.cons_append, List.getLast?_concat])]
    rw [← List.cons_append, List.dropLast_concat, ← hd]

theorem lexFold_tagChunk (E : List XEvent) (b : List Char)
    (body : List Char) (ev : XEvent)
    (hbody : ∀ c ∈ body, c ≠ '>')
    (hclass : classifyTag body = some ev) (rest : List Char) :
    List.foldlM lexStep ⟨E, none, b⟩ (('<' :: (body ++ ['>'])) ++ rest) =
      List.foldlM lexStep
        ⟨flushText ⟨E, none, b⟩ ++ [ev], none, []⟩ rest := by
  have hopen : lexStep ⟨E, none, b⟩ '<' =
      some ⟨flushText ⟨E, none, b⟩, some [], []⟩ := by
    simp [lexStep]
  rw [List.cons_append, List.foldlM, hopen]
  show List.foldlM lexStep ⟨flushText ⟨E, none, b⟩, some [], []⟩
    ((body ++ ['>']) ++ rest) = _
  rw [List.append_assoc, List.foldlM_append]
  rw [lexFold_tagBody body _ [] hbody]
  show List.foldlM lexStep ⟨flushText ⟨E, none, b⟩, some body, []⟩
    ('>' :: rest) = _
  have hgt : lexStep ⟨flushText ⟨E, none, b⟩, some body, []⟩ '>' =
      some ⟨flushText ⟨E, none, b⟩ ++ [ev], none, []⟩ := by
    simp [lexStep, hclass]
  rw [List.foldlM, hgt]
  rfl

@[simp] theorem flushText_nil_buf (E : List XEvent) :
    flushText ⟨E, none, []⟩ = E := rfl

theorem flushText_cons_buf (E : List XEvent) (t : List Char) (h : t ≠ []) :
    flushText ⟨E, none, t⟩ = E ++ [XEvent.textEv t] := by
  rw [flushText]
  rw [if_neg (by simpa [List.isEmpty_iff] using h)]

theorem lexFold_run : ∀ (evs : List XEvent) (E : List XEvent) (b : List Char),
    (∀ e ∈ evs, GoodEvent e) → List.Chain' notTT evs →
    (b = [] ∨ headNotText evs) →
    ∃ E2 b2,
      List.foldlM lexStep ⟨E, none, b⟩ ((evs.map renderEvent).flatten) =
        some ⟨E2, none, b2⟩ ∧
      flushText ⟨E2, none, b2⟩ = flushText ⟨E, none, b⟩ ++ evs := by
  intro evs
  induction evs with
  | nil =>
      intro E b _ _ _
      exact ⟨E, b, by simp, by simp⟩
  | cons ev evs ih =>
      intro E b hgood hchain hhead
      have hgood2 : ∀ e ∈ evs, GoodEvent e :=
        fun e he => hgood e (List.mem_cons_of_mem _ he)
      have hchain2 : List.Chain' notTT evs := hchain.tail
      rcases ev with n | n | n | t
      · -- start tag
        have hn : GoodName n := hgood _ (List.mem_cons_self _ _)
        rw [List.map_cons, List.flatten_cons]
        rw [show renderEvent (XEvent.startTag n) = '<' :: (n.data ++ ['>'])
          from rfl]
        rw [lexFold_tagChunk E b n.data (XEvent.startTag n)
          (fun c hc => (hn.2 c hc).2.1) (classifyTag_start n hn) _]
        obtain ⟨E2, b2, hf, hs⟩ := ih (flushText ⟨E, none, b⟩ ++
          [XEvent.startTag n]) [] hgood2 hchain2 (Or.inl rfl)
        refine ⟨E2, b2, hf, ?_⟩
        rw [hs, flushText_nil_buf]
        simp
      · -- end tag
        have hn : GoodName n := hgood _ (List.mem_cons_self _ _)
        rw [List.map_cons, List.flatten_cons]
        rw [show renderEvent (XEvent.endTag n) =
          '<' :: (('/' :: n.data) ++ ['>']) from rfl]
        rw [lexFold_tagChunk E b ('/' :: n.data) (XEvent.endTag n)
          (by
            intro c hc
            rcases List.mem_cons.1 hc with h1 | h1
            · rw [h1]; decide
            · exact (hn.2 c h1).2.1)
          (classifyTag_close n) _]
        obtain ⟨E2, b2, hf, hs⟩ := ih (flushText ⟨E, none, b⟩ ++
          [XEvent.endTag n]) [] hgood2 hchain2 (Or.inl rfl)
        refine ⟨E2, b2, hf, ?_⟩
        rw [hs, flushText_nil_buf]
        simp
      · -- empty tag
        have hn : GoodName n := hgood _ (List.mem_cons_self _ _)
        rw [List.map_cons, List.flatten_cons]
        rw [show renderEvent (XEvent.emptyTag n) =
          '<' :: ((n.data ++ ['/']) ++ ['>']) from by
            simp [renderEvent]]
        rw [lexFold_tagChunk E b (n.data ++ ['/']) (XEvent.emptyTag n)
          (by
            intro c hc
            rcases List.mem_append.1 hc with h1 | h1
            · exact (hn.2 c h1).2.1
            · simp at h1; rw [h1]; decide)
          (classifyTag_empty n hn) _]
        obtain ⟨E2, b2, hf, hs⟩ := ih (flushText ⟨E, none, b⟩ ++
          [XEvent.emptyTag n]) [] hgood2 hchain2 (Or.inl rfl)
        refine ⟨E2, b2, hf, ?_⟩
        rw [hs, flushText_nil_buf]
        simp
      · -- text
        have hb : b = [] := by
          rcases hhead with h | h
          · exact h
          · exact absurd h (by simp [headNotText])
        subst hb
        have ht : t ≠ [] ∧ ∀ c ∈ t, c ≠ '<' :=
          hgood _ (List.mem_cons_self _ _)
        have hhead2 : headNotText evs := by
          cases evs with
          | nil => trivial
          | cons e rest =>
              have hrel := (List.chain'_cons.1 hchain).1
              cases e with
              | textEv t2 => exact absurd hrel (by simp [notTT])
              | startTag n2 => trivial
              | endTag n2 => trivial
              | emptyTag n2 => trivial
        obtain ⟨E2, b2, hf, hs⟩ := ih E t hgood2 hchain2 (Or.inr hhead2)
        refine ⟨E2, b2, ?_, ?_⟩
        · rw [List.map_cons, List.flatten_cons]
          rw [show renderEvent (XEvent.textEv t) = t from rfl]
          rw [List.foldlM_append, lexFold_text t E [] ht.2]
          show List.foldlM lexStep ⟨E, none, [] ++ t⟩
            ((evs.map renderEvent).flatten) = some ⟨E2, none, b2⟩
          rw [List.nil_append]
          exact hf
        · rw [hs, flushText_cons_buf E t ht.1, flushText_nil_buf]
          simp

/-- Re-lexing a rendered well-formed event stream recovers it. -/
theorem lexChars_flatRender (evs : List XEvent)
    (hgood : ∀ e ∈ evs, GoodEvent e) (hchain : List.Chain' notTT evs) :
    lexChars ((evs.map renderEvent).flatten) = some evs := by
  obtain ⟨E2, b2, hf, hs⟩ := lexFold_run evs [] [] hgood hchain (Or.inl rfl)
  rw [lexChars, hf]
  show some (flushText ⟨E2, none, b2⟩) = some evs
  rw [hs, flushText_nil_buf]
  rw [List.nil_append]


/-! ## The indent pass and the escape pass, at event level -/

/-- The events of the indented document: the writer's whitespace
appears as explicit text events. -/
def indentedEvents : Bool → Nat → List XEvent → List XEvent
  | _, _, [] => []
  | sb, lvl, XEvent.startTag n :: evs =>
      (if sb then [XEvent.textEv (wsIndent lvl)] else []) ++
        XEvent.startTag n :: indentedEvents true (lvl + 1) evs
  | sb, lvl, XEvent.endTag n :: evs =>
      (if sb then [XEvent.textEv (wsIndent (lvl - 1))] else []) ++
        XEvent.endTag n :: indentedEvents true (lvl - 1) evs
  | sb, lvl, XEvent.emptyTag n :: evs =>
      (if sb then [XEvent.textEv (wsIndent lvl)] else []) ++
        XEvent.emptyTag n :: indentedEvents true lvl evs
  | _, lvl, XEvent.textEv t :: evs =>
      XEvent.textEv t :: indentedEvents false lvl evs

theorem renderIndent_eq : ∀ (evs : List XEvent) (sb : Bool) (lvl : Nat),
    renderIndent sb lvl evs =
      ((indentedEvents sb lvl evs).map renderEvent).flatten := by
  intro evs
  induction evs with
  | nil => intro sb lvl; cases sb <;> rfl
  | cons ev evs ih =>
      intro sb lvl
      rcases ev with n | n | n | t <;> cases sb <;>
        simp [renderIndent, indentedEvents, renderEvent, ih]

/-- Apply the non-ASCII escaping pass to one event. -/
def escEvent : XEvent → XEvent
  | XEvent.textEv t => XEvent.textEv (t.flatMap escNAC)
  | e => e

theorem flatMap_escNAC_ascii (l : List Char)
    (h : ∀ c ∈ l, charIsAscii c = true) : l.flatMap escNAC = l := by
  induction l with
  | nil => rfl
  | cons c cs ih =>
      rw [List.flatMap_cons]
      rw [show escNAC c = [c] from by
        rw [escNAC, if_pos (h c (List.mem_cons_self _ _))]]
      rw [ih (fun x hx => h x (List.mem_cons_of_mem _ hx))]
      rfl

/-- The tag characters of a well-formed event are ASCII. -/
def AsciiTags : XEvent → Prop
  | XEvent.startTag n => ∀ c ∈ n.data, charIsAscii c = true
  | XEvent.endTag n => ∀ c ∈ n.data, charIsAscii c = true
  | XEvent.emptyTag n => ∀ c ∈ n.data, charIsAscii c = true
  | XEvent.textEv _ => True

theorem renderEvent_flatMap_escNAC (e : XEvent) (h : AsciiTags e) :
    (renderEvent e).flatMap escNAC = renderEvent (escEvent e) := by
  rcases e with n | n | n | t
  · exact flatMap_escNAC_ascii _ (by
      intro c hc
      rcases List.mem_cons.1 hc with h1 | h1
      · rw [h1]; decide
      · rcases List.mem_append.1 h1 with h2 | h2
        · exact h c h2
        · simp at h2; rw [h2]; decide)
  · exact flatMap_escNAC_ascii _ (by
      intro c hc
      rcases List.mem_cons.1 hc with h1 | h1
      · rw [h1]; decide
      · rcases List.mem_cons.1 h1 with h2 | h2
        · rw [h2]; decide
        · rcases List.mem_append.1 h2 with h3 | h3
          · exact h c h3
          · simp at h3; rw [h3]; decide)
  · exact flatMap_escNAC_ascii _ (by
      intro c hc
      rcases List.mem_cons.1 hc with h1 | h1
      · rw [h1]; decide
      · rcases List.mem_append.1 h1 with h2 | h2
        · exact h c h2
        · rcases List.mem_cons.1 h2 with h3 | h3
          · rw [h3]; decide
          · simp at h3; rw [h3]; decide)
  · rfl

/-- The escape pass distributes over a rendered stream, escaping each
text event. -/
theorem escape_flatRender (evs : List XEvent)
    (h : ∀ e ∈ evs, AsciiTags e) :
    (escape_non_ascii (String.mk ((evs.map renderEvent).flatten))).data =
      (((evs.map escEvent).map renderEvent)).flatten := by
  rw [escape_non_ascii_data]
  show ((evs.map renderEvent).flatten).flatMap escNAC = _
  induction evs with
  | nil => rfl
  | cons e evs ih =>
      rw [List.map_cons, List.flatten_cons, List.flatMap_append]
      rw [renderEvent_flatMap_escNAC e (h e (List.mem_cons_self _ _))]
      rw [ih (fun x hx => h x (List.mem_cons_of_mem _ hx))]
      rw [List.map_cons, List.map_cons, List.flatten_cons]

theorem notTT_of_left_not_text (e x : XEvent)
    (he : ∀ t, e ≠ XEvent.textEv t) : notTT e x := by
  rcases e with n | n | n | t
  · cases x <;> trivial
  · cases x <;> trivial
  · cases x <;> trivial
  · exact absurd rfl (he t)

theorem headNotText_indentedEvents_false (evs : List XEvent) (lvl : Nat)
    (h : headNotText evs) :
    headNotText (indentedEvents false lvl evs) := by
  cases evs with
  | nil => trivial
  | cons e rest =>
      rcases e with n | n | n | t
      · simp [indentedEvents]; trivial
      · simp [indentedEvents]; trivial
      · simp [indentedEvents]; trivial
      · exact absurd h (by simp [headNotText])

theorem chain_notTT_indentedEvents :
    ∀ (evs : List XEvent) (sb : Bool) (lvl : Nat),
      List.Chain' notTT evs →
      List.Chain' notTT (indentedEvents sb lvl evs) := by
  intro evs
  induction evs with
  | nil => intro sb lvl _; cases sb <;> exact List.chain'_nil
  | cons ev evs ih =>
      intro sb lvl hchain
      have hchain2 : List.Chain' notTT evs := hchain.tail
      have hhead2 : headNotText evs → True := fun _ => trivial
      rcases ev with n | n | n | t
      · show List.Chain' notTT ((if sb then [XEvent.textEv (wsIndent lvl)]
          else []) ++ XEvent.startTag n :: indentedEvents true (lvl + 1) evs)
        have hrest : List.Chain' notTT
            (XEvent.startTag n :: indentedEvents true (lvl + 1) evs) :=
          List.chain'_cons'.2
            ⟨fun y _ => notTT_of_left_not_text _ y (fun t h => by cases h),
             ih true (lvl + 1) hchain2⟩
        cases sb with
        | false => simpa using hrest
        | true =>
            simp only [if_true, List.singleton_append]
            exact List.chain'_cons'.2
              ⟨fun y hy => by
                simp at hy
                subst hy
                trivial,
               hrest⟩
      · show List.Chain' notTT ((if sb then
          [XEvent.textEv (wsIndent (lvl - 1))]
          else []) ++ XEvent.endTag n :: indentedEvents true (lvl - 1) evs)
        have hrest : List.Chain' notTT
            (XEvent.endTag n :: indentedEvents true (lvl - 1) evs) :=
          List.chain'_cons'.2
            ⟨fun y _ => notTT_of_left_not_text _ y (fun t h => by cases h),
             ih true (lvl - 1) hchain2⟩
        cases sb with
        | false => simpa using hrest
        | true =>
            simp only [if_true, List.singleton_append]
            exact List.chain'_cons'.2
              ⟨fun y hy => by
                simp at hy
                subst hy
                trivial,
               hrest⟩
      · show List.Chain' notTT ((if sb then [XEvent.textEv (wsIndent lvl)]
          else []) ++ XEvent.emptyTag n :: indentedEvents true lvl evs)
        have hrest : List.Chain' notTT
            (XEvent.emptyTag n :: indentedEvents true lvl evs) :=
          List.chain'_cons'.2
            ⟨fun y _ => notTT_of_left_not_text _ y (fun t h => by cases h),
             ih true lvl hchain2⟩
        cases sb with
        | false => simpa using hrest
        | true =>
            simp only [if_true, List.singleton_append]
            exact List.chain'_cons'.2
              ⟨fun y hy => by
                simp at hy
                subst hy
                trivial,
               hrest⟩
      · show List.Chain' notTT
          (XEvent.textEv t :: indentedEvents false lvl evs)
        have hhead3 : headNotText evs := by
          cases evs with
          | nil => trivial
          | cons e rest =>
              have hrel := (List.chain'_cons.1 hchain).1
              cases e with
              | textEv t2 => exact absurd hrel (by simp [notTT])
              | startTag n2 => trivial
              | endTag n2 => trivial
              | emptyTag n2 => trivial
        refine List.chain'_cons'.2 ⟨?_, ih false lvl hchain2⟩
        intro y hy
        have hh := headNotText_indentedEvents_false evs lvl hhead3
        cases hind : indentedEvents false lvl evs with
        | nil => rw [hind] at hy; simp at hy
        | cons z zs =>
            rw [hind] at hy
            simp at hy
            rw [hind] at hh
            subst hy
            rcases z with n2 | n2 | n2 | t2
            · trivial
            · trivial
            · trivial
            · exact absurd hh (by simp [headNotText])


/-! ## Reading back an encoded document -/

@[simp] theorem ok_bind {ε α β : Type} (a : α) (f : α → Except ε β) :
    (Except.ok a >>= f) = f a := rfl

@[simp] theorem error_bind {ε α β : Type} (e : ε) (f : α → Except ε β) :
    ((Except.error e : Except ε α) >>= f) = Except.error e := rfl

/-- The indented-and-escaped encoding of an event segment. -/
def encF (sb : Bool) (lvl : Nat) (evs : List XEvent) : List XEvent :=
  (indentedEvents sb lvl evs).map escEvent

/-- The line-break flag after a segment. -/
def sbOut (sb : Bool) (evs : List XEvent) : Bool :=
  evs.foldl (fun s e =>
    match e with
    | XEvent.textEv _ => false
    | _ => true) sb

/-- The indent level after a segment. -/
def lvlOut (lvl : Nat) (evs : List XEvent) : Nat :=
  evs.foldl (fun l e =>
    match e with
    | XEvent.startTag _ => l + 1
    | XEvent.endTag _ => l - 1
    | _ => l) lvl

theorem sbOut_append (sb : Bool) (a b : List XEvent) :
    sbOut sb (a ++ b) = sbOut (sbOut sb a) b := List.foldl_append _ _ _ _

theorem lvlOut_append (lvl : Nat) (a b : List XEvent) :
    lvlOut lvl (a ++ b) = lvlOut (lvlOut lvl a) b := List.foldl_append _ _ _ _

theorem indentedEvents_append : ∀ (a b : List XEvent) (sb : Bool) (lvl : Nat),
    indentedEvents sb lvl (a ++ b) =
      indentedEvents sb lvl a ++
        indentedEvents (sbOut sb a) (lvlOut lvl a) b := by
  intro a
  induction a with
  | nil => intro b sb lvl; simp [indentedEvents, sbOut, lvlOut]
  | cons e a ih =>
      intro b sb lvl
      rcases e with n | n | n | t
      · show indentedEvents sb lvl (XEvent.startTag n :: (a ++ b)) = _
        have hsb : sbOut sb (XEvent.startTag n :: a) = sbOut true a := by
          rw [sbOut, List.foldl_cons]; rfl
        have hlvl : lvlOut lvl (XEvent.startTag n :: a) =
            lvlOut (lvl + 1) a := by
          rw [lvlOut, List.foldl_cons]; rfl
        simp only [indentedEvents]
        rw [ih, hsb, hlvl]
        simp [List.append_assoc]
      · show indentedEvents sb lvl (XEvent.endTag n :: (a ++ b)) = _
        have hsb : sbOut sb (XEvent.endTag n :: a) = sbOut true a := by
          rw [sbOut, List.foldl_cons]; rfl
        have hlvl : lvlOut lvl (XEvent.endTag n :: a) =
            lvlOut (lvl - 1) a := by
          rw [lvlOut, List.foldl_cons]; rfl
        simp only [indentedEvents]
        rw [ih, hsb, hlvl]
        simp [List.append_assoc]
      · show indentedEvents sb lvl (XEvent.emptyTag n :: (a ++ b)) = _
        have hsb : sbOut sb (XEvent.emptyTag n :: a) = sbOut true a := by
          rw [sbOut, List.foldl_cons]; rfl
        have hlvl : lvlOut lvl (XEvent.emptyTag n :: a) = lvlOut lvl a := by
          rw [lvlOut, List.foldl_cons]; rfl
        simp only [indentedEvents]
        rw [ih, hsb, hlvl]
        simp [List.append_assoc]
      · show indentedEvents sb lvl (XEvent.textEv t :: (a ++ b)) = _
        have hsb : sbOut sb (XEvent.textEv t :: a) = sbOut false a := by
          rw [sbOut, List.foldl_cons]; rfl
        have hlvl : lvlOut lvl (XEvent.textEv t :: a) = lvlOut lvl a := by
          rw [lvlOut, List.foldl_cons]; rfl
        simp only [indentedEvents]
        rw [ih, hsb, hlvl]
        simp

theorem encF_append (sb : Bool) (lvl : Nat) (a b : List XEvent) :
    encF sb lvl (a ++ b) =
      encF sb lvl a ++ encF (sbOut sb a) (lvlOut lvl a) b := by
  rw [encF, indentedEvents_append, List.map_append]
  rfl

theorem sbOut_fieldEvents (sb : Bool) (n : String) (v : List Char) :
    sbOut sb (fieldEvents n v) = true := by
  rw [fieldEvents]
  by_cases h : v.isEmpty <;> simp [h, sbOut]

theorem lvlOut_fieldEvents (lvl : Nat) (n : String) (v : List Char) :
    lvlOut lvl (fieldEvents n v) = lvl := by
  rw [fieldEvents]
  by_cases h : v.isEmpty <;> simp [h, lvlOut]

@[simp] theorem sbOut_start (sb : Bool) (n : String) :
    sbOut sb [XEvent.startTag n] = true := rfl

@[simp] theorem lvlOut_start (lvl : Nat) (n : String) :
    lvlOut lvl [XEvent.startTag n] = lvl + 1 := rfl

@[simp] theorem sbOut_end (sb : Bool) (n : String) :
    sbOut sb [XEvent.endTag n] = true := rfl

@[simp] theorem lvlOut_end (lvl : Nat) (n : String) :
    lvlOut lvl [XEvent.endTag n] = lvl - 1 := rfl

theorem wsIndent_ascii (lvl : Nat) :
    ∀ c ∈ wsIndent lvl, charIsAscii c = true := by
  intro c hc
  rcases List.mem_cons.1 hc with h1 | h1
  · rw [h1]; decide
  · rw [List.eq_of_mem_replicate h1]; decide

theorem escEvent_ws (lvl : Nat) :
    escEvent (XEvent.textEv (wsIndent lvl)) =
      XEvent.textEv (wsIndent lvl) := by
  rw [escEvent]
  rw [flatMap_escNAC_ascii _ (wsIndent_ascii lvl)]

theorem isWsText_wsIndent (lvl : Nat) :
    isWsText (XEvent.textEv (wsIndent lvl)) = true := by
  rw [isWsText]
  rw [List.all_eq_true]
  intro c hc
  rcases List.mem_cons.1 hc with h1 | h1
  · rw [h1]; decide
  · rw [List.eq_of_mem_replicate h1]; decide

theorem skipWs_cons_ws (e : XEvent) (h : isWsText e = true)
    (l : List XEvent) : skipWs (e :: l) = skipWs l := by
  simp [skipWs, List.dropWhile_cons, h]

theorem skipWs_cons_not (e : XEvent) (h : isWsText e = false)
    (l : List XEvent) : skipWs (e :: l) = e :: l := by
  simp [skipWs, List.dropWhile_cons, h]

@[simp] theorem isWsText_start (n : String) :
    isWsText (XEvent.startTag n) = false := rfl

@[simp] theorem isWsText_end (n : String) :
    isWsText (XEvent.endTag n) = false := rfl

@[simp] theorem isWsText_empty (n : String) :
    isWsText (XEvent.emptyTag n) = false := rfl

theorem encF_startTag (sb : Bool) (lvl : Nat) (n : String) :
    encF sb lvl [XEvent.startTag n] =
      (if sb then [XEvent.textEv (wsIndent lvl)] else []) ++
        [XEvent.startTag n] := by
  cases sb <;> simp [encF, indentedEvents, escEvent, escEvent_ws] <;>
    exact flatMap_escNAC_ascii _ (wsIndent_ascii _)

theorem encF_endTag (sb : Bool) (lvl : Nat) (n : String) :
    encF sb lvl [XEvent.endTag n] =
      (if sb then [XEvent.textEv (wsIndent (lvl - 1))] else []) ++
        [XEvent.endTag n] := by
  cases sb <;> simp [encF, indentedEvents, escEvent, escEvent_ws] <;>
    exact flatMap_escNAC_ascii _ (wsIndent_ascii _)

theorem expectStart_encode (name : String) (sb : Bool) (lvl : Nat)
    (rest : List XEvent) :
    expectStart name (encF sb lvl [XEvent.startTag name] ++ rest) =
      Except.ok rest := by
  rw [encF_startTag]
  cases sb with
  | false =>
      rw [expectStart]
      rw [show ((if false = true then [XEvent.textEv (wsIndent lvl)]
        else []) ++ [XEvent.startTag name]) ++ rest =
        XEvent.startTag name :: rest from by simp]
      rw [skipWs_cons_not _ (isWsText_start name)]
      simp
  | true =>
      rw [expectStart]
      rw [show ((if true = true then [XEvent.textEv (wsIndent lvl)]
        else []) ++ [XEvent.startTag name]) ++ rest =
        XEvent.textEv (wsIndent lvl) :: (XEvent.startTag name :: rest)
        from by simp]
      rw [skipWs_cons_ws _ (isWsText_wsIndent lvl)]
      rw [skipWs_cons_not _ (isWsText_start name)]
      simp

theorem expectEnd_encode (name : String) (sb : Bool) (lvl : Nat)
    (rest : List XEvent) :
    expectEnd name (encF sb lvl [XEvent.endTag name] ++ rest) =
      Except.ok rest := by
  rw [encF_endTag]
  cases sb with
  | false =>
      rw [expectEnd]
      rw [show ((if false = true then [XEvent.textEv (wsIndent (lvl - 1))]
        else []) ++ [XEvent.endTag name]) ++ rest =
        XEvent.endTag name :: rest from by simp]
      rw [skipWs_cons_not _ (isWsText_end name)]
      simp
  | true =>
      rw [expectEnd]
      rw [show ((if true = true then [XEvent.textEv (wsIndent (lvl - 1))]
        else []) ++ [XEvent.endTag name]) ++ rest =
        XEvent.textEv (wsIndent (lvl - 1)) :: (XEvent.endTag name :: rest)
        from by simp]
      rw [skipWs_cons_ws _ (isWsText_wsIndent (lvl - 1))]
      rw [skipWs_cons_not _ (isWsText_end name)]
      simp

theorem escapeXmlChar_ne_nil (c : Char) : escapeXmlChar c ≠ [] := by
  rw [escapeXmlChar]
  by_cases h1 : c = '&'
  · simp [h1]
  · by_cases h2 : c = '<'
    · simp [h1, h2]
    · by_cases h3 : c = '>'
      · simp [h1, h2, h3]
      · by_cases h4 : c = Char.ofNat 39
        · simp [h1, h2, h3, h4]
        · by_cases h5 : c = '"' <;> simp [h1, h2, h3, h4, h5]

theorem escapeXml_ne_nil (c : Char) (cs : List Char) :
    escapeXml (c :: cs) ≠ [] := by
  rw [escapeXml, List.flatMap_cons]
  intro h
  exact escapeXmlChar_ne_nil c (List.append_eq_nil.1 h).1

theorem parseField_encode_chars (name : String) (v : List Char)
    (sb : Bool) (lvl : Nat) (rest : List XEvent) :
    parseField name
      (encF sb lvl (fieldEvents name (escapeXml v)) ++ rest) =
      Except.ok (String.mk v, rest) := by
  rcases v with _ | ⟨c, cs⟩
  · rw [show fieldEvents name (escapeXml []) = [XEvent.emptyTag name]
      from rfl]
    have h2 : encF sb lvl [XEvent.emptyTag name] =
        (if sb then [XEvent.textEv (wsIndent lvl)] else []) ++
          [XEvent.emptyTag name] := by
      cases sb <;> simp [encF, indentedEvents, escEvent, escEvent_ws] <;>
        exact flatMap_escNAC_ascii _ (wsIndent_ascii _)
    rw [h2]
    cases sb with
    | false =>
        rw [parseField]
        rw [show ((if false = true then [XEvent.textEv (wsIndent lvl)]
          else []) ++ [XEvent.emptyTag name]) ++ rest =
          XEvent.emptyTag name :: rest from by simp]
        rw [skipWs_cons_not _ (isWsText_empty name)]
        simp
    | true =>
        rw [parseField]
        rw [show ((if true = true then [XEvent.textEv (wsIndent lvl)]
          else []) ++ [XEvent.emptyTag name]) ++ rest =
          XEvent.textEv (wsIndent lvl) :: (XEvent.emptyTag name :: rest)
          from by simp]
        rw [skipWs_cons_ws _ (isWsText_wsIndent lvl)]
        rw [skipWs_cons_not _ (isWsText_empty name)]
        simp
  · have hne : escapeXml (c :: cs) ≠ [] := escapeXml_ne_nil c cs
    have h1 : fieldEvents name (escapeXml (c :: cs)) =
        [XEvent.startTag name, XEvent.textEv (escapeXml (c :: cs)),
         XEvent.endTag name] := by
      rw [fieldEvents, if_neg (by simpa [List.isEmpty_iff] using hne)]
    rw [h1]
    have h2 : encF sb lvl [XEvent.startTag name,
        XEvent.textEv (escapeXml (c :: cs)), XEvent.endTag name] =
        (if sb then [XEvent.textEv (wsIndent lvl)] else []) ++
          [XEvent.startTag name,
           XEvent.textEv ((escapeXml (c :: cs)).flatMap escNAC),
           XEvent.endTag name] := by
      cases sb <;> simp [encF, indentedEvents, escEvent, escEvent_ws] <;>
        exact flatMap_escNAC_ascii _ (wsIndent_ascii _)
    rw [h2]
    have hunesc : unescapeChars ((escapeXml (c :: cs)).flatMap escNAC) =
        some (c :: cs) := by
      rw [escapeXml, List.flatMap_assoc]
      exact unescapeChars_pipeline (c :: cs)
    have hfin : ∀ evs0, skipWs evs0 =
        XEvent.startTag name ::
          (XEvent.textEv ((escapeXml (c :: cs)).flatMap escNAC) ::
            (XEvent.endTag name :: rest)) →
        parseField name evs0 = Except.ok (String.mk (c :: cs), rest) := by
      intro evs0 hskip
      rw [parseField, hskip]
      simp [hunesc]
    cases sb with
    | false =>
        apply hfin
        rw [show ((if false = true then [XEvent.textEv (wsIndent lvl)]
          else []) ++ [XEvent.startTag name,
            XEvent.textEv ((escapeXml (c :: cs)).flatMap escNAC),
            XEvent.endTag name]) ++ rest =
          XEvent.startTag name ::
            (XEvent.textEv ((escapeXml (c :: cs)).flatMap escNAC) ::
              (XEvent.endTag name :: rest)) from by simp]
        rw [skipWs_cons_not _ (isWsText_start name)]
    | true =>
        apply hfin
        rw [show ((if true = true then [XEvent.textEv (wsIndent lvl)]
          else []) ++ [XEvent.startTag name,
            XEvent.textEv ((escapeXml (c :: cs)).flatMap escNAC),
            XEvent.endTag name]) ++ rest =
          XEvent.textEv (wsIndent lvl) :: (XEvent.startTag name ::
            (XEvent.textEv ((escapeXml (c :: cs)).flatMap escNAC) ::
              (XEvent.endTag name :: rest))) from by simp]
        rw [skipWs_cons_ws _ (isWsText_wsIndent lvl)]
        rw [skipWs_cons_not _ (isWsText_start name)]

theorem parseField_encode (name : String) (raw : String) (sb : Bool)
    (lvl : Nat) (rest : List XEvent) :
    parseField name
      (encF sb lvl (fieldEvents name (escapeXml raw.data)) ++ rest) =
      Except.ok (raw, rest) :=
  parseField_encode_chars name raw.data sb lvl rest

theorem parseNatField_encode (name : String) (n : Nat) (sb : Bool)
    (lvl : Nat) (rest : List XEvent) :
    parseNatField name
      (encF sb lvl (fieldEvents name (escapeXml (natRepr n).data)) ++ rest) =
      Except.ok (n, rest) := by
  rw [parseNatField, parseField_encode name (natRepr n) sb lvl rest]
  simp [parseNat_natRepr]

theorem parseF64Field_encode (name : String) (v : F64) (sb : Bool)
    (lvl : Nat) (rest : List XEvent) :
    parseF64Field name
      (encF sb lvl (fieldEvents name (escapeXml (f64Repr v).data)) ++ rest) =
      Except.ok (v, rest) := by
  rw [parseF64Field, parseField_encode name (f64Repr v) sb lvl rest]
  simp [parseF64_f64Repr]


theorem parseEntity_encode (e : SerializableEntity) (sb : Bool)
    (lvl : Nat) (rest : List XEvent) :
    parseEntity (encF sb lvl (entityEvents e) ++ rest) =
      Except.ok (e, rest) := by
  have hsplit : encF sb lvl (entityEvents e) ++ rest =
      encF sb lvl [XEvent.startTag "entity"] ++
      (encF true (lvl + 1)
        (fieldEvents "id" (escapeXml (natRepr e.id).data)) ++
      (encF true (lvl + 1)
        (fieldEvents "class_name" (escapeXml e.class_name.data)) ++
      (encF true (lvl + 1)
        (fieldEvents "classification" (escapeXml e.classification.data)) ++
      (encF true (lvl + 1)
        (fieldEvents "identity" (escapeXml e.identity.data)) ++
      (encF true (lvl + 1)
        (fieldEvents "level" (escapeXml e.level.data)) ++
      (encF true (lvl + 1)
        (fieldEvents "attach"
          (escapeXml (serialize_addon_types e.attach).data)) ++
      (encF true (lvl + 1)
        (fieldEvents "opentool" (escapeXml e.opentool.data)) ++
      (encF true (lvl + 1)
        (fieldEvents "content" (escapeXml e.content.data)) ++
      (encF true (lvl + 1)
        (fieldEvents "x" (escapeXml (f64Repr e.x).data)) ++
      (encF true (lvl + 1)
        (fieldEvents "y" (escapeXml (f64Repr e.y).data)) ++
      (encF true (lvl + 1) [XEvent.endTag "entity"] ++
        rest))))))))))) := by
    simp only [entityEvents, List.append_assoc, encF_append,
      sbOut_append, lvlOut_append, sbOut_start, lvlOut_start,
      sbOut_fieldEvents, lvlOut_fieldEvents]
  rw [hsplit]
  simp only [parseEntity]
  rw [expectStart_encode]
  simp only [ok_bind]
  rw [parseNatField_encode]
  simp only [ok_bind]
  rw [parseField_encode]
  simp only [ok_bind]
  rw [parseField_encode]
  simp only [ok_bind]
  rw [parseField_encode]
  simp only [ok_bind]
  rw [parseField_encode]
  simp only [ok_bind]
  rw [parseField_encode]
  simp only [ok_bind]
  rw [parseField_encode]
  simp only [ok_bind]
  rw [parseField_encode]
  simp only [ok_bind]
  rw [parseF64Field_encode]
  simp only [ok_bind]
  rw [parseF64Field_encode]
  simp only [ok_bind]
  rw [expectEnd_encode]
  simp only [ok_bind]
  rw [deserialize_serialize_addon_types]

theorem parseEdge_encode (e : SerializableEdge) (sb : Bool)
    (lvl : Nat) (rest : List XEvent) :
    parseEdge (encF sb lvl (edgeEvents e) ++ rest) =
      Except.ok (e, rest) := by
  have hsplit : encF sb lvl (edgeEvents e) ++ rest =
      encF sb lvl [XEvent.startTag "relation"] ++
      (encF true (lvl + 1)
        (fieldEvents "name" (escapeXml e.name.data)) ++
      (encF true (lvl + 1)
        (fieldEvents "headnodeid" (escapeXml (natRepr e.headnodeid).data)) ++
      (encF true (lvl + 1)
        (fieldEvents "tailnodeid" (escapeXml (natRepr e.tailnodeid).data)) ++
      (encF true (lvl + 1)
        (fieldEvents "class_name" (escapeXml e.class_name.data)) ++
      (encF true (lvl + 1)
        (fieldEvents "mask" (escapeXml e.mask.data)) ++
      (encF true (lvl + 1)
        (fieldEvents "classification" (escapeXml e.classification.data)) ++
      (encF true (lvl + 1)
        (fieldEvents "head_need" (escapeXml e.head_need.data)) ++
      (encF true (lvl + 1)
        (fieldEvents "tail_need" (escapeXml e.tail_need.data)) ++
      (encF true (lvl + 1) [XEvent.endTag "relation"] ++
        rest))))))))) := by
    simp only [edgeEvents, List.append_assoc, encF_append,
      sbOut_append, lvlOut_append, sbOut_start, lvlOut_start,
      sbOut_fieldEvents, lvlOut_fieldEvents]
  rw [hsplit]
  simp only [parseEdge]
  rw [expectStart_encode]
  simp only [ok_bind]
  rw [parseField_encode]
  simp only [ok_bind]
  rw [parseNatField_encode]
  simp only [ok_bind]
  rw [parseNatField_encode]
  simp only [ok_bind]
  rw [parseField_encode]
  simp only [ok_bind]
  rw [parseField_encode]
  simp only [ok_bind]
  rw [parseField_encode]
  simp only [ok_bind]
  rw [parseField_encode]
  simp only [ok_bind]
  rw [parseField_encode]
  simp only [ok_bind]
  rw [expectEnd_encode]
  simp only [ok_bind]


theorem skipWs_idem (l : List XEvent) : skipWs (skipWs l) = skipWs l := by
  induction l with
  | nil => rfl
  | cons e l ih =>
      by_cases h : isWsText e = true
      · rw [skipWs_cons_ws e h]
        exact ih
      · have hf : isWsText e = false := by simpa using h
        rw [skipWs_cons_not e hf, skipWs_cons_not e hf]

theorem expectStart_skipWs (name : String) (evs : List XEvent) :
    expectStart name (skipWs evs) = expectStart name evs := by
  rw [expectStart, expectStart, skipWs_idem]

theorem parseEntity_skipWs (evs : List XEvent) :
    parseEntity (skipWs evs) = parseEntity evs := by
  simp only [parseEntity]
  rw [expectStart_skipWs]

theorem parseEdge_skipWs (evs : List XEvent) :
    parseEdge (skipWs evs) = parseEdge evs := by
  simp only [parseEdge]
  rw [expectStart_skipWs]

theorem sbOut_cons_start (sb : Bool) (n : String) (l : List XEvent) :
    sbOut sb (XEvent.startTag n :: l) = sbOut true l := by
  rw [sbOut, List.foldl_cons]; rfl

theorem sbOut_cons_end (sb : Bool) (n : String) (l : List XEvent) :
    sbOut sb (XEvent.endTag n :: l) = sbOut true l := by
  rw [sbOut, List.foldl_cons]; rfl

theorem lvlOut_cons_start (lvl : Nat) (n : String) (l : List XEvent) :
    lvlOut lvl (XEvent.startTag n :: l) = lvlOut (lvl + 1) l := by
  rw [lvlOut, List.foldl_cons]; rfl

theorem lvlOut_cons_end (lvl : Nat) (n : String) (l : List XEvent) :
    lvlOut lvl (XEvent.endTag n :: l) = lvlOut (lvl - 1) l := by
  rw [lvlOut, List.foldl_cons]; rfl

@[simp] theorem sbOut_nil (sb : Bool) : sbOut sb [] = sb := rfl

@[simp] theorem lvlOut_nil (lvl : Nat) : lvlOut lvl [] = lvl := rfl

theorem sbOut_entityEvents (sb : Bool) (e : SerializableEntity) :
    sbOut sb (entityEvents e) = true := by
  simp [entityEvents, List.append_assoc, sbOut_cons_start,
    sbOut_append, sbOut_fieldEvents, sbOut_end]

theorem lvlOut_entityEvents (lvl : Nat) (e : SerializableEntity) :
    lvlOut lvl (entityEvents e) = lvl := by
  simp [entityEvents, List.append_assoc, lvlOut_cons_start,
    lvlOut_append, lvlOut_fieldEvents, lvlOut_cons_end]

theorem sbOut_edgeEvents (sb : Bool) (e : SerializableEdge) :
    sbOut sb (edgeEvents e) = true := by
  simp [edgeEvents, List.append_assoc, sbOut_cons_start,
    sbOut_append, sbOut_fieldEvents, sbOut_end]

theorem lvlOut_edgeEvents (lvl : Nat) (e : SerializableEdge) :
    lvlOut lvl (edgeEvents e) = lvl := by
  simp [edgeEvents, List.append_assoc, lvlOut_cons_start,
    lvlOut_append, lvlOut_fieldEvents, lvlOut_cons_end]

/-- The events of an entity element after its start tag. -/
def entityTail (e : SerializableEntity) : List XEvent :=
  fieldEvents "id" (escapeXml (natRepr e.id).data) ++
  (fieldEvents "class_name" (escapeXml e.class_name.data) ++
  (fieldEvents "classification" (escapeXml e.classification.data) ++
  (fieldEvents "identity" (escapeXml e.identity.data) ++
  (fieldEvents "level" (escapeXml e.level.data) ++
  (fieldEvents "attach" (escapeXml (serialize_addon_types e.attach).data) ++
  (fieldEvents "opentool" (escapeXml e.opentool.data) ++
  (fieldEvents "content" (escapeXml e.content.data) ++
  (fieldEvents "x" (escapeXml (f64Repr e.x).data) ++
  (fieldEvents "y" (escapeXml (f64Repr e.y).data) ++
  [XEvent.endTag "entity"])))))))))

theorem entityEvents_eq_cons (e : SerializableEntity) :
    entityEvents e = XEvent.startTag "entity" :: entityTail e := by
  simp [entityEvents, entityTail, List.append_assoc]

/-- The events of a relation element after its start tag. -/
def edgeTail (e : SerializableEdge) : List XEvent :=
  fieldEvents "name" (escapeXml e.name.data) ++
  (fieldEvents "headnodeid" (escapeXml (natRepr e.headnodeid).data) ++
  (fieldEvents "tailnodeid" (escapeXml (natRepr e.tailnodeid).data) ++
  (fieldEvents "class_name" (escapeXml e.class_name.data) ++
  (fieldEvents "mask" (escapeXml e.mask.data) ++
  (fieldEvents "classification" (escapeXml e.classification.data) ++
  (fieldEvents "head_need" (escapeXml e.head_need.data) ++
  (fieldEvents "tail_need" (escapeXml e.tail_need.data) ++
  [XEvent.endTag "relation"])))))))

theorem edgeEvents_eq_cons (e : SerializableEdge) :
    edgeEvents e = XEvent.startTag "relation" :: edgeTail e := by
  simp [edgeEvents, edgeTail, List.append_assoc]

theorem encF_start_cons (l2 : Nat) (n : String) (tl : List XEvent) :
    encF true l2 (XEvent.startTag n :: tl) =
      XEvent.textEv (wsIndent l2) :: XEvent.startTag n ::
        (indentedEvents true (l2 + 1) tl).map escEvent := by
  simp [encF, indentedEvents, escEvent]
  exact flatMap_escNAC_ascii _ (wsIndent_ascii _)

theorem encF_flatten_balanced (l2 : Nat) :
    ∀ (segs : List (List XEvent)),
      (∀ seg ∈ segs, sbOut true seg = true ∧ lvlOut l2 seg = l2) →
      encF true l2 segs.flatten =
        (segs.map (fun seg => encF true l2 seg)).flatten ∧
      sbOut true segs.flatten = true ∧
      lvlOut l2 segs.flatten = l2 := by
  intro segs
  induction segs with
  | nil => intro _; exact ⟨rfl, rfl, rfl⟩
  | cons seg segs ih =>
      intro h
      have hseg := h seg (List.mem_cons_self _ _)
      have hrest := ih (fun x hx => h x (List.mem_cons_of_mem _ hx))
      refine ⟨?_, ?_, ?_⟩
      · rw [List.flatten_cons, encF_append, hseg.1, hseg.2, hrest.1,
          List.map_cons, List.flatten_cons]
      · rw [List.flatten_cons, sbOut_append, hseg.1, hrest.2.1]
      · rw [List.flatten_cons, lvlOut_append, hseg.2, hrest.2.2]


theorem parseEntitiesItems_encode (l2 : Nat) :
    ∀ (es : List SerializableEntity) (fuel : Nat) (rest : List XEvent),
      es.length < fuel →
      parseEntitiesItems fuel
        ((es.map (fun e => encF true l2 (entityEvents e))).flatten ++
          (encF true l2 [XEvent.endTag "entities"] ++ rest)) =
        Except.ok (es, rest) := by
  intro es
  induction es with
  | nil =>
      intro fuel rest hfuel
      cases fuel with
      | zero => omega
      | succ f =>
          have hend : encF true l2 [XEvent.endTag "entities"] ++ rest =
              XEvent.textEv (wsIndent (l2 - 1)) ::
                (XEvent.endTag "entities" :: rest) := by
            rw [encF_endTag]
            simp
          rw [List.map_nil, List.flatten_nil, List.nil_append, hend]
          have hskip : skipWs (XEvent.textEv (wsIndent (l2 - 1)) ::
              (XEvent.endTag "entities" :: rest)) =
              XEvent.endTag "entities" :: rest := by
            rw [skipWs_cons_ws _ (isWsText_wsIndent _),
                skipWs_cons_not _ (isWsText_end _)]
          simp only [parseEntitiesItems]
          rw [hskip]
          simp
  | cons e es ih =>
      intro fuel rest hfuel
      cases fuel with
      | zero => omega
      | succ f =>
          have hshape : encF true l2 (entityEvents e) =
              XEvent.textEv (wsIndent l2) :: XEvent.startTag "entity" ::
                (indentedEvents true (l2 + 1) (entityTail e)).map
                  escEvent := by
            rw [entityEvents_eq_cons, encF_start_cons]
          have hstream :
              (((e :: es).map
                (fun e => encF true l2 (entityEvents e))).flatten ++
                (encF true l2 [XEvent.endTag "entities"] ++ rest)) =
              XEvent.textEv (wsIndent l2) :: (XEvent.startTag "entity" ::
                ((indentedEvents true (l2 + 1) (entityTail e)).map escEvent ++
                  ((es.map (fun e => encF true l2 (entityEvents e))).flatten ++
                    (encF true l2 [XEvent.endTag "entities"] ++ rest)))) := by
            rw [List.map_cons, List.flatten_cons, hshape]
            simp [List.append_assoc]
          rw [hstream]
          have hskip : skipWs (XEvent.textEv (wsIndent l2) ::
              (XEvent.startTag "entity" ::
                ((indentedEvents true (l2 + 1) (entityTail e)).map escEvent ++
                  ((es.map (fun e => encF true l2 (entityEvents e))).flatten ++
                    (encF true l2 [XEvent.endTag "entities"] ++ rest))))) =
              XEvent.startTag "entity" ::
                ((indentedEvents true (l2 + 1) (entityTail e)).map escEvent ++
                  ((es.map (fun e => encF true l2 (entityEvents e))).flatten ++
                    (encF true l2 [XEvent.endTag "entities"] ++ rest))) := by
            rw [skipWs_cons_ws _ (isWsText_wsIndent _),
                skipWs_cons_not _ (isWsText_start _)]
          simp only [parseEntitiesItems]
          rw [hskip]
          have hpe : parseEntity (XEvent.startTag "entity" ::
              ((indentedEvents true (l2 + 1) (entityTail e)).map escEvent ++
                ((es.map (fun e => encF true l2 (entityEvents e))).flatten ++
                  (encF true l2 [XEvent.endTag "entities"] ++ rest)))) =
              Except.ok (e,
                (es.map (fun e => encF true l2 (entityEvents e))).flatten ++
                  (encF true l2 [XEvent.endTag "entities"] ++ rest)) := by
            have h1 : XEvent.startTag "entity" ::
                ((indentedEvents true (l2 + 1) (entityTail e)).map escEvent ++
                  ((es.map (fun e => encF true l2 (entityEvents e))).flatten ++
                    (encF true l2 [XEvent.endTag "entities"] ++ rest))) =
                skipWs (encF true l2 (entityEvents e) ++
                  ((es.map (fun e => encF true l2 (entityEvents e))).flatten ++
                    (encF true l2 [XEvent.endTag "entities"] ++ rest))) := by
              rw [hshape, List.cons_append, List.cons_append]
              rw [skipWs_cons_ws _ (isWsText_wsIndent _),
                  skipWs_cons_not _ (isWsText_start _)]
            rw [h1, parseEntity_skipWs, parseEntity_encode]
          simp only [hpe, ok_bind]
          rw [ih f rest (by
            have := hfuel
            simp only [List.length_cons] at this
            omega)]
          simp

theorem parseEdgesItems_encode (l2 : Nat) :
    ∀ (es : List SerializableEdge) (fuel : Nat) (rest : List XEvent),
      es.length < fuel →
      parseEdgesItems fuel
        ((es.map (fun e => encF true l2 (edgeEvents e))).flatten ++
          (encF true l2 [XEvent.endTag "relations"] ++ rest)) =
        Except.ok (es, rest) := by
  intro es
  induction es with
  | nil =>
      intro fuel rest hfuel
      cases fuel with
      | zero => omega
      | succ f =>
          have hend : encF true l2 [XEvent.endTag "relations"] ++ rest =
              XEvent.textEv (wsIndent (l2 - 1)) ::
                (XEvent.endTag "relations" :: rest) := by
            rw [encF_endTag]
            simp
          rw [List.map_nil, List.flatten_nil, List.nil_append, hend]
          have hskip : skipWs (XEvent.textEv (wsIndent (l2 - 1)) ::
              (XEvent.endTag "relations" :: rest)) =
              XEvent.endTag "relations" :: rest := by
            rw [skipWs_cons_ws _ (isWsText_wsIndent _),
                skipWs_cons_not _ (isWsText_end _)]
          simp only [parseEdgesItems]
          rw [hskip]
          simp
  | cons e es ih =>
      intro fuel rest hfuel
      cases fuel with
      | zero => omega
      | succ f =>
          have hshape : encF true l2 (edgeEvents e) =
              XEvent.textEv (wsIndent l2) :: XEvent.startTag "relation" ::
                (indentedEvents true (l2 + 1) (edgeTail e)).map escEvent := by
            rw [edgeEvents_eq_cons, encF_start_cons]
          have hstream :
              (((e :: es).map
                (fun e => encF true l2 (edgeEvents e))).flatten ++
                (encF true l2 [XEvent.endTag "relations"] ++ rest)) =
              XEvent.textEv (wsIndent l2) :: (XEvent.startTag "relation" ::
                ((indentedEvents true (l2 + 1) (edgeTail e)).map escEvent ++
                  ((es.map (fun e => encF true l2 (edgeEvents e))).flatten ++
                    (encF true l2 [XEvent.endTag "relations"] ++ rest)))) := by
            rw [List.map_cons, List.flatten_cons, hshape]
            simp [List.append_assoc]
          rw [hstream]
          have hskip : skipWs (XEvent.textEv (wsIndent l2) ::
              (XEvent.startTag "relation" ::
                ((indentedEvents true (l2 + 1) (edgeTail e)).map escEvent ++
                  ((es.map (fun e => encF true l2 (edgeEvents e))).flatten ++
                    (encF true l2 [XEvent.endTag "relations"] ++ rest))))) =
              XEvent.startTag "relation" ::
                ((indentedEvents true (l2 + 1) (edgeTail e)).map escEvent ++
                  ((es.map (fun e => encF true l2 (edgeEvents e))).flatten ++
                    (encF true l2 [XEvent.endTag "relations"] ++ rest))) := by
            rw [skipWs_cons_ws _ (isWsText_wsIndent _),
                skipWs_cons_not _ (isWsText_start _)]
          simp only [parseEdgesItems]
          rw [hskip]
          have hpe : parseEdge (XEvent.startTag "relation" ::
              ((indentedEvents true (l2 + 1) (edgeTail e)).map escEvent ++
                ((es.map (fun e => encF true l2 (edgeEvents e))).flatten ++
                  (encF true l2 [XEvent.endTag "relations"] ++ rest)))) =
              Except.ok (e,
                (es.map (fun e => encF true l2 (edgeEvents e))).flatten ++
                  (encF true l2 [XEvent.endTag "relations"] ++ rest)) := by
            have h1 : XEvent.startTag "relation" ::
                ((indentedEvents true (l2 + 1) (edgeTail e)).map escEvent ++
                  ((es.map (fun e => encF true l2 (edgeEvents e))).flatten ++
                    (encF true l2 [XEvent.endTag "relations"] ++ rest))) =
                skipWs (encF true l2 (edgeEvents e) ++
                  ((es.map (fun e => encF true l2 (edgeEvents e))).flatten ++
                    (encF true l2 [XEvent.endTag "relations"] ++ rest))) := by
              rw [hshape, List.cons_append, List.cons_append]
              rw [skipWs_cons_ws _ (isWsText_wsIndent _),
                  skipWs_cons_not _ (isWsText_start _)]
            rw [h1, parseEdge_skipWs, parseEdge_encode]
          simp only [hpe, ok_bind]
          rw [ih f rest (by
            have := hfuel
            simp only [List.length_cons] at this
            omega)]
          simp


theorem encF_emptyTag (sb : Bool) (lvl : Nat) (n : String) :
    encF sb lvl [XEvent.emptyTag n] =
      (if sb then [XEvent.textEv (wsIndent lvl)] else []) ++
        [XEvent.emptyTag n] := by
  cases sb <;> simp [encF, indentedEvents, escEvent, escEvent_ws] <;>
    exact flatMap_escNAC_ascii _ (wsIndent_ascii _)

theorem indentedEvents_length : ∀ (evs : List XEvent) (sb : Bool) (lvl : Nat),
    evs.length ≤ (indentedEvents sb lvl evs).length := by
  intro evs
  induction evs with
  | nil => intro sb lvl; simp [indentedEvents]
  | cons e evs ih =>
      intro sb lvl
      rcases e with n | n | n | t <;> rw [indentedEvents] <;>
        cases sb <;>
          simp only [List.length_append, List.length_cons, List.length_nil,
            if_pos rfl, Bool.false_eq_true, if_neg, ite_false, ite_true] <;>
          · have h1 := ih true (lvl + 1)
            have h2 := ih true (lvl - 1)
            have h3 := ih true lvl
            have h4 := ih false lvl
            omega

theorem flatten_length_ge {α : Type} : ∀ (ls : List (List α)),
    (∀ l ∈ ls, 1 ≤ l.length) → ls.length ≤ ls.flatten.length := by
  intro ls
  induction ls with
  | nil => intro _; simp
  | cons l ls ih =>
      intro h
      rw [List.flatten_cons, List.length_append, List.length_cons]
      have h1 := h l (List.mem_cons_self _ _)
      have h2 := ih (fun x hx => h x (List.mem_cons_of_mem _ hx))
      omega

theorem entityEvents_length_pos (e : SerializableEntity) :
    1 ≤ (entityEvents e).length := by
  rw [entityEvents_eq_cons]
  simp

theorem edgeEvents_length_pos (e : SerializableEdge) :
    1 ≤ (edgeEvents e).length := by
  rw [edgeEvents_eq_cons]
  simp

theorem encF_length (sb : Bool) (lvl : Nat) (evs : List XEvent) :
    evs.length ≤ (encF sb lvl evs).length := by
  rw [encF, List.length_map]
  exact indentedEvents_length evs sb lvl

theorem entitiesWrapper_length (es : List SerializableEntity) :
    es.length + 1 ≤
      (wrapperEvents "entities" (es.map entityEvents)).length := by
  cases es with
  | nil => simp [wrapperEvents]
  | cons e es =>
      rw [wrapperEvents, if_neg (by simp)]
      simp only [List.length_append, List.length_cons, List.length_nil]
      have h := flatten_length_ge ((e :: es).map entityEvents) (by
        intro l hl
        obtain ⟨x, hx, rfl⟩ := List.mem_map.1 hl
        exact entityEvents_length_pos x)
      simp only [List.length_map] at h
      simp only [List.length_cons] at h ⊢
      omega

theorem edgesWrapper_length (es : List SerializableEdge) :
    es.length + 1 ≤
      (wrapperEvents "relations" (es.map edgeEvents)).length := by
  cases es with
  | nil => simp [wrapperEvents]
  | cons e es =>
      rw [wrapperEvents, if_neg (by simp)]
      simp only [List.length_append, List.length_cons, List.length_nil]
      have h := flatten_length_ge ((e :: es).map edgeEvents) (by
        intro l hl
        obtain ⟨x, hx, rfl⟩ := List.mem_map.1 hl
        exact edgeEvents_length_pos x)
      simp only [List.length_map] at h
      simp only [List.length_cons] at h ⊢
      omega

theorem parseEntitiesBlock_encode (es : List SerializableEntity)
    (sb : Bool) (lvl : Nat) (fuel : Nat) (rest : List XEvent)
    (hfuel : es.length < fuel) :
    parseEntitiesBlock fuel
      (encF sb lvl (wrapperEvents "entities" (es.map entityEvents)) ++
        rest) = Except.ok (es, rest) := by
  cases es with
  | nil =>
      rw [show wrapperEvents "entities" (List.map entityEvents []) =
        [XEvent.emptyTag "entities"] from rfl]
      rw [encF_emptyTag]
      cases sb with
      | false =>
          rw [parseEntitiesBlock]
          rw [show ((if false = true then [XEvent.textEv (wsIndent lvl)]
            else []) ++ [XEvent.emptyTag "entities"]) ++ rest =
            XEvent.emptyTag "entities" :: rest from by simp]
          rw [skipWs_cons_not _ (isWsText_empty _)]
          simp
      | true =>
          rw [parseEntitiesBlock]
          rw [show ((if true = true then [XEvent.textEv (wsIndent lvl)]
            else []) ++ [XEvent.emptyTag "entities"]) ++ rest =
            XEvent.textEv (wsIndent lvl) ::
              (XEvent.emptyTag "entities" :: rest) from by simp]
          rw [skipWs_cons_ws _ (isWsText_wsIndent _),
              skipWs_cons_not _ (isWsText_empty _)]
          simp
  | cons e es2 =>
      have hbal := encF_flatten_balanced (lvl + 1)
        ((e :: es2).map entityEvents) (by
          intro seg hseg
          obtain ⟨x, hx, rfl⟩ := List.mem_map.1 hseg
          exact ⟨sbOut_entityEvents true x, lvlOut_entityEvents (lvl + 1) x⟩)
      have hw : wrapperEvents "entities"
          ((e :: es2).map entityEvents) =
          [XEvent.startTag "entities"] ++
            (((e :: es2).map entityEvents).flatten ++
              [XEvent.endTag "entities"]) := by
        rw [wrapperEvents, if_neg (by simp)]
        simp [List.append_assoc]
      rw [hw]
      rw [encF_append, sbOut_start, lvlOut_start]
      rw [encF_append, hbal.2.1, hbal.2.2, hbal.1]
      have hmm : (((e :: es2).map entityEvents).map
          (fun seg => encF true (lvl + 1) seg)).flatten =
          ((e :: es2).map
            (fun x => encF true (lvl + 1) (entityEvents x))).flatten := by
        rw [List.map_map]
        rfl
      rw [hmm]
      rw [encF_startTag]
      cases sb with
      | false =>
          rw [parseEntitiesBlock]
          rw [show (((if false = true then [XEvent.textEv (wsIndent lvl)]
            else []) ++ [XEvent.startTag "entities"]) ++
            (((e :: es2).map
              (fun x => encF true (lvl + 1) (entityEvents x))).flatten ++
              encF true (lvl + 1) [XEvent.endTag "entities"])) ++ rest =
            XEvent.startTag "entities" ::
              (((e :: es2).map
                (fun x => encF true (lvl + 1) (entityEvents x))).flatten ++
                (encF true (lvl + 1) [XEvent.endTag "entities"] ++ rest))
            from by simp [List.append_assoc]]
          rw [skipWs_cons_not _ (isWsText_start _)]
          simp only [reduceIte]
          exact parseEntitiesItems_encode (lvl + 1) (e :: es2) fuel rest hfuel
      | true =>
          rw [parseEntitiesBlock]
          rw [show (((if true = true then [XEvent.textEv (wsIndent lvl)]
            else []) ++ [XEvent.startTag "entities"]) ++
            (((e :: es2).map
              (fun x => encF true (lvl + 1) (entityEvents x))).flatten ++
              encF true (lvl + 1) [XEvent.endTag "entities"])) ++ rest =
            XEvent.textEv (wsIndent lvl) :: (XEvent.startTag "entities" ::
              (((e :: es2).map
                (fun x => encF true (lvl + 1) (entityEvents x))).flatten ++
                (encF true (lvl + 1) [XEvent.endTag "entities"] ++ rest)))
            from by simp [List.append_assoc]]
          rw [skipWs_cons_ws _ (isWsText_wsIndent _),
              skipWs_cons_not _ (isWsText_start _)]
          simp only [reduceIte]
          exact parseEntitiesItems_encode (lvl + 1) (e :: es2) fuel rest hfuel

theorem parseEdgesBlock_encode (es : List SerializableEdge)
    (sb : Bool) (lvl : Nat) (fuel : Nat) (rest : List XEvent)
    (hfuel : es.length < fuel) :
    parseEdgesBlock fuel
      (encF sb lvl (wrapperEvents "relations" (es.map edgeEvents)) ++
        rest) = Except.ok (es, rest) := by
  cases es with
  | nil =>
      rw [show wrapperEvents "relations" (List.map edgeEvents []) =
        [XEvent.emptyTag "relations"] from rfl]
      rw [encF_emptyTag]
      cases sb with
      | false =>
          rw [parseEdgesBlock]
          rw [show ((if false = true then [XEvent.textEv (wsIndent lvl)]
            else []) ++ [XEvent.emptyTag "relations"]) ++ rest =
            XEvent.emptyTag "relations" :: rest from by simp]
          rw [skipWs_cons_not _ (isWsText_empty _)]
          simp
      | true =>
          rw [parseEdgesBlock]
          rw [show ((if true = true then [XEvent.textEv (wsIndent lvl)]
            else []) ++ [XEvent.emptyTag "relations"]) ++ rest =
            XEvent.textEv (wsIndent lvl) ::
              (XEvent.emptyTag "relations" :: rest) from by simp]
          rw [skipWs_cons_ws _ (isWsText_wsIndent _),
              skipWs_cons_not _ (isWsText_empty _)]
          simp
  | cons e es2 =>
      have hbal := encF_flatten_balanced (lvl + 1)
        ((e :: es2).map edgeEvents) (by
          intro seg hseg
          obtain ⟨x, hx, rfl⟩ := List.mem_map.1 hseg
          exact ⟨sbOut_edgeEvents true x, lvlOut_edgeEvents (lvl + 1) x⟩)
      have hw : wrapperEvents "relations"
          ((e :: es2).map edgeEvents) =
          [XEvent.startTag "relations"] ++
            (((e :: es2).map edgeEvents).flatten ++
              [XEvent.endTag "relations"]) := by
        rw [wrapperEvents, if_neg (by simp)]
        simp [List.append_assoc]
      rw [hw]
      rw [encF_append, sbOut_start, lvlOut_start]
      rw [encF_append, hbal.2.1, hbal.2.2, hbal.1]
      have hmm : (((e :: es2).map edgeEvents).map
          (fun seg => encF true (lvl + 1) seg)).flatten =
          ((e :: es2).map
            (fun x => encF true (lvl + 1) (edgeEvents x))).flatten := by
        rw [List.map_map]
        rfl
      rw [hmm]
      rw [encF_startTag]
      cases sb with
      | false =>
          rw [parseEdgesBlock]
          rw [show (((if false = true then [XEvent.textEv (wsIndent lvl)]
            else []) ++ [XEvent.startTag "relations"]) ++
            (((e :: es2).map
              (fun x => encF true (lvl + 1) (edgeEvents x))).flatten ++
              encF true (lvl + 1) [XEvent.endTag "relations"])) ++ rest =
            XEvent.startTag "relations" ::
              (((e :: es2).map
                (fun x => encF true (lvl + 1) (edgeEvents x))).flatten ++
                (encF true (lvl + 1) [XEvent.endTag "relations"] ++ rest))
            from by simp [List.append_assoc]]
          rw [skipWs_cons_not _ (isWsText_start _)]
          simp only [reduceIte]
          exact parseEdgesItems_encode (lvl + 1) (e :: es2) fuel rest hfuel
      | true =>
          rw [parseEdgesBlock]
          rw [show (((if true = true then [XEvent.textEv (wsIndent lvl)]
            else []) ++ [XEvent.startTag "relations"]) ++
            (((e :: es2).map
              (fun x => encF true (lvl + 1) (edgeEvents x))).flatten ++
              encF true (lvl + 1) [XEvent.endTag "relations"])) ++ rest =
            XEvent.textEv (wsIndent lvl) :: (XEvent.startTag "relations" ::
              (((e :: es2).map
                (fun x => encF true (lvl + 1) (edgeEvents x))).flatten ++
                (encF true (lvl + 1) [XEvent.endTag "relations"] ++ rest)))
            from by simp [List.append_assoc]]
          rw [skipWs_cons_ws _ (isWsText_wsIndent _),
              skipWs_cons_not _ (isWsText_start _)]
          simp only [reduceIte]
          exact parseEdgesItems_encode (lvl + 1) (e :: es2) fuel rest hfuel


@[simp] theorem sbOut_text (sb : Bool) (t : List Char) :
    sbOut sb [XEvent.textEv t] = false := rfl

@[simp] theorem lvlOut_text (lvl : Nat) (t : List Char) :
    lvlOut lvl [XEvent.textEv t] = lvl := rfl

theorem sbOut_entitiesWrapper (sb : Bool) (es : List SerializableEntity) :
    sbOut sb (wrapperEvents "entities" (es.map entityEvents)) = true := by
  cases es with
  | nil => rfl
  | cons e es2 =>
      rw [wrapperEvents, if_neg (by simp)]
      rw [sbOut_append]
      rfl

theorem lvlOut_entitiesWrapper (lvl : Nat) (es : List SerializableEntity) :
    lvlOut lvl (wrapperEvents "entities" (es.map entityEvents)) = lvl := by
  cases es with
  | nil => rfl
  | cons e es2 =>
      rw [wrapperEvents, if_neg (by simp)]
      have hbal := (encF_flatten_balanced (lvl + 1)
        ((e :: es2).map entityEvents) (by
          intro seg hseg
          obtain ⟨x, hx, rfl⟩ := List.mem_map.1 hseg
          exact ⟨sbOut_entityEvents true x,
            lvlOut_entityEvents (lvl + 1) x⟩)).2.2
      rw [lvlOut_append, lvlOut_append, lvlOut_start, hbal, lvlOut_end]
      omega

theorem sbOut_edgesWrapper (sb : Bool) (es : List SerializableEdge) :
    sbOut sb (wrapperEvents "relations" (es.map edgeEvents)) = true := by
  cases es with
  | nil => rfl
  | cons e es2 =>
      rw [wrapperEvents, if_neg (by simp)]
      rw [sbOut_append]
      rfl

theorem lvlOut_edgesWrapper (lvl : Nat) (es : List SerializableEdge) :
    lvlOut lvl (wrapperEvents "relations" (es.map edgeEvents)) = lvl := by
  cases es with
  | nil => rfl
  | cons e es2 =>
      rw [wrapperEvents, if_neg (by simp)]
      have hbal := (encF_flatten_balanced (lvl + 1)
        ((e :: es2).map edgeEvents) (by
          intro seg hseg
          obtain ⟨x, hx, rfl⟩ := List.mem_map.1 hseg
          exact ⟨sbOut_edgeEvents true x,
            lvlOut_edgeEvents (lvl + 1) x⟩)).2.2
      rw [lvlOut_append, lvlOut_append, lvlOut_start, hbal, lvlOut_end]
      omega

theorem escapeXml_flatMap_escNAC (v : List Char) :
    (escapeXml v).flatMap escNAC = v.flatMap pipeChar := by
  rw [escapeXml, List.flatMap_assoc]
  rfl

theorem parseKG_encode (ss : SerializableSnapshot)
    (ht : ss.title.data ≠ []) :
    parseKG (encF false 0 (snapshotEvents ss)) = Except.ok ss := by
  have htE : ss.title.data.isEmpty = false := by
    cases h : ss.title.data with
    | nil => exact absurd h ht
    | cons a l => rfl
  have hsnap : snapshotEvents ss =
      [XEvent.startTag "KG"] ++
      ([XEvent.textEv (escapeXml ss.title.data)] ++
      (wrapperEvents "entities" (ss.entities.map entityEvents) ++
      (wrapperEvents "relations" (ss.relations.map edgeEvents) ++
      [XEvent.endTag "KG"]))) := by
    rw [snapshotEvents, htE]
    simp [List.append_assoc]
  have hsplit : encF false 0 (snapshotEvents ss) =
      XEvent.startTag "KG" ::
      (XEvent.textEv ((escapeXml ss.title.data).flatMap escNAC) ::
      (encF false 1
        (wrapperEvents "entities" (ss.entities.map entityEvents)) ++
      (encF true 1
        (wrapperEvents "relations" (ss.relations.map edgeEvents)) ++
      encF true 1 [XEvent.endTag "KG"]))) := by
    rw [hsnap]
    simp only [encF_append, sbOut_append, lvlOut_append, sbOut_start,
      lvlOut_start, sbOut_text, lvlOut_text, sbOut_entitiesWrapper,
      lvlOut_entitiesWrapper, sbOut_edgesWrapper, lvlOut_edgesWrapper,
      Nat.zero_add]
    rw [show encF false 0 [XEvent.startTag "KG"] =
      [XEvent.startTag "KG"] from rfl]
    rw [show encF true 1 [XEvent.textEv (escapeXml ss.title.data)] =
      [XEvent.textEv ((escapeXml ss.title.data).flatMap escNAC)] from rfl]
    simp [List.append_assoc]
  rw [hsplit]
  simp only [parseKG]
  have h1 : ∀ (r : List XEvent),
      expectStart "KG" (XEvent.startTag "KG" :: r) = Except.ok r := by
    intro r
    rw [expectStart, skipWs_cons_not _ (isWsText_start _)]
    simp
  rw [h1]
  simp only [ok_bind]
  have h2 : parseTitle
      (XEvent.textEv ((escapeXml ss.title.data).flatMap escNAC) ::
        (encF false 1
          (wrapperEvents "entities" (ss.entities.map entityEvents)) ++
        (encF true 1
          (wrapperEvents "relations" (ss.relations.map edgeEvents)) ++
        encF true 1 [XEvent.endTag "KG"]))) =
      Except.ok (ss.title,
        encF false 1
          (wrapperEvents "entities" (ss.entities.map entityEvents)) ++
        (encF true 1
          (wrapperEvents "relations" (ss.relations.map edgeEvents)) ++
        encF true 1 [XEvent.endTag "KG"])) := by
    rw [parseTitle]
    rw [escapeXml_flatMap_escNAC, unescapeChars_pipeline]
  rw [h2]
  simp only [ok_bind]
  have hfE : ss.entities.length <
      (encF false 1
        (wrapperEvents "entities" (ss.entities.map entityEvents)) ++
      (encF true 1
        (wrapperEvents "relations" (ss.relations.map edgeEvents)) ++
      encF true 1 [XEvent.endTag "KG"])).length := by
    have ha := entitiesWrapper_length ss.entities
    have hb := encF_length false 1
      (wrapperEvents "entities" (ss.entities.map entityEvents))
    rw [List.length_append]
    omega
  rw [parseEntitiesBlock_encode ss.entities false 1 _ _ hfE]
  simp only [ok_bind]
  have hfR : ss.relations.length <
      (encF true 1
        (wrapperEvents "relations" (ss.relations.map edgeEvents)) ++
      encF true 1 [XEvent.endTag "KG"]).length := by
    have ha := edgesWrapper_length ss.relations
    have hb := encF_length true 1
      (wrapperEvents "relations" (ss.relations.map edgeEvents))
    rw [List.length_append]
    omega
  rw [parseEdgesBlock_encode ss.relations true 1 _ _ hfR]
  simp only [ok_bind]
  have h5 : expectEnd "KG" (encF true 1 [XEvent.endTag "KG"]) =
      Except.ok [] := by
    have := expectEnd_encode "KG" true 1 []
    rwa [List.append_nil] at this
  rw [h5]
  simp only [ok_bind]
  rfl


/-! ## Well-formedness of the codec streams -/

theorem goodName_of_check (n : String)
    (h : n.data ≠ [] ∧
      ∀ c ∈ n.data, c ≠ '<' ∧ c ≠ '>' ∧ c ≠ '/' ∧ charIsAscii c = true) :
    GoodName n := h

theorem escapeXmlChar_no_lt (c : Char) :
    ∀ d ∈ escapeXmlChar c, d ≠ '<' := by
  intro d hd
  rw [escapeXmlChar] at hd
  by_cases h1 : c = '&'
  · rw [if_pos h1] at hd
    simp at hd
    rcases hd with rfl | rfl | rfl | rfl | rfl <;> decide
  rw [if_neg h1] at hd
  by_cases h2 : c = '<'
  · rw [if_pos h2] at hd
    simp at hd
    rcases hd with rfl | rfl | rfl | rfl <;> decide
  rw [if_neg h2] at hd
  by_cases h3 : c = '>'
  · rw [if_pos h3] at hd
    simp at hd
    rcases hd with rfl | rfl | rfl | rfl <;> decide
  rw [if_neg h3] at hd
  by_cases h4 : c = Char.ofNat 39
  · rw [if_pos h4] at hd
    simp at hd
    rcases hd with rfl | rfl | rfl | rfl | rfl | rfl <;> decide
  rw [if_neg h4] at hd
  by_cases h5 : c = '"'
  · rw [if_pos h5] at hd
    simp at hd
    rcases hd with rfl | rfl | rfl | rfl | rfl | rfl <;> decide
  rw [if_neg h5] at hd
  simp at hd
  subst hd
  exact h2

theorem escNAC_ne_nil (c : Char) : escNAC c ≠ [] := by
  rw [escNAC]
  by_cases h : charIsAscii c = true <;> simp [h]

theorem escNAC_no_lt (c : Char) (hc : c ≠ '<') :
    ∀ d ∈ escNAC c, d ≠ '<' := by
  intro d hd
  rw [escNAC] at hd
  by_cases h : charIsAscii c = true
  · rw [if_pos h] at hd
    simp at hd
    subst hd
    exact hc
  · rw [if_neg h] at hd
    rcases List.mem_cons.1 hd with rfl | hd
    · decide
    rcases List.mem_cons.1 hd with rfl | hd
    · decide
    rcases List.mem_append.1 hd with h1 | h1
    · obtain ⟨k, hk, rfl⟩ := natReprAux_all_digits _ _ d h1
      exact digitChar_ne_lt k hk
    · simp at h1
      subst h1
      decide

theorem good_fieldEvents (n : String) (hn : GoodName n) (v : List Char) :
    ∀ e ∈ fieldEvents n (escapeXml v), GoodEvent e := by
  intro e he
  rw [fieldEvents] at he
  by_cases hv : (escapeXml v).isEmpty = true
  · rw [if_pos hv] at he
    rw [List.mem_singleton] at he
    subst he
    exact hn
  · rw [if_neg hv] at he
    simp at he
    rcases he with rfl | rfl | rfl
    · exact hn
    · refine ⟨?_, ?_⟩
      · intro hnil
        rw [hnil] at hv
        exact hv rfl
      · intro c hc
        rw [escapeXml] at hc
        obtain ⟨a, ha, hc2⟩ := List.mem_flatMap.1 hc
        exact escapeXmlChar_no_lt a c hc2
    · exact hn

theorem good_escapeXml_text (v : List Char) (hv : v ≠ []) :
    GoodEvent (XEvent.textEv (escapeXml v)) := by
  refine ⟨?_, ?_⟩
  · cases v with
    | nil => exact absurd rfl hv
    | cons c cs => exact escapeXml_ne_nil c cs
  · intro c hc
    rw [escapeXml] at hc
    obtain ⟨a, ha, hc2⟩ := List.mem_flatMap.1 hc
    exact escapeXmlChar_no_lt a c hc2

theorem good_entityEvents (e : SerializableEntity) :
    ∀ x ∈ entityEvents e, GoodEvent x := by
  rw [entityEvents]
  simp only [List.forall_mem_append]
  refine ⟨⟨⟨⟨⟨⟨⟨⟨⟨⟨⟨?_, ?_⟩, ?_⟩, ?_⟩, ?_⟩, ?_⟩, ?_⟩, ?_⟩, ?_⟩, ?_⟩,
    ?_⟩, ?_⟩
  · intro x hx
    rw [List.mem_singleton] at hx
    subst hx
    exact goodName_of_check _ (by decide)
  · exact good_fieldEvents _ (goodName_of_check _ (by decide)) _
  · exact good_fieldEvents _ (goodName_of_check _ (by decide)) _
  · exact good_fieldEvents _ (goodName_of_check _ (by decide)) _
  · exact good_fieldEvents _ (goodName_of_check _ (by decide)) _
  · exact good_fieldEvents _ (goodName_of_check _ (by decide)) _
  · exact good_fieldEvents _ (goodName_of_check _ (by decide)) _
  · exact good_fieldEvents _ (goodName_of_check _ (by decide)) _
  · exact good_fieldEvents _ (goodName_of_check _ (by decide)) _
  · exact good_fieldEvents _ (goodName_of_check _ (by decide)) _
  · exact good_fieldEvents _ (goodName_of_check _ (by decide)) _
  · intro x hx
    rw [List.mem_singleton] at hx
    subst hx
    exact goodName_of_check _ (by decide)

theorem good_edgeEvents (e : SerializableEdge) :
    ∀ x ∈ edgeEvents e, GoodEvent x := by
  rw [edgeEvents]
  simp only [List.forall_mem_append]
  refine ⟨⟨⟨⟨⟨⟨⟨⟨⟨?_, ?_⟩, ?_⟩, ?_⟩, ?_⟩, ?_⟩, ?_⟩, ?_⟩, ?_⟩, ?_⟩
  · intro x hx
    rw [List.mem_singleton] at hx
    subst hx
    exact goodName_of_check _ (by decide)
  · exact good_fieldEvents _ (goodName_of_check _ (by decide)) _
  · exact good_fieldEvents _ (goodName_of_check _ (by decide)) _
  · exact good_fieldEvents _ (goodName_of_check _ (by decide)) _
  · exact good_fieldEvents _ (goodName_of_check _ (by decide)) _
  · exact good_fieldEvents _ (goodName_of_check _ (by decide)) _
  · exact good_fieldEvents _ (goodName_of_check _ (by decide)) _
  · exact good_fieldEvents _ (goodName_of_check _ (by decide)) _
  · exact good_fieldEvents _ (goodName_of_check _ (by decide)) _
  · intro x hx
    rw [List.mem_singleton] at hx
    subst hx
    exact goodName_of_check _ (by decide)

theorem good_entitiesWrapper (es : List SerializableEntity) :
    ∀ x ∈ wrapperEvents "entities" (es.map entityEvents), GoodEvent x := by
  intro x hx
  rw [wrapperEvents] at hx
  by_cases h : (es.map entityEvents).isEmpty = true
  · rw [if_pos h] at hx
    rw [List.mem_singleton] at hx
    subst hx
    exact goodName_of_check _ (by decide)
  · rw [if_neg h] at hx
    rcases List.mem_append.1 hx with hx | hx
    · rcases List.mem_append.1 hx with hx | hx
      · rw [List.mem_singleton] at hx
        subst hx
        exact goodName_of_check _ (by decide)
      · obtain ⟨l, hl, hxl⟩ := List.mem_flatten.1 hx
        obtain ⟨e2, he2, rfl⟩ := List.mem_map.1 hl
        exact good_entityEvents e2 x hxl
    · rw [List.mem_singleton] at hx
      subst hx
      exact goodName_of_check _ (by decide)

theorem good_edgesWrapper (es : List SerializableEdge) :
    ∀ x ∈ wrapperEvents "relations" (es.map edgeEvents), GoodEvent x := by
  intro x hx
  rw [wrapperEvents] at hx
  by_cases h : (es.map edgeEvents).isEmpty = true
  · rw [if_pos h] at hx
    rw [List.mem_singleton] at hx
    subst hx
    exact goodName_of_check _ (by decide)
  · rw [if_neg h] at hx
    rcases List.mem_append.1 hx with hx | hx
    · rcases List.mem_append.1 hx with hx | hx
      · rw [List.mem_singleton] at hx
        subst hx
        exact goodName_of_check _ (by decide)
      · obtain ⟨l, hl, hxl⟩ := List.mem_flatten.1 hx
        obtain ⟨e2, he2, rfl⟩ := List.mem_map.1 hl
        exact good_edgeEvents e2 x hxl
    · rw [List.mem_singleton] at hx
      subst hx
      exact goodName_of_check _ (by decide)

theorem good_snapshotEvents (ss : SerializableSnapshot)
    (ht : ss.title.data ≠ []) :
    ∀ x ∈ snapshotEvents ss, GoodEvent x := by
  rw [snapshotEvents]
  simp only [List.forall_mem_append]
  refine ⟨⟨⟨⟨?_, ?_⟩, ?_⟩, ?_⟩, ?_⟩
  · intro x hx
    rw [List.mem_singleton] at hx
    subst hx
    exact goodName_of_check _ (by decide)
  · intro x hx
    have htE : ss.title.data.isEmpty = false := by
      cases h : ss.title.data with
      | nil => exact absurd h ht
      | cons a l => rfl
    rw [htE] at hx
    simp at hx
    subst hx
    exact good_escapeXml_text _ ht
  · exact good_entitiesWrapper ss.entities
  · exact good_edgesWrapper ss.relations
  · intro x hx
    rw [List.mem_singleton] at hx
    subst hx
    exact goodName_of_check _ (by decide)


theorem notTT_of_right_not_text (e x : XEvent)
    (hx : ∀ t, x ≠ XEvent.textEv t) : notTT e x := by
  rcases x with n | n | n | t
  · cases e <;> trivial
  · cases e <;> trivial
  · cases e <;> trivial
  · exact absurd rfl (hx t)

theorem headNotText_append (a b : List XEvent)
    (ha : headNotText a) (hne : a ≠ []) : headNotText (a ++ b) := by
  cases a with
  | nil => exact absurd rfl hne
  | cons e l =>
      rcases e with n | n | n | t
      · trivial
      · trivial
      · trivial
      · exact ha.elim

theorem chain_append_headNotText (a b : List XEvent)
    (ha : List.Chain' notTT a) (hb : List.Chain' notTT b)
    (hh : headNotText b) : List.Chain' notTT (a ++ b) := by
  apply List.Chain'.append ha hb
  intro x hx y hy
  apply notTT_of_right_not_text
  intro t hty
  cases b with
  | nil => simp at hy
  | cons e l =>
      simp at hy
      subst hy
      subst hty
      exact hh

theorem notTT_head_of_headNotText (e : XEvent) (l : List XEvent)
    (h : headNotText l) : ∀ y ∈ l.head?, notTT e y := by
  cases l with
  | nil => intro y hy; simp at hy
  | cons x xs =>
      intro y hy
      simp at hy
      subst hy
      apply notTT_of_right_not_text
      intro t hxt
      subst hxt
      exact h

theorem chain_fieldEvents (n : String) (v : List Char) :
    List.Chain' notTT (fieldEvents n v) := by
  rw [fieldEvents]
  by_cases h : v.isEmpty = true
  · rw [if_pos h]
    exact List.chain'_singleton _
  · rw [if_neg h]
    exact List.chain'_cons.2 ⟨trivial,
      List.chain'_cons.2 ⟨trivial, List.chain'_singleton _⟩⟩

theorem headNotText_fieldEvents (n : String) (v : List Char) :
    headNotText (fieldEvents n v) := by
  rw [fieldEvents]
  by_cases h : v.isEmpty = true
  · rw [if_pos h]; trivial
  · rw [if_neg h]; trivial

theorem fieldEvents_ne_nil (n : String) (v : List Char) :
    fieldEvents n v ≠ [] := by
  rw [fieldEvents]
  by_cases h : v.isEmpty = true
  · rw [if_pos h]; simp
  · rw [if_neg h]; simp

/-- Bundled chunk well-behavedness: no internal adjacent texts, a
non-text head, and non-emptiness. -/
def ChunkOk (l : List XEvent) : Prop :=
  List.Chain' notTT l ∧ headNotText l ∧ l ≠ []

theorem chunkOk_flatten : ∀ (chunks : List (List XEvent)),
    (∀ l ∈ chunks, ChunkOk l) →
    List.Chain' notTT chunks.flatten ∧ headNotText chunks.flatten := by
  intro chunks
  induction chunks with
  | nil => intro _; exact ⟨List.chain'_nil, trivial⟩
  | cons l ls ih =>
      intro h
      obtain ⟨hc, hh, hn⟩ := h l (List.mem_cons_self _ _)
      have ihh := ih (fun x hx => h x (List.mem_cons_of_mem _ hx))
      rw [List.flatten_cons]
      exact ⟨chain_append_headNotText _ _ hc ihh.1 ihh.2,
        headNotText_append _ _ hh hn⟩

theorem chunkOk_singleton_start (n : String) :
    ChunkOk [XEvent.startTag n] :=
  ⟨List.chain'_singleton _, trivial, by simp⟩

theorem chunkOk_singleton_end (n : String) :
    ChunkOk [XEvent.endTag n] :=
  ⟨List.chain'_singleton _, trivial, by simp⟩

theorem chunkOk_fieldEvents (n : String) (v : List Char) :
    ChunkOk (fieldEvents n v) :=
  ⟨chain_fieldEvents n v, headNotText_fieldEvents n v, fieldEvents_ne_nil n v⟩

theorem chunkOk_entityEvents (e : SerializableEntity) :
    ChunkOk (entityEvents e) := by
  have h := chunkOk_flatten
    [[XEvent.startTag "entity"],
     fieldEvents "id" (escapeXml (natRepr e.id).data),
     fieldEvents "class_name" (escapeXml e.class_name.data),
     fieldEvents "classification" (escapeXml e.classification.data),
     fieldEvents "identity" (escapeXml e.identity.data),
     fieldEvents "level" (escapeXml e.level.data),
     fieldEvents "attach" (escapeXml (serialize_addon_types e.attach).data),
     fieldEvents "opentool" (escapeXml e.opentool.data),
     fieldEvents "content" (escapeXml e.content.data),
     fieldEvents "x" (escapeXml (f64Repr e.x).data),
     fieldEvents "y" (escapeXml (f64Repr e.y).data),
     [XEvent.endTag "entity"]] (by
      intro l hl
      simp at hl
      rcases hl with rfl | rfl | rfl | rfl | rfl | rfl | rfl | rfl | rfl |
        rfl | rfl | rfl
      · exact chunkOk_singleton_start _
      · exact chunkOk_fieldEvents _ _
      · exact chunkOk_fieldEvents _ _
      · exact chunkOk_fieldEvents _ _
      · exact chunkOk_fieldEvents _ _
      · exact chunkOk_fieldEvents _ _
      · exact chunkOk_fieldEvents _ _
      · exact chunkOk_fieldEvents _ _
      · exact chunkOk_fieldEvents _ _
      · exact chunkOk_fieldEvents _ _
      · exact chunkOk_fieldEvents _ _
      · exact chunkOk_singleton_end _)
  have heq : [[XEvent.startTag "entity"],
     fieldEvents "id" (escapeXml (natRepr e.id).data),
     fieldEvents "class_name" (escapeXml e.class_name.data),
     fieldEvents "classification" (escapeXml e.classification.data),
     fieldEvents "identity" (escapeXml e.identity.data),
     fieldEvents "level" (escapeXml e.level.data),
     fieldEvents "attach" (escapeXml (serialize_addon_types e.attach).data),
     fieldEvents "opentool" (escapeXml e.opentool.data),
     fieldEvents "content" (escapeXml e.content.data),
     fieldEvents "x" (escapeXml (f64Repr e.x).data),
     fieldEvents "y" (escapeXml (f64Repr e.y).data),
     [XEvent.endTag "entity"]].flatten = entityEvents e := by
    rw [entityEvents]
    simp [List.append_assoc]
  rw [heq] at h
  refine ⟨h.1, h.2, ?_⟩
  rw [entityEvents_eq_cons]
  simp

theorem chunkOk_edgeEvents (e : SerializableEdge) :
    ChunkOk (edgeEvents e) := by
  have h := chunkOk_flatten
    [[XEvent.startTag "relation"],
     fieldEvents "name" (escapeXml e.name.data),
     fieldEvents "headnodeid" (escapeXml (natRepr e.headnodeid).data),
     fieldEvents "tailnodeid" (escapeXml (natRepr e.tailnodeid).data),
     fieldEvents "class_name" (escapeXml e.class_name.data),
     fieldEvents "mask" (escapeXml e.mask.data),
     fieldEvents "classification" (escapeXml e.classification.data),
     fieldEvents "head_need" (escapeXml e.head_need.data),
     fieldEvents "tail_need" (escapeXml e.tail_need.data),
     [XEvent.endTag "relation"]] (by
      intro l hl
      simp at hl
      rcases hl with rfl | rfl | rfl | rfl | rfl | rfl | rfl | rfl | rfl | rfl
      · exact chunkOk_singleton_start _
      · exact chunkOk_fieldEvents _ _
      · exact chunkOk_fieldEvents _ _
      · exact chunkOk_fieldEvents _ _
      · exact chunkOk_fieldEvents _ _
      · exact chunkOk_fieldEvents _ _
      · exact chunkOk_fieldEvents _ _
      · exact chunkOk_fieldEvents _ _
      · exact chunkOk_fieldEvents _ _
      · exact chunkOk_singleton_end _)
  have heq : [[XEvent.startTag "relation"],
     fieldEvents "name" (escapeXml e.name.data),
     fieldEvents "headnodeid" (escapeXml (natRepr e.headnodeid).data),
     fieldEvents "tailnodeid" (escapeXml (natRepr e.tailnodeid).data),
     fieldEvents "class_name" (escapeXml e.class_name.data),
     fieldEvents "mask" (escapeXml e.mask.data),
     fieldEvents "classification" (escapeXml e.classification.data),
     fieldEvents "head_need" (escapeXml e.head_need.data),
     fieldEvents "tail_need" (escapeXml e.tail_need.data),
     [XEvent.endTag "relation"]].flatten = edgeEvents e := by
    rw [edgeEvents]
    simp [List.append_assoc]
  rw [heq] at h
  refine ⟨h.1, h.2, ?_⟩
  rw [edgeEvents_eq_cons]
  simp

theorem chunkOk_entitiesWrapper (es : List SerializableEntity) :
    ChunkOk (wrapperEvents "entities" (es.map entityEvents)) := by
  rw [wrapperEvents]
  by_cases h : (es.map entityEvents).isEmpty = true
  · rw [if_pos h]
    exact ⟨List.chain'_singleton _, trivial, by simp⟩
  · rw [if_neg h]
    have hfl := chunkOk_flatten (es.map entityEvents) (by
      intro l hl
      obtain ⟨e2, he2, rfl⟩ := List.mem_map.1 hl
      exact chunkOk_entityEvents e2)
    refine ⟨?_, ?_, ?_⟩
    · rw [List.append_assoc]
      apply chain_append_headNotText _ _ (List.chain'_singleton _)
      · exact chain_append_headNotText _ _ hfl.1
          (List.chain'_singleton _) trivial
      · apply headNotText_append _ _ hfl.2
        intro hnil
        cases es with
        | nil => exact h rfl
        | cons e2 es2 =>
            rw [List.map_cons, List.flatten_cons] at hnil
            exact (chunkOk_entityEvents e2).2.2
              (List.append_eq_nil.1 hnil).1
    · rw [List.append_assoc]
      exact headNotText_append _ _ trivial (by simp)
    · simp

theorem chunkOk_edgesWrapper (es : List SerializableEdge) :
    ChunkOk (wrapperEvents "relations" (es.map edgeEvents)) := by
  rw [wrapperEvents]
  by_cases h : (es.map edgeEvents).isEmpty = true
  · rw [if_pos h]
    exact ⟨List.chain'_singleton _, trivial, by simp⟩
  · rw [if_neg h]
    have hfl := chunkOk_flatten (es.map edgeEvents) (by
      intro l hl
      obtain ⟨e2, he2, rfl⟩ := List.mem_map.1 hl
      exact chunkOk_edgeEvents e2)
    refine ⟨?_, ?_, ?_⟩
    · rw [List.append_assoc]
      apply chain_append_headNotText _ _ (List.chain'_singleton _)
      · exact chain_append_headNotText _ _ hfl.1
          (List.chain'_singleton _) trivial
      · apply headNotText_append _ _ hfl.2
        intro hnil
        cases es with
        | nil => exact h rfl
        | cons e2 es2 =>
            rw [List.map_cons, List.flatten_cons] at hnil
            exact (chunkOk_edgeEvents e2).2.2
              (List.append_eq_nil.1 hnil).1
    · rw [List.append_assoc]
      exact headNotText_append _ _ trivial (by simp)
    · simp

theorem chain_snapshotEvents (ss : SerializableSnapshot) :
    List.Chain' notTT (snapshotEvents ss) := by
  have hE := chunkOk_entitiesWrapper ss.entities
  have hR := chunkOk_edgesWrapper ss.relations
  have htail : List.Chain' notTT
      (wrapperEvents "entities" (ss.entities.map entityEvents) ++
        (wrapperEvents "relations" (ss.relations.map edgeEvents) ++
          [XEvent.endTag "KG"])) ∧
      headNotText
        (wrapperEvents "entities" (ss.entities.map entityEvents) ++
          (wrapperEvents "relations" (ss.relations.map edgeEvents) ++
            [XEvent.endTag "KG"])) := by
    constructor
    · apply chain_append_headNotText _ _ hE.1
      · exact chain_append_headNotText _ _ hR.1
          (List.chain'_singleton _) trivial
      · exact headNotText_append _ _ hR.2.1 hR.2.2
    · exact headNotText_append _ _ hE.2.1 hE.2.2
  rw [snapshotEvents]
  by_cases h : ss.title.data.isEmpty = true
  · rw [h]
    simp only [if_pos rfl, List.append_assoc, List.nil_append,
      List.cons_append, List.singleton_append]
    exact List.chain'_cons'.2
      ⟨notTT_head_of_headNotText _ _ htail.2, htail.1⟩
  · have hf : ss.title.data.isEmpty = false := by
      cases hx : ss.title.data.isEmpty with
      | false => rfl
      | true => exact absurd hx h
    rw [hf]
    simp only [Bool.false_eq_true, if_false, List.append_assoc,
      List.cons_append, List.singleton_append]
    refine List.chain'_cons.2 ⟨trivial, ?_⟩
    exact List.chain'_cons'.2
      ⟨notTT_head_of_headNotText _ _ htail.2, htail.1⟩


theorem mem_indentedEvents :
    ∀ (evs : List XEvent) (sb : Bool) (lvl : Nat) (x : XEvent),
      x ∈ indentedEvents sb lvl evs →
        x ∈ evs ∨ ∃ l2, x = XEvent.textEv (wsIndent l2) := by
  intro evs
  induction evs with
  | nil =>
      intro sb lvl x hx
      rw [indentedEvents] at hx
      simp at hx
  | cons e rest ih =>
      intro sb lvl x hx
      rcases e with n | n | n | t
      · rw [indentedEvents] at hx
        rcases List.mem_append.1 hx with hx | hx
        · cases sb with
          | true =>
              simp at hx
              exact Or.inr ⟨lvl, hx⟩
          | false => simp at hx
        · rcases List.mem_cons.1 hx with rfl | hx
          · exact Or.inl (List.mem_cons_self _ _)
          · rcases ih true (lvl + 1) x hx with h1 | h1
            · exact Or.inl (List.mem_cons_of_mem _ h1)
            · exact Or.inr h1
      · rw [indentedEvents] at hx
        rcases List.mem_append.1 hx with hx | hx
        · cases sb with
          | true =>
              simp at hx
              exact Or.inr ⟨lvl - 1, hx⟩
          | false => simp at hx
        · rcases List.mem_cons.1 hx with rfl | hx
          · exact Or.inl (List.mem_cons_self _ _)
          · rcases ih true (lvl - 1) x hx with h1 | h1
            · exact Or.inl (List.mem_cons_of_mem _ h1)
            · exact Or.inr h1
      · rw [indentedEvents] at hx
        rcases List.mem_append.1 hx with hx | hx
        · cases sb with
          | true =>
              simp at hx
              exact Or.inr ⟨lvl, hx⟩
          | false => simp at hx
        · rcases List.mem_cons.1 hx with rfl | hx
          · exact Or.inl (List.mem_cons_self _ _)
          · rcases ih true lvl x hx with h1 | h1
            · exact Or.inl (List.mem_cons_of_mem _ h1)
            · exact Or.inr h1
      · rw [indentedEvents] at hx
        rcases List.mem_cons.1 hx with rfl | hx
        · exact Or.inl (List.mem_cons_self _ _)
        · rcases ih false lvl x hx with h1 | h1
          · exact Or.inl (List.mem_cons_of_mem _ h1)
          · exact Or.inr h1

theorem asciiTags_of_goodEvent (e : XEvent) (h : GoodEvent e) :
    AsciiTags e := by
  rcases e with n | n | n | t
  · exact fun c hc => (h.2 c hc).2.2.2
  · exact fun c hc => (h.2 c hc).2.2.2
  · exact fun c hc => (h.2 c hc).2.2.2
  · trivial

theorem goodEvent_wsIndent (l2 : Nat) :
    GoodEvent (XEvent.textEv (wsIndent l2)) := by
  refine ⟨by simp [wsIndent], ?_⟩
  intro c hc
  rcases List.mem_cons.1 hc with rfl | hc
  · decide
  · have := List.eq_of_mem_replicate hc
    subst this
    decide

theorem good_indentedEvents (evs : List XEvent) (sb : Bool) (lvl : Nat)
    (h : ∀ e ∈ evs, GoodEvent e) :
    ∀ x ∈ indentedEvents sb lvl evs, GoodEvent x := by
  intro x hx
  rcases mem_indentedEvents evs sb lvl x hx with h1 | ⟨l2, rfl⟩
  · exact h x h1
  · exact goodEvent_wsIndent l2

theorem good_escEvent (e : XEvent) (h : GoodEvent e) :
    GoodEvent (escEvent e) := by
  rcases e with n | n | n | t
  · exact h
  · exact h
  · exact h
  · obtain ⟨hne, hlt⟩ := h
    refine ⟨?_, ?_⟩
    · cases t with
      | nil => exact absurd rfl hne
      | cons c cs =>
          show (c :: cs).flatMap escNAC ≠ []
          rw [List.flatMap_cons]
          intro hcontra
          exact escNAC_ne_nil c (List.append_eq_nil.1 hcontra).1
    · intro d hd
      obtain ⟨c, hc, hd2⟩ := List.mem_flatMap.1 hd
      exact escNAC_no_lt c (hlt c hc) d hd2

theorem chain_notTT_map_escEvent (l : List XEvent)
    (h : List.Chain' notTT l) :
    List.Chain' notTT (l.map escEvent) := by
  rw [List.chain'_map]
  apply List.Chain'.imp ?_ h
  intro a b hab
  rcases a with n | n | n | t <;> rcases b with m | m | m | u <;>
    first
    | trivial
    | exact hab

/-- Serialisation followed by deserialisation, at the serialisable
record level: the document produced by `to_xml` parses back to the same
record (the constant title written by the codec is non-empty). -/
theorem to_from_serializable (ss : SerializableSnapshot)
    (ht : ss.title.data ≠ []) :
    ∃ out, SerializableSnapshot.to_xml ss = Except.ok out ∧
      SerializableSnapshot.from_xml out = Except.ok ss := by
  have hgood : ∀ e ∈ snapshotEvents ss, GoodEvent e :=
    good_snapshotEvents ss ht
  have hchain : List.Chain' notTT (snapshotEvents ss) :=
    chain_snapshotEvents ss
  have hlex1 : lexChars (seString ss) = some (snapshotEvents ss) :=
    lexChars_flatRender _ hgood hchain
  have hindent : indent_xml (seString ss) =
      some (renderIndent false 0 (snapshotEvents ss)) := by
    rw [indent_xml, hlex1]
    rfl
  refine ⟨escape_non_ascii
    (String.mk (renderIndent false 0 (snapshotEvents ss))), ?_, ?_⟩
  · rw [SerializableSnapshot.to_xml, hindent]
  · have hAscii : ∀ e ∈ indentedEvents false 0 (snapshotEvents ss),
        AsciiTags e := by
      intro e he
      rcases mem_indentedEvents _ _ _ e he with h1 | ⟨l2, rfl⟩
      · exact asciiTags_of_goodEvent _ (hgood e h1)
      · trivial
    have hdata : (escape_non_ascii
        (String.mk (renderIndent false 0 (snapshotEvents ss)))).data =
        ((encF false 0 (snapshotEvents ss)).map renderEvent).flatten := by
      rw [renderIndent_eq]
      rw [escape_flatRender _ hAscii]
      rfl
    have hgood2 : ∀ e ∈ encF false 0 (snapshotEvents ss), GoodEvent e := by
      intro e he
      rw [encF] at he
      obtain ⟨x, hx, rfl⟩ := List.mem_map.1 he
      exact good_escEvent _ (good_indentedEvents _ _ _ hgood x hx)
    have hchain2 : List.Chain' notTT (encF false 0 (snapshotEvents ss)) := by
      rw [encF]
      exact chain_notTT_map_escEvent _
        (chain_notTT_indentedEvents _ _ _ hchain)
    rw [SerializableSnapshot.from_xml]
    rw [hdata]
    rw [lexChars_flatRender _ hgood2 hchain2]
    exact parseKG_encode ss ht


/-! ## The structured layer: `TryFrom<SerializableSnapshot>` after
`From<&Snapshot>` -/

theorem setEntry_fresh {α β : Type} [DecidableEq α] (k : α) (v : β) :
    ∀ l : List (α × β), (∀ p ∈ l, p.1 ≠ k) →
      setEntry k v l = l ++ [(k, v)] := by
  intro l
  induction l with
  | nil => intro _; rfl
  | cons p rest ih =>
      intro h
      obtain ⟨k1, v1⟩ := p
      rw [setEntry]
      rw [if_neg (fun hc =>
        h (k1, v1) (List.mem_cons_self _ _) hc.symm)]
      rw [ih (fun q hq => h q (List.mem_cons_of_mem _ hq))]
      rfl

theorem foldl_insert_val {α β : Type} [DecidableEq α] [DecidableEq β] :
    ∀ (l : List (α × β)) (m : SMap α β),
      KeysNodup l → (∀ p ∈ m.val, ∀ q ∈ l, p.1 ≠ q.1) →
      (l.foldl (fun m p => m.insert p.1 p.2) m).val = m.val ++ l := by
  intro l
  induction l with
  | nil => intro m _ _; simp
  | cons q rest ih =>
      intro m hnodup hdisj
      rw [List.foldl_cons]
      have hins : (m.insert q.1 q.2).val = m.val ++ [q] := by
        show setEntry q.1 q.2 m.val = m.val ++ [q]
        rw [setEntry_fresh q.1 q.2 m.val
          (fun p hp => hdisj p hp q (List.mem_cons_self _ _))]
      rw [ih (m.insert q.1 q.2)
        (List.pairwise_cons.1 hnodup).2
        (by
          intro p hp r hr
          rw [hins] at hp
          rcases List.mem_append.1 hp with hp | hp
          · exact hdisj p hp r (List.mem_cons_of_mem _ hr)
          · rw [List.mem_singleton] at hp
            subst hp
            exact (List.pairwise_cons.1 hnodup).1 r hr)]
      rw [hins]
      simp

theorem SMap.ofList_self {α β : Type} [DecidableEq α] [DecidableEq β]
    (m : SMap α β) : SMap.ofList m.val = m := by
  apply SMap.ext
  rw [SMap.ofList]
  rw [foldl_insert_val m.val SMap.empty m.property
    (by intro p hp; exact absurd hp (List.not_mem_nil p))]
  rfl

theorem tryFrom_ofEntityNode (n : EntityNode) :
    EntityNode.tryFromSerializable (SerializableEntity.ofEntityNode n) =
      Except.ok n := by
  obtain ⟨id, content, dt, ats, x, y⟩ := n
  cases dt <;>
    simp [EntityNode.tryFromSerializable, SerializableEntity.ofEntityNode,
      SerializableEntity.default, DistinctEntityType.class_name,
      DistinctEntityType.level, EntityNode.new, finsetToList_toFinset]

theorem to_edge_from_edge (f t : Nat) (r : Relation) :
    (SerializableEdge.from_edge f t r).to_edge = Except.ok (f, t, r) := by
  cases r <;>
    simp [SerializableEdge.from_edge, SerializableEdge.to_edge,
      SerializableEdge.default, Relation.class_name, Relation.classification]

theorem mapM_map_ok {γ δ ε : Type} (h : γ → δ)
    (f : δ → Except SerdeError ε) (g : γ → ε) :
    ∀ (l : List γ), (∀ x ∈ l, f (h x) = Except.ok (g x)) →
      (l.map h).mapM f = Except.ok (l.map g) := by
  intro l
  induction l with
  | nil => intro _; rfl
  | cons x xs ih =>
      intro hall
      rw [List.map_cons, List.mapM_cons]
      rw [hall x (List.mem_cons_self _ _),
        ih (fun y hy => hall y (List.mem_cons_of_mem _ hy))]
      rfl

theorem map_id_pairs (l : List (Nat × EntityNode))
    (h : ∀ p ∈ l, p.2.id = p.1) :
    l.map (fun p => (p.2.id, p.2)) = l := by
  induction l with
  | nil => rfl
  | cons p rest ih =>
      rw [List.map_cons, h p (List.mem_cons_self _ _),
        ih (fun q hq => h q (List.mem_cons_of_mem _ hq))]

theorem map_id_edges (l : List ((Nat × Nat) × Relation)) :
    l.map (fun p => ((p.1.1, p.1.2), p.2)) = l := by
  induction l with
  | nil => rfl
  | cons p rest ih => rw [List.map_cons, ih]

theorem tryFrom_ofSnapshot (s : Snapshot)
    (hids : ∀ p ∈ s.nodes.val, p.2.id = p.1) :
    Snapshot.tryFromSerializable (SerializableSnapshot.ofSnapshot s) =
      Except.ok { nodes := s.nodes, edges := s.edges,
                  latest_id :=
                    (s.nodes.val.foldl (fun a p => max a p.1) 0) + 1 } := by
  rw [Snapshot.tryFromSerializable]
  have hn : (SerializableSnapshot.ofSnapshot s).entities.mapM
      (fun entity => do
        let n ← EntityNode.tryFromSerializable entity
        pure (n.id, n)) = Except.ok s.nodes.val := by
    show (s.nodes.val.map
      (fun p => SerializableEntity.ofEntityNode p.2)).mapM _ = _
    rw [mapM_map_ok (fun p => SerializableEntity.ofEntityNode p.2) _
      (fun p => (p.2.id, p.2)) s.nodes.val (by
        intro p hp
        show (do
          let n ← EntityNode.tryFromSerializable
            (SerializableEntity.ofEntityNode p.2)
          pure (n.id, n) : Except SerdeError (Nat × EntityNode)) = _
        rw [tryFrom_ofEntityNode]
        rfl)]
    rw [map_id_pairs s.nodes.val hids]
  have he : (SerializableSnapshot.ofSnapshot s).relations.mapM
      (fun edge => do
        let et ← SerializableEdge.to_edge edge
        pure ((et.1, et.2.1), et.2.2)) = Except.ok s.edges.val := by
    show (s.edges.val.map
      (fun p => SerializableEdge.from_edge p.1.1 p.1.2 p.2)).mapM _ = _
    rw [mapM_map_ok (fun p => SerializableEdge.from_edge p.1.1 p.1.2 p.2) _
      (fun p => ((p.1.1, p.1.2), p.2)) s.edges.val (by
        intro p hp
        show (do
          let et ← SerializableEdge.to_edge
            (SerializableEdge.from_edge p.1.1 p.1.2 p.2)
          pure ((et.1, et.2.1), et.2.2) :
            Except SerdeError ((Nat × Nat) × Relation)) = _
        rw [to_edge_from_edge]
        rfl)]
    rw [map_id_edges s.edges.val]
  rw [hn]
  simp only [ok_bind]
  rw [he]
  simp only [ok_bind]
  rw [SMap.ofList_self s.nodes, SMap.ofList_self s.edges]



/-! ## The program's equality (`PartialEq`)

The round-trip claim compares snapshots with the derived `PartialEq`,
which on `f64` is not reflexive: `NaN != NaN`, and `-0.0 == 0.0`.
`im::HashMap`s compare equal when they have the same keys with
`PartialEq`-equal values. -/

theorem findEntry_of_mem {α β : Type} [DecidableEq α] :
    ∀ (l : List (α × β)), KeysNodup l → ∀ p ∈ l,
      findEntry p.1 l = some p.2 := by
  intro l
  induction l with
  | nil => intro _ p hp; exact absurd hp (List.not_mem_nil p)
  | cons q rest ih =>
      obtain ⟨qk, qv⟩ := q
      intro h p hp
      rcases List.mem_cons.1 hp with rfl | hp2
      · show findEntry qk ((qk, qv) :: rest) = some qv
        rw [findEntry, if_pos rfl]
      · obtain ⟨pk, pv⟩ := p
        show findEntry pk ((qk, qv) :: rest) = some pv
        rw [findEntry]
        rw [if_neg (fun hc =>
          ((List.pairwise_cons.1 h).1 (pk, pv) hp2) hc.symm)]
        exact ih (List.pairwise_cons.1 h).2 (pk, pv) hp2

/-- `PartialEq` of two maps, the values compared by `vq`. -/
def SMap.peqBy {α β : Type} [DecidableEq α] (vq : β → β → Bool)
    (m1 m2 : SMap α β) : Bool :=
  decide (m1.val.length = m2.val.length) &&
  m1.val.all (fun p =>
    match m2.get p.1 with
    | some v => vq p.2 v
    | none => false)

theorem SMap.peqBy_refl {α β : Type} [DecidableEq α] (vq : β → β → Bool)
    (m : SMap α β) (h : ∀ p ∈ m.val, vq p.2 p.2 = true) :
    SMap.peqBy vq m m = true := by
  rw [SMap.peqBy, Bool.and_eq_true]
  refine ⟨by simp, ?_⟩
  rw [List.all_eq_true]
  intro p hp
  rw [show m.get p.1 = some p.2 from
    findEntry_of_mem m.val m.property p hp]
  exact h p hp

/-- Derived `PartialEq` of two entity nodes: every field structural,
the coordinates by `f64` equality. -/
def EntityNode.peq (a b : EntityNode) : Bool :=
  decide (a.id = b.id) && decide (a.content = b.content) &&
  decide (a.distinct_type = b.distinct_type) &&
  decide (a.addon_types = b.addon_types) &&
  F64.peq a.coor.1 b.coor.1 && F64.peq a.coor.2 b.coor.2

theorem entityNode_peq_refl (n : EntityNode)
    (h1 : (n.coor.1).val ≠ F64Shape.nan)
    (h2 : (n.coor.2).val ≠ F64Shape.nan) :
    EntityNode.peq n n = true := by
  rw [EntityNode.peq]
  simp [F64.peq_refl _ h1, F64.peq_refl _ h2]

/-- Derived `PartialEq` of two snapshots. -/
def Snapshot.peq (a b : Snapshot) : Bool :=
  SMap.peqBy EntityNode.peq a.nodes b.nodes &&
  SMap.peqBy (fun r1 r2 => decide (r1 = r2)) a.edges b.edges &&
  decide (a.latest_id = b.latest_id)

/-- `PartialEq` of two `Result<Snapshot, _>` values, as
`Snapshot::from_xml(s.to_xml()) == Ok(s)` compares them. -/
def resultPeq : Except SerdeError Snapshot → Except SerdeError Snapshot →
    Bool
  | Except.ok a, Except.ok b => Snapshot.peq a b
  | Except.error a, Except.error b => decide (a = b)
  | _, _ => false

theorem snapshot_peq_refl (s : Snapshot)
    (h : ∀ p ∈ s.nodes.val,
      (p.2.coor.1).val ≠ F64Shape.nan ∧ (p.2.coor.2).val ≠ F64Shape.nan) :
    Snapshot.peq s s = true := by
  rw [Snapshot.peq, Bool.and_eq_true, Bool.and_eq_true]
  refine ⟨⟨?_, ?_⟩, by simp⟩
  · exact SMap.peqBy_refl _ _
      (fun p hp => entityNode_peq_refl p.2 (h p hp).1 (h p hp).2)
  · exact SMap.peqBy_refl _ _ (fun p hp => by simp)

/-! ## C1 and C10 -/

/-- A witness node with unicode content and an empty addon set. -/
def wNode : EntityNode :=
  { id := 1, content := "知识点A<&>",
    distinct_type := DistinctEntityType.KnowledgePoint,
    addon_types := ∅,
    coor := (⟨F64Shape.finite false [3] [2, 5], by decide⟩,
             ⟨F64Shape.finite true [4] [], by decide⟩) }

/-- A witness snapshot: one node, one self edge, and the id counter in
the exact state `from_xml` recomputes. -/
def wSnap : Snapshot :=
  { nodes := ⟨[(1, wNode)], by decide⟩,
    edges := ⟨[((1, 1), Relation.Contain)], by decide⟩,
    latest_id := 2 }

/-- A snapshot whose id counter is not the recomputed value
`max id + 1`: the decoder will not restore it. -/
def cexSnap : Snapshot := { nodes := ∅, edges := ∅, latest_id := 5 }

/-- A node with a `NaN` coordinate (a legal `add_entity` input). -/
def nanNode : EntityNode :=
  { id := 1, content := "A",
    distinct_type := DistinctEntityType.KnowledgePoint,
    addon_types := ∅, coor := (f64NaN, f64Zero) }

/-- A snapshot holding `nanNode`, with the node keyed by its id and
the id counter in the recomputed state. -/
def nanSnap : Snapshot :=
  { nodes := ⟨[(1, nanNode)], by decide⟩, edges := ∅, latest_id := 2 }

set_option maxRecDepth 4000 in
/-- C1 (counterexample): the round trip does not hold for every
snapshot, in two independent ways.  First, `from_xml` recomputes the
id counter as one greater than the largest node id (codec.rs), so the
empty snapshot with `latest_id = 5` decodes with `latest_id = 1` and
`from_xml(to_xml s) == Ok(s)` is false.  Second, a snapshot with a
`NaN` coordinate satisfies both the node-key and the id-counter
hypotheses, encodes and decodes successfully, and still fails the
comparison, because the derived `PartialEq` has `NaN != NaN`. -/
theorem C1_round_trip_counterexample :
    (resultPeq
      (match Snapshot.to_xml cexSnap with
       | Except.ok d => Snapshot.from_xml d
       | Except.error e => Except.error e)
      (Except.ok cexSnap) = false) ∧
    ((∀ p ∈ nanSnap.nodes.val, p.2.id = p.1) ∧
     nanSnap.latest_id =
       (nanSnap.nodes.val.foldl (fun a p => max a p.1) 0) + 1 ∧
     resultPeq
       (match Snapshot.to_xml nanSnap with
        | Except.ok d => Snapshot.from_xml d
        | Except.error e => Except.error e)
       (Except.ok nanSnap) = false) := by
  decide

/-- C1 (amended): decoding the document produced by encoding `s`
yields a snapshot identical to `s`, and `from_xml(to_xml s) == Ok(s)`
holds under the program's `PartialEq`, provided every node is keyed by
its own id, the id counter already has the recomputed value (one
greater than the largest node id), and no coordinate is `NaN`.  The
first two hypotheses fail on the `latest_id` counterexample; without
the third the comparison fails on the `NaN` counterexample even though
the decoded snapshot is bit-identical. -/
theorem C1_round_trip_amended (s : Snapshot)
    (hids : ∀ p ∈ s.nodes.val, p.2.id = p.1)
    (hlatest : s.latest_id =
      (s.nodes.val.foldl (fun a p => max a p.1) 0) + 1)
    (hnan : ∀ p ∈ s.nodes.val,
      (p.2.coor.1).val ≠ F64Shape.nan ∧
      (p.2.coor.2).val ≠ F64Shape.nan) :
    ∃ doc, Snapshot.to_xml s = Except.ok doc ∧
      Snapshot.from_xml doc = Except.ok s ∧
      resultPeq (Snapshot.from_xml doc) (Except.ok s) = true := by
  obtain ⟨out, h1, h2⟩ := to_from_serializable
    (SerializableSnapshot.ofSnapshot s)
    (by show ("教学知识图谱" : String).data ≠ []; decide)
  have hfrom : Snapshot.from_xml out = Except.ok s := by
    rw [Snapshot.from_xml]
    rw [h2]
    simp only [ok_bind]
    rw [tryFrom_ofSnapshot s hids]
    rw [← hlatest]
  refine ⟨out, ?_, hfrom, ?_⟩
  · rw [Snapshot.to_xml]
    exact h1
  · rw [hfrom]
    show Snapshot.peq s s = true
    exact snapshot_peq_refl s hnan

/-- C1 witness: a concrete snapshot (unicode content, an empty addon
set, non-integral and negative coordinates, a self edge) satisfying
the three amended hypotheses round-trips, also under the program's
`PartialEq`. -/
theorem C1_round_trip_witness :
    (∀ p ∈ wSnap.nodes.val, p.2.id = p.1) ∧
    wSnap.latest_id =
      (wSnap.nodes.val.foldl (fun a p => max a p.1) 0) + 1 ∧
    (∀ p ∈ wSnap.nodes.val,
      (p.2.coor.1).val ≠ F64Shape.nan ∧
      (p.2.coor.2).val ≠ F64Shape.nan) ∧
    (∃ doc, Snapshot.to_xml wSnap = Except.ok doc ∧
      Snapshot.from_xml doc = Except.ok wSnap ∧
      resultPeq (Snapshot.from_xml doc) (Except.ok wSnap) = true) :=
  ⟨by decide, by decide, by decide,
    C1_round_trip_amended wSnap (by decide) (by decide) (by decide)⟩

/-- C10: the escaping rule runs as a final text-level pass over the
whole serialized document.  Whenever `to_xml` succeeds there is a fully
serialized, indented document `d` such that the output is exactly
`escape_non_ascii` applied to `d`: character for character, an ASCII
character of `d` passes through unchanged and every character with
code point at least 128 becomes its decimal numeric character
reference `&#n;`. -/
theorem C10_escape_final_pass (s : Snapshot) (out : String)
    (h : Snapshot.to_xml s = Except.ok out) :
    ∃ d : List Char,
      indent_xml (seString (SerializableSnapshot.ofSnapshot s)) = some d ∧
      out = escape_non_ascii (String.mk d) ∧
      out.data = d.flatMap escNAC ∧
      (∀ c, charIsAscii c = true → escNAC c = [c]) ∧
      (∀ c, charIsAscii c = false →
        escNAC c = '&' :: ('#' ::
          ((natRepr c.toNat).data ++ [';']))) := by
  rw [Snapshot.to_xml, SerializableSnapshot.to_xml] at h
  cases hind : indent_xml (seString (SerializableSnapshot.ofSnapshot s)) with
  | none =>
      rw [hind] at h
      exact absurd h (by simp)
  | some d =>
      rw [hind] at h
      have hout : out = escape_non_ascii (String.mk d) :=
        (Except.ok.inj h).symm
      subst hout
      refine ⟨d, rfl, rfl, escape_non_ascii_data _, ?_, ?_⟩
      · intro c hc
        rw [escNAC, if_pos hc]
      · intro c hc
        rw [escNAC, if_neg (by rw [hc]; exact Bool.false_ne_true)]
        rfl

/-- The document the default snapshot serialises to. -/
def wOut : String :=
  match Snapshot.to_xml Snapshot.default with
  | Except.ok s => s
  | Except.error _ => ""

/-- C10 witness: the default snapshot's encoding succeeds and the
escape pass decomposition holds for it. -/
theorem C10_escape_final_pass_witness :
    Snapshot.to_xml Snapshot.default = Except.ok wOut ∧
    (∃ d : List Char,
      indent_xml (seString
        (SerializableSnapshot.ofSnapshot Snapshot.default)) = some d ∧
      wOut = escape_non_ascii (String.mk d) ∧
      wOut.data = d.flatMap escNAC ∧
      (∀ c, charIsAscii c = true → escNAC c = [c]) ∧
      (∀ c, charIsAscii c = false →
        escNAC c = '&' :: ('#' ::
          ((natRepr c.toNat).data ++ [';'])))) :=
  ⟨by decide, C10_escape_final_pass Snapshot.default wOut (by decide)⟩

end KtSqep
